import Mathlib

/-!
# Crypto portfolio tracker: a shallow embedding of the server

The development embeds the server-side code of the tracker:

* `server/models/Portfolio.js` (holdings, metrics, allocation, performers,
  `findOrCreatePortfolio`),
* `server/routes/portfolio.js` with `server/middleware/validation.js`
  (the holdings routes behind `validatePortfolioData`, the summary, and the
  rate limiter `validateRateLimit`),
* `server/services/websocket.js` (connection table, price fan-out, alerts),
* `server/services/priceUpdater.js` (`updatePortfolioPrices`),
* `server/services/cache.js` (`MemoryCache` with its expiry timers).

Conventions of the embedding.

* A stored JavaScript `Number` is a rational `ℚ`, and the sums and products of
  the metrics are the exact ones.  `NaN` from `parseFloat` of an absent field
  is represented by `none`.  Where rounding, overflow or a zero divisor matter
  (the performance of the summary route and the merged average of
  `addOrUpdateHolding`) the expression is evaluated in `JsNum`: every operation
  is rounded to binary64 (to nearest, ties to even) and may give `NaN` or an
  infinity.  The sign of a zero is not tracked.
* `Date` values are natural numbers (milliseconds); the clock is an argument.
* A `Map`, a `Set` and a plain object are insertion-ordered lists; the helper
  functions below keep keys unique exactly as the JavaScript containers do.
* Mongo `ObjectId`s are natural numbers.
-/

namespace CryptoTracker

/-! ## JavaScript helpers -/

/-- The value of `a || b` on numbers: `a` unless it is falsy (zero). -/
def orElse (a b : ℚ) : ℚ := if a ≠ 0 then a else b

/-- `String.prototype.toUpperCase`, on the ASCII range. -/
def toUpperCase (s : String) : String := ⟨s.data.map Char.toUpper⟩

/-- `String.prototype.toLowerCase`, on the ASCII range. -/
def toLowerCase (s : String) : String := ⟨s.data.map Char.toLower⟩

/-- `String.prototype.trim`, as called by the `trim` setter of a schema path
and by the sanitizer `trim()` of a validation chain, on ASCII white space. -/
def trim (s : String) : String :=
  ⟨((s.data.dropWhile Char.isWhitespace).reverse.dropWhile Char.isWhitespace).reverse⟩

/-- `Array.prototype.sort(cmp)`: a stable sort that places `a` before `b`
whenever `cmp a b ≤ 0`. -/
def jsSort {α : Type} (cmp : α → α → ℚ) (l : List α) : List α :=
  l.insertionSort (fun a b => cmp a b ≤ 0)

/-- `Map.prototype.set` and property assignment `obj[k] = v`: overwrite the
value of an existing key in place, otherwise append the entry. -/
def mapSet {β : Type} (k : String) (v : β) : List (String × β) → List (String × β)
  | [] => [(k, v)]
  | (k', v') :: rest => if k' = k then (k, v) :: rest else (k', v') :: mapSet k v rest

/-- `Map.prototype.get` and property read `obj[k]`. -/
def mapGet {β : Type} (k : String) : List (String × β) → Option β
  | [] => none
  | (k', v') :: rest => if k' = k then some v' else mapGet k rest

/-- `Map.prototype.delete`. -/
def mapDelete {β : Type} (k : String) (m : List (String × β)) : List (String × β) :=
  m.filter (fun e => e.1 ≠ k)

/-- `Set.prototype.add`. -/
def setAdd (x : String) (s : List String) : List String :=
  if x ∈ s then s else s ++ [x]

/-- `new Set(iterable)`. -/
def newSet (xs : List String) : List String :=
  xs.foldl (fun s x => setAdd x s) []

/-! ## `server/models/Portfolio.js` -/

/-- A document of `holdingSchema`. -/
structure Holding where
  id : Nat
  symbol : String
  name : String
  amount : ℚ
  purchasePrice : ℚ
  averagePurchasePrice : ℚ
  currentPrice : ℚ
  addedAt : Nat
  updatedAt : Nat
  notes : String
  tags : List String
deriving DecidableEq, Repr

/-- A document of `portfolioSchema` (the `settings` and `metadata`
sub-documents play no part in any embedded function and are left out). -/
structure Portfolio where
  id : Nat
  userId : String
  holdings : List Holding
  totalInvested : ℚ
  totalCurrentValue : ℚ
  totalProfitLoss : ℚ
  totalProfitLossPercentage : ℚ
  lastUpdated : Nat
deriving DecidableEq, Repr

/-- The input of `new Portfolio({ userId, holdings })`: a holding as written by
the caller, `currentPrice` being optional with schema default `0`. -/
structure HoldingInput where
  symbol : String
  name : String
  amount : ℚ
  purchasePrice : ℚ
  averagePurchasePrice : ℚ
  currentPrice : Option ℚ
deriving DecidableEq, Repr

/-- Sub-document construction: the `uppercase` and `trim` setters on `symbol`,
the `trim` setter on `name`, schema defaults for `currentPrice`, the dates, and
a fresh `_id`. -/
def mkHolding (id now : Nat) (d : HoldingInput) : Holding :=
  { id := id
    symbol := trim (toUpperCase d.symbol)
    name := trim d.name
    amount := d.amount
    purchasePrice := d.purchasePrice
    averagePurchasePrice := d.averagePurchasePrice
    currentPrice := d.currentPrice.getD 0
    addedAt := now
    updatedAt := now
    notes := ""
    tags := [] }

/-- Fresh ids `firstId, firstId + 1, ...` for an array of sub-documents. -/
def mkHoldings (now : Nat) : Nat → List HoldingInput → List Holding
  | _, [] => []
  | firstId, d :: ds => mkHolding firstId now d :: mkHoldings now (firstId + 1) ds

/-- `new Portfolio({ userId, holdings })`: the four totals take their schema
default `0`; nothing computes them at construction. -/
def newPortfolio (id : Nat) (userId : String) (holdings : List HoldingInput)
    (now : Nat) : Portfolio :=
  { id := id
    userId := userId
    holdings := mkHoldings now (id + 1) holdings
    totalInvested := 0
    totalCurrentValue := 0
    totalProfitLoss := 0
    totalProfitLossPercentage := 0
    lastUpdated := now }

/-- The `currentValue` virtual of a holding. -/
def Holding.currentValue (h : Holding) : ℚ :=
  h.amount * orElse h.currentPrice h.purchasePrice

/-- The `profitLossPercentage` virtual of a holding. -/
def Holding.profitLossPercentage (h : Holding) : ℚ :=
  (orElse h.currentPrice h.purchasePrice - h.averagePurchasePrice)
    / h.averagePurchasePrice * 100

/-- The object returned by the `portfolioMetrics` virtual. -/
structure Metrics where
  totalInvested : ℚ
  totalCurrentValue : ℚ
  totalProfitLoss : ℚ
  totalProfitLossPercentage : ℚ
  holdingsCount : Nat
deriving DecidableEq, Repr

/-- The `forEach` accumulation of `portfolioMetrics`: the pair
`(totalInvested, totalCurrentValue)` after visiting the holdings in order. -/
def accumulateTotals (hs : List Holding) : ℚ × ℚ :=
  hs.foldl
    (fun acc h =>
      (acc.1 + h.amount * h.averagePurchasePrice,
       acc.2 + h.amount * orElse h.currentPrice h.purchasePrice))
    (0, 0)

/-- The `portfolioMetrics` virtual. -/
def portfolioMetrics (p : Portfolio) : Metrics :=
  if p.holdings.length = 0 then
    { totalInvested := 0, totalCurrentValue := 0, totalProfitLoss := 0,
      totalProfitLossPercentage := 0, holdingsCount := 0 }
  else
    let totals := accumulateTotals p.holdings
    let totalInvested := totals.1
    let totalCurrentValue := totals.2
    let totalProfitLoss := totalCurrentValue - totalInvested
    let totalProfitLossPercentage :=
      if totalInvested > 0 then totalProfitLoss / totalInvested * 100 else 0
    { totalInvested := totalInvested
      totalCurrentValue := totalCurrentValue
      totalProfitLoss := totalProfitLoss
      totalProfitLossPercentage := totalProfitLossPercentage
      holdingsCount := p.holdings.length }

/-- The method `updateMetrics`. -/
def updateMetrics (p : Portfolio) (now : Nat) : Portfolio :=
  let metrics := portfolioMetrics p
  { p with
    totalInvested := metrics.totalInvested
    totalCurrentValue := metrics.totalCurrentValue
    totalProfitLoss := metrics.totalProfitLoss
    totalProfitLossPercentage := metrics.totalProfitLossPercentage
    lastUpdated := now }

/-- The argument of `addOrUpdateHolding`. -/
structure HoldingData where
  symbol : String
  name : String
  amount : ℚ
  purchasePrice : ℚ
  notes : Option String
  tags : Option (List String)
deriving DecidableEq, Repr

/-- The branch of `addOrUpdateHolding` taken when `find` returns a holding:
the in-place update of that sub-document. -/
def mergeHolding (existingHolding : Holding) (holdingData : HoldingData) (now : Nat) :
    Holding :=
  let totalAmount := existingHolding.amount + holdingData.amount
  let totalValue := existingHolding.amount * existingHolding.averagePurchasePrice
    + holdingData.amount * holdingData.purchasePrice
  { existingHolding with
    amount := totalAmount
    averagePurchasePrice := totalValue / totalAmount
    updatedAt := now
    notes := match holdingData.notes with
      | some n => if n ≠ "" then n else existingHolding.notes
      | none => existingHolding.notes
    tags := match holdingData.tags with
      | some t => t.map trim
      | none => existingHolding.tags }

/-- Apply `f` to the first element satisfying `p`: the effect on the array of
mutating the element returned by `Array.prototype.find`. -/
def updateFirst {α : Type} (p : α → Bool) (f : α → α) : List α → List α
  | [] => []
  | x :: xs => if p x then f x :: xs else x :: updateFirst p f xs

/-- The method `addOrUpdateHolding`; `freshId` is the `_id` given to a pushed
sub-document. -/
def addOrUpdateHolding (p : Portfolio) (holdingData : HoldingData) (freshId now : Nat) :
    Portfolio :=
  let isIt : Holding → Bool := fun h => h.symbol = toUpperCase holdingData.symbol
  match p.holdings.find? isIt with
  | some _ =>
    updateMetrics
      { p with holdings := updateFirst isIt (fun h => mergeHolding h holdingData now) p.holdings }
      now
  | none =>
    updateMetrics
      { p with holdings := p.holdings ++
          [{ id := freshId
             symbol := trim (toUpperCase holdingData.symbol)
             name := trim holdingData.name
             amount := holdingData.amount
             purchasePrice := holdingData.purchasePrice
             averagePurchasePrice := holdingData.purchasePrice
             currentPrice := 0
             addedAt := now
             updatedAt := now
             notes := holdingData.notes.getD ""
             tags := (holdingData.tags.getD []).map trim }] }
      now

/-- An element of the array returned by `getAllocation`. -/
structure AllocationEntry where
  symbol : String
  name : String
  value : ℚ
  percentage : ℚ
deriving DecidableEq, Repr

/-- The method `getAllocation`: it reads the stored field `totalCurrentValue`. -/
def getAllocation (p : Portfolio) : List AllocationEntry :=
  let totalValue := p.totalCurrentValue
  if totalValue = 0 then []
  else
    jsSort (fun a b => b.percentage - a.percentage)
      (p.holdings.map fun holding =>
        { symbol := holding.symbol
          name := holding.name
          value := holding.currentValue
          percentage := holding.currentValue / totalValue * 100 })

/-! ## `server/middleware/validation.js`: `validatePortfolioData`

The validation chains are built with `express-validator`, a third-party
library.  Its standard validators run on the string form of the field (the
empty string for an absent field), every failing validator of a chain adds one
error, and `optional()` skips the chain of an absent field. -/

/-- The `value` echoed in a validation error. -/
inductive FieldValue where
  | undefined
  | str (s : String)
  | num (q : ℚ)
  | strs (l : List String)
deriving DecidableEq, Repr

/-- One element of the `errors` array of a 400 response. -/
structure FieldError where
  field : String
  message : String
  value : FieldValue
deriving DecidableEq, Repr

/-- The JSON body of a holdings request; an absent field is `none`. -/
structure HoldingBody where
  symbol : Option String
  name : Option String
  amount : Option ℚ
  purchasePrice : Option ℚ
  notes : Option String
  tags : Option (List String)
deriving DecidableEq, Repr

/-- The echoed value of an optional string field. -/
def strValue : Option String → FieldValue
  | some s => FieldValue.str s
  | none => FieldValue.undefined

/-- The echoed value of an optional numeric field. -/
def numValue : Option ℚ → FieldValue
  | some q => FieldValue.num q
  | none => FieldValue.undefined

/-- The chain `body('symbol').notEmpty().isLength({ min: 1, max: 10 })
.matches(/^[A-Za-z0-9]+$/)`. -/
def symbolErrors (v : Option String) : List FieldError :=
  let s := v.getD ""
  (if s = "" then [⟨"symbol", "Symbol is required", strValue v⟩] else [])
  ++ (if 1 ≤ s.length ∧ s.length ≤ 10 then []
      else [⟨"symbol", "Symbol must be between 1 and 10 characters", strValue v⟩])
  ++ (if s ≠ "" ∧ s.data.all Char.isAlphanum then []
      else [⟨"symbol", "Symbol must contain only letters and numbers", strValue v⟩])

/-- The chain `body('name').optional().isLength({ min: 1, max: 100 })`. -/
def nameErrors (v : Option String) : List FieldError :=
  match v with
  | none => []
  | some s =>
    if 1 ≤ s.length ∧ s.length ≤ 100 then []
    else [⟨"name", "Name must be between 1 and 100 characters", strValue v⟩]

/-- The chain `body('amount').notEmpty().isFloat({ min: 0.00000001 })`. -/
def amountErrors (v : Option ℚ) : List FieldError :=
  match v with
  | none =>
    [⟨"amount", "Amount is required", FieldValue.undefined⟩,
     ⟨"amount", "Amount must be a positive number greater than 0", FieldValue.undefined⟩]
  | some q =>
    if (1 : ℚ) / 100000000 ≤ q then []
    else [⟨"amount", "Amount must be a positive number greater than 0", FieldValue.num q⟩]

/-- The chain `body('purchasePrice').optional().isFloat({ min: 0 })`. -/
def purchasePriceErrors (v : Option ℚ) : List FieldError :=
  match v with
  | none => []
  | some q =>
    if 0 ≤ q then []
    else [⟨"purchasePrice", "Purchase price must be a positive number", FieldValue.num q⟩]

/-- The chain `body('notes').optional().isLength({ max: 500 })`. -/
def notesErrors (v : Option String) : List FieldError :=
  match v with
  | none => []
  | some s =>
    if s.length ≤ 500 then []
    else [⟨"notes", "Notes must be less than 500 characters", strValue v⟩]

/-- The chain `body('tags.*').optional().isLength({ min: 1, max: 50 })` on the
elements from index `i` on. -/
def tagErrorsFrom : Nat → List String → List FieldError
  | _, [] => []
  | i, t :: ts =>
    (if 1 ≤ t.length ∧ t.length ≤ 50 then []
     else [⟨"tags[" ++ toString i ++ "]", "Each tag must be between 1 and 50 characters",
            FieldValue.str t⟩])
    ++ tagErrorsFrom (i + 1) ts

/-- The chains `body('tags').optional().isArray()` and `body('tags.*')`. -/
def tagsErrors (v : Option (List String)) : List FieldError :=
  match v with
  | none => []
  | some ts => tagErrorsFrom 0 ts

/-- The errors collected by the validation chains of `validatePortfolioData`,
in the order of the chains. -/
def validatePortfolioData (body : HoldingBody) : List FieldError :=
  symbolErrors body.symbol ++ nameErrors body.name ++ amountErrors body.amount
    ++ purchasePriceErrors body.purchasePrice ++ notesErrors body.notes
    ++ tagsErrors body.tags

/-- The request body after the `trim()` sanitizers of the chains. -/
def sanitizeBody (body : HoldingBody) : HoldingBody :=
  { body with
    name := body.name.map trim
    notes := body.notes.map trim
    tags := body.tags.map (List.map trim) }

/-- A JSON response of the portfolio routes. -/
structure Response where
  status : Nat
  success : Bool
  message : Option String
  data : Option (List Holding)
  errors : Option (List FieldError)
deriving DecidableEq, Repr

/-- The middleware `handleValidationErrors`: `some` response when it answers
itself, `none` when it calls `next()`. -/
def handleValidationErrors (errors : List FieldError) : Option Response :=
  if ¬ errors.isEmpty then
    some { status := 400, success := false, message := some "Validation failed",
           data := none, errors := some errors }
  else none

/-! ## `server/routes/portfolio.js` -/

/-- The portfolio collection, with the counter that issues `ObjectId`s. -/
structure Db where
  portfolios : List Portfolio
  nextId : Nat
deriving DecidableEq, Repr

/-- `Portfolio.findOne({ userId })`. -/
def findOne (db : Db) (userId : String) : Option Portfolio :=
  db.portfolios.find? (fun p => p.userId = userId)

/-- Schema validation of a holding on `save`: the `required` paths and the
`min: 0` and `maxlength: 500` validators of `holdingSchema`. -/
def validHolding (h : Holding) : Bool :=
  h.symbol ≠ "" ∧ h.name ≠ "" ∧ 0 ≤ h.amount ∧ 0 ≤ h.purchasePrice
    ∧ 0 ≤ h.averagePurchasePrice ∧ h.notes.length ≤ 500

/-- Schema validation of a portfolio on `save`: the `required` path `userId` and
the validation of every holding. -/
def validPortfolio (p : Portfolio) : Bool :=
  decide (p.userId ≠ "") && p.holdings.all validHolding

/-- Write a document into the collection: replace the stored document with the
same `_id`, or insert. -/
def store (p : Portfolio) : List Portfolio → List Portfolio
  | [] => [p]
  | q :: rest => if q.id = p.id then p :: rest else q :: store p rest

/-- The method `save` of a portfolio whose `holdings` path is modified: schema
validation, then the pre-save hook (`updateMetrics`), then the write.  It
gives the saved document and the collection, or `none` when validation
rejects. -/
def save (db : Db) (p : Portfolio) (now : Nat) : Option (Portfolio × Db) :=
  if validPortfolio p then
    let saved := updateMetrics p now
    some (saved, { db with portfolios := store saved db.portfolios })
  else none

/-- The expression `req.user?.id || 'demo-user'`. -/
def requestUserId (user : Option String) : String :=
  match user with
  | some u => if u ≠ "" then u else "demo-user"
  | none => "demo-user"

/-- The response of a `catch` block. -/
def failure (message : String) : Response :=
  { status := 500, success := false, message := some message, data := none, errors := none }

/-- The handler of `POST /holdings`, run after validation.  An absent `symbol`
throws at `symbol.toUpperCase()`, and an absent `amount` or `purchasePrice`
makes `parseFloat` yield `NaN`, which `save` rejects; each ends in the `catch`
block.  The divisor of the average is positive for every stored amount (schema
`min: 0`) and validated posted amount. -/
def postHoldingsHandler (db : Db) (user : Option String) (body : HoldingBody) (now : Nat) :
    Response × Db :=
  let userId := requestUserId user
  match body.symbol, body.amount, body.purchasePrice with
  | some symbol, some amount, some purchasePrice =>
    let found := findOne db userId
    let portfolio := found.getD (newPortfolio db.nextId userId [] now)
    let db1 : Db := if found.isSome then db else { db with nextId := db.nextId + 1 }
    let isIt : Holding → Bool := fun h => h.symbol = symbol
    let pushed := (portfolio.holdings.find? isIt).isNone
    let holdings :=
      match portfolio.holdings.find? isIt with
      | some _ =>
        updateFirst isIt
          (fun existingHolding =>
            let amount1 := existingHolding.amount + amount
            { existingHolding with
              amount := amount1
              averagePurchasePrice :=
                (existingHolding.averagePurchasePrice * amount1 + purchasePrice * amount)
                  / (amount1 + amount) })
          portfolio.holdings
      | none =>
        portfolio.holdings ++
          [{ id := db1.nextId
             symbol := trim (toUpperCase symbol)
             name := trim (body.name.getD "")
             amount := amount
             purchasePrice := purchasePrice
             averagePurchasePrice := purchasePrice
             currentPrice := 0
             addedAt := now
             updatedAt := now
             notes := ""
             tags := [] }]
    let db2 : Db := if pushed then { db1 with nextId := db1.nextId + 1 } else db1
    match save db2 { portfolio with holdings := holdings } now with
    | some (saved, db3) =>
      ({ status := 200, success := true, message := some "Holding added successfully",
         data := some saved.holdings, errors := none }, db3)
    | none => (failure "Failed to add holding", db)
  | _, _, _ => (failure "Failed to add holding", db)

/-- The route `POST /holdings`: `validatePortfolioData`, then the handler. -/
def postHoldings (db : Db) (user : Option String) (body : HoldingBody) (now : Nat) :
    Response × Db :=
  match handleValidationErrors (validatePortfolioData body) with
  | some response => (response, db)
  | none => postHoldingsHandler db user (sanitizeBody body) now

/-- A 404 response. -/
def notFound (message : String) : Response :=
  { status := 404, success := false, message := some message, data := none, errors := none }

/-- The handler of `PUT /holdings/:id`, run after validation. -/
def putHoldingHandler (db : Db) (user : Option String) (holdingId : Nat)
    (body : HoldingBody) (now : Nat) : Response × Db :=
  let userId := requestUserId user
  match findOne db userId with
  | none => (notFound "Portfolio not found", db)
  | some portfolio =>
    match portfolio.holdings.find? (fun h => h.id = holdingId) with
    | none => (notFound "Holding not found", db)
    | some _ =>
      let holdings :=
        updateFirst (fun h => h.id = holdingId)
          (fun holding =>
            let h1 : Holding :=
              match body.amount with
              | some amount => { holding with amount := amount }
              | none => holding
            let h2 : Holding :=
              match body.purchasePrice with
              | some purchasePrice =>
                { h1 with purchasePrice := purchasePrice, averagePurchasePrice := purchasePrice }
              | none => h1
            { h2 with updatedAt := now })
          portfolio.holdings
      match save db { portfolio with holdings := holdings } now with
      | some (saved, db1) =>
        ({ status := 200, success := true, message := some "Holding updated successfully",
           data := some saved.holdings, errors := none }, db1)
      | none => (failure "Failed to update holding", db)

/-- The route `PUT /holdings/:id`: `validatePortfolioData`, then the handler. -/
def putHolding (db : Db) (user : Option String) (holdingId : Nat) (body : HoldingBody)
    (now : Nat) : Response × Db :=
  match handleValidationErrors (validatePortfolioData body) with
  | some response => (response, db)
  | none => putHoldingHandler db user holdingId (sanitizeBody body) now

/-! ## `server/services/websocket.js` -/

/-- The price record of one coin in a price map. -/
structure PriceInfo where
  usd : Option ℚ
  usd_24h_change : Option ℚ
deriving DecidableEq, Repr

/-- A price map: the object keyed by coin, as fetched from the market API. -/
abbrev PriceData := List (String × PriceInfo)

/-- The names of the function members that every plain object inherits from
`Object.prototype`. -/
def objectPrototypeMembers : List String :=
  ["constructor", "hasOwnProperty", "isPrototypeOf", "propertyIsEnumerable", "toLocaleString",
   "toString", "valueOf", "__defineGetter__", "__defineSetter__", "__lookupGetter__",
   "__lookupSetter__"]

/-- The property read `priceData[key]` on the plain object `priceData`: the own
entry, else a member inherited from `Object.prototype`.  Such a member is a
function (for `__proto__` the prototype object): a truthy value that has
neither a `usd` nor a `usd_24h_change` property. -/
def getProperty (key : String) (priceData : PriceData) : Option PriceInfo :=
  match mapGet key priceData with
  | some info => some info
  | none =>
    if key ∈ objectPrototypeMembers ∨ key = "__proto__" then
      some { usd := none, usd_24h_change := none }
    else none

/-- A price alert registered through `subscribe-alerts`, which stores what the
client sent without validation; `symbol` is `none` when the alert has no string
`symbol`. -/
structure Alert where
  symbol : Option String
  type : String
  targetPrice : Option ℚ
  changePercent : Option ℚ
deriving DecidableEq, Repr

/-- An entry of `connectedUsers`. -/
structure User where
  socketId : String
  userId : Option String
  connectedAt : Nat
  subscriptions : List String
  alerts : Option (List Alert)
deriving DecidableEq, Repr

/-- The module state: `io`, `connectedUsers` and `userSubscriptions`. -/
structure WsState where
  io : Bool
  connectedUsers : List (String × User)
  userSubscriptions : List (String × List String)
deriving DecidableEq, Repr

/-- The module state at load time. -/
def WsState.initial : WsState :=
  { io := false, connectedUsers := [], userSubscriptions := [] }

/-- The function `initializeWebSocket`: it stores the server handle. -/
def initializeWebSocket (st : WsState) : WsState := { st with io := true }

/-- What a socket can deliver to the server. -/
inductive SocketEvent where
  | connection (socketId : String) (now : Nat)
  | authenticate (socketId : String) (userId : String)
  | subscribePortfolio (socketId : String) (userId : String) (symbols : List String)
  | subscribeAlerts (socketId : String) (alerts : List Alert)
  | unsubscribe (socketId : String)
  | disconnect (socketId : String)
deriving DecidableEq, Repr

/-- Truthiness of `user.userId`. -/
def truthyId : Option String → Option String
  | some u => if u ≠ "" then some u else none
  | none => none

/-- The block shared by the `unsubscribe` and `disconnect` handlers: remove the
socket from the socket set of its user, dropping the set when it empties. -/
def dropUserSocket (st : WsState) (socketId : String) : WsState :=
  match mapGet socketId st.connectedUsers with
  | some user =>
    match truthyId user.userId with
    | some userId =>
      match mapGet userId st.userSubscriptions with
      | some userSockets =>
        let userSockets1 := userSockets.filter (fun s => s ≠ socketId)
        if userSockets1.length = 0 then
          { st with userSubscriptions := mapDelete userId st.userSubscriptions }
        else
          { st with userSubscriptions := mapSet userId userSockets1 st.userSubscriptions }
      | none => st
    | none => st
  | none => st

/-- The socket handlers registered by `initializeWebSocket`, as one transition
function.  The initial `priceUpdate` that `subscribe-portfolio` sends from the
market-data service is a reply to the subscribing socket and leaves the state
alone; it is not part of the transition. -/
def handleEvent (st : WsState) : SocketEvent → WsState
  | SocketEvent.connection socketId now =>
    let user : User :=
      { socketId := socketId, userId := none, connectedAt := now,
        subscriptions := [], alerts := none }
    { st with connectedUsers := mapSet socketId user st.connectedUsers }
  | SocketEvent.authenticate socketId userId =>
    match mapGet socketId st.connectedUsers with
    | some user =>
      let user1 : User := { user with userId := some userId }
      { st with connectedUsers := mapSet socketId user1 st.connectedUsers }
    | none => st
  | SocketEvent.subscribePortfolio socketId userId symbols =>
    match mapGet socketId st.connectedUsers with
    | some user =>
      let user1 : User := { user with userId := some userId, subscriptions := newSet symbols }
      let userSockets := (mapGet userId st.userSubscriptions).getD []
      { st with
        connectedUsers := mapSet socketId user1 st.connectedUsers
        userSubscriptions := mapSet userId (setAdd socketId userSockets) st.userSubscriptions }
    | none => st
  | SocketEvent.subscribeAlerts socketId alerts =>
    match mapGet socketId st.connectedUsers with
    | some user =>
      let user1 : User := { user with alerts := some alerts }
      { st with connectedUsers := mapSet socketId user1 st.connectedUsers }
    | none => st
  | SocketEvent.unsubscribe socketId => dropUserSocket st socketId
  | SocketEvent.disconnect socketId =>
    let st1 := dropUserSocket st socketId
    { st1 with connectedUsers := mapDelete socketId st1.connectedUsers }

/-- The state after a sequence of socket events. -/
def runEvents (st : WsState) (events : List SocketEvent) : WsState :=
  events.foldl handleEvent st

/-- The text of a price alert, before the numbers are rendered in a string. -/
inductive AlertMessage where
  | above (symbol : String) (targetPrice : Option ℚ)
  | below (symbol : String) (targetPrice : Option ℚ)
  | change (symbol : String) (changePercent : ℚ)
deriving DecidableEq, Repr

/-- The payload of an emitted socket message. -/
inductive Payload where
  | priceUpdate (prices : PriceData) (timestamp : Nat)
  | portfolioUpdate (portfolio : Portfolio) (timestamp : Nat)
  | priceAlert (alert : Alert) (currentPrice : ℚ) (message : AlertMessage)
      (triggeredAt : Nat) (timestamp : Nat)
deriving DecidableEq, Repr

/-- One call `io.to(socketId).emit(...)`. -/
structure Emit where
  socketId : String
  payload : Payload
deriving DecidableEq, Repr

/-- The inner loop of `broadcastPriceUpdates`: the object `filteredPrices`
built from the subscription set of one user.  The test `priceData[symbol]` also
finds inherited members; the assignment `filteredPrices[symbol] = ...` adds or
overwrites an own entry, except for `__proto__`, where it runs the inherited
setter and adds no entry. -/
def filterPrices (subscriptions : List String) (priceData : PriceData) : PriceData :=
  subscriptions.foldl
    (fun filteredPrices symbol =>
      match getProperty symbol priceData with
      | some value =>
        if symbol = "__proto__" then filteredPrices else mapSet symbol value filteredPrices
      | none => filteredPrices)
    []

/-- The body of the `connectedUsers.forEach` of `broadcastPriceUpdates` for one
entry: the emit it makes, if any. -/
def priceUpdateFor (priceData : PriceData) (now : Nat) (entry : String × User) :
    Option Emit :=
  if entry.2.subscriptions.length > 0 then
    let filteredPrices := filterPrices entry.2.subscriptions priceData
    if filteredPrices.length > 0 then
      some { socketId := entry.1, payload := Payload.priceUpdate filteredPrices now }
    else none
  else none

/-- The function `broadcastPriceUpdates`: the emits it makes, in order. -/
def broadcastPriceUpdates (st : WsState) (priceData : PriceData) (now : Nat) : List Emit :=
  if ¬ st.io ∨ st.connectedUsers.length = 0 then []
  else st.connectedUsers.filterMap (priceUpdateFor priceData now)

/-- The function `broadcastPortfolioUpdate`. -/
def broadcastPortfolioUpdate (st : WsState) (userId : String) (portfolioData : Portfolio)
    (now : Nat) : List Emit :=
  if ¬ st.io then []
  else
    match mapGet userId st.userSubscriptions with
    | some userSockets =>
      userSockets.map fun socketId =>
        { socketId := socketId, payload := Payload.portfolioUpdate portfolioData now }
    | none => []

/-- A truthy number: present and non-zero. -/
def truthyNum : Option ℚ → Option ℚ
  | some q => if q ≠ 0 then some q else none
  | none => none

/-- The `switch` of `checkPriceAlerts` for one alert with the string symbol
`symbol` whose coin has the truthy price `currentPrice`: the message when the
alert triggers.  A comparison with an absent number is false. -/
def alertMessage (alert : Alert) (symbol : String) (info : PriceInfo) (currentPrice : ℚ) :
    Option AlertMessage :=
  if alert.type = "above" then
    match alert.targetPrice with
    | some targetPrice =>
      if currentPrice > targetPrice then
        some (AlertMessage.above (toUpperCase symbol) alert.targetPrice)
      else none
    | none => none
  else if alert.type = "below" then
    match alert.targetPrice with
    | some targetPrice =>
      if currentPrice < targetPrice then
        some (AlertMessage.below (toUpperCase symbol) alert.targetPrice)
      else none
    | none => none
  else if alert.type = "change" then
    match info.usd_24h_change, alert.changePercent with
    | some changePercent, some limit =>
      if |changePercent| > limit then
        some (AlertMessage.change (toUpperCase symbol) changePercent)
      else none
    | _, _ => none
  else none

/-- The body of `user.alerts.forEach` for one alert with the string symbol
`symbol`: the emit it makes, if any. -/
def alertEmit (priceData : PriceData) (now : Nat) (socketId : String) (alert : Alert)
    (symbol : String) : Option Emit :=
  match getProperty (toLowerCase symbol) priceData with
  | some info =>
    match truthyNum info.usd with
    | some currentPrice =>
      match alertMessage alert symbol info currentPrice with
      | some message =>
        some { socketId := socketId
               payload := Payload.priceAlert alert currentPrice message now now }
      | none => none
    | none => none
  | none => none

/-- What a call of `checkPriceAlerts` did: the emits it made, in order, and
whether it ended in an exception. -/
structure AlertRun where
  emits : List Emit
  threw : Bool
deriving DecidableEq, Repr

/-- The nested `forEach` loops of `checkPriceAlerts` over the remaining alerts,
each with the socket that registered it.  For an alert without a string
`symbol` the call `alert.symbol.toLowerCase()` throws out of both loops, so no
later alert of any socket is looked at. -/
def checkAlertsFrom (priceData : PriceData) (now : Nat) : List (String × Alert) → AlertRun
  | [] => { emits := [], threw := false }
  | (socketId, alert) :: rest =>
    match alert.symbol with
    | none => { emits := [], threw := true }
    | some symbol =>
      let run := checkAlertsFrom priceData now rest
      match alertEmit priceData now socketId alert symbol with
      | some emit => { emits := emit :: run.emits, threw := run.threw }
      | none => run

/-- The function `checkPriceAlerts`.  Entries of `connectedUsers` exist only
once `io` is set; an entry without alerts is skipped. -/
def checkPriceAlerts (st : WsState) (priceData : PriceData) (now : Nat) : AlertRun :=
  checkAlertsFrom priceData now
    (st.connectedUsers.flatMap fun entry =>
      (entry.2.alerts.getD []).map fun alert => (entry.1, alert))

/-! ## `server/services/priceUpdater.js` -/

/-- The `holdings.forEach` body of `updatePortfolioPrices` for one holding: the
holding afterwards, and whether it set `hasUpdates`. -/
def repriceHolding (prices : PriceData) (holding : Holding) : Holding × Bool :=
  match mapGet (toLowerCase holding.symbol) prices with
  | some priceData =>
    match truthyNum priceData.usd with
    | some newPrice =>
      if holding.currentPrice ≠ newPrice then
        ({ holding with currentPrice := newPrice }, true)
      else (holding, false)
    | none => (holding, false)
  | none => (holding, false)

/-- The `holdings.forEach` of `updatePortfolioPrices`: the holdings afterwards
and the final value of `hasUpdates`. -/
def repriceHoldings (prices : PriceData) : List Holding → List Holding × Bool
  | [] => ([], false)
  | holding :: rest =>
    let r := repriceHolding prices holding
    let rs := repriceHoldings prices rest
    (r.1 :: rs.1, r.2 || rs.2)

/-- What one run of `updatePortfolioPrices` did. -/
structure PriceRun where
  portfolios : List Portfolio
  saved : List Portfolio
  emits : List Emit
deriving DecidableEq, Repr

/-- The `for` loop of `updatePortfolioPrices` over the stored portfolios.  A
portfolio with updates is saved and broadcast; when its `save` rejects, the
exception leaves the loop for the `catch` block, so the portfolios after it
are not visited. -/
def updatePortfolioLoop (st : WsState) (prices : PriceData) (now : Nat) :
    List Portfolio → PriceRun
  | [] => { portfolios := [], saved := [], emits := [] }
  | portfolio :: rest =>
    let r := repriceHoldings prices portfolio.holdings
    if r.2 then
      let doc := updateMetrics { portfolio with holdings := r.1 } now
      if validPortfolio doc then
        let run := updatePortfolioLoop st prices now rest
        { portfolios := doc :: run.portfolios
          saved := doc :: run.saved
          emits := broadcastPortfolioUpdate st doc.userId doc now ++ run.emits }
      else { portfolios := portfolio :: rest, saved := [], emits := [] }
    else
      let run := updatePortfolioLoop st prices now rest
      { portfolios := portfolio :: run.portfolios, saved := run.saved, emits := run.emits }

/-- The function `updatePortfolioPrices` on the cached price map (`none` when
the cache has no `latest-prices`) and the stored portfolios: the stored
portfolios afterwards, the documents it saved, and the emits it made. -/
def updatePortfolioPrices (st : WsState) (cached : Option PriceData)
    (portfolios : List Portfolio) (now : Nat) : PriceRun :=
  match cached with
  | none => { portfolios := portfolios, saved := [], emits := [] }
  | some prices => updatePortfolioLoop st prices now portfolios

/-! ## Data of the test-suite (`tests/portfolio.test.js`) -/

/-- The holding `BTC`, 1 coin bought at 40000, as the tests write it. -/
def btcInput : HoldingInput :=
  { symbol := "BTC", name := "Bitcoin", amount := 1, purchasePrice := 40000,
    averagePurchasePrice := 40000, currentPrice := none }

/-- The portfolio of `demo-user` holding `btcInput`, constructed and saved at
time 0 into an empty collection. -/
def demoPortfolio : Portfolio :=
  updateMetrics (newPortfolio 0 "demo-user" [btcInput] 0) 0

/-- The collection after `demoPortfolio` is saved. -/
def demoDb : Db := { portfolios := [demoPortfolio], nextId := 2 }

/-- The body `{ symbol: 'BTC', name: 'Bitcoin', amount: 0.5, purchasePrice: 50000 }`. -/
def topUpBody : HoldingBody :=
  { symbol := some "BTC", name := some "Bitcoin", amount := some (1 / 2),
    purchasePrice := some 50000, notes := none, tags := none }

/-- The argument `{ symbol: 'BTC', name: 'Bitcoin', amount: 0.5, purchasePrice: 50000 }`
of `addOrUpdateHolding`. -/
def topUpData : HoldingData :=
  { symbol := "BTC", name := "Bitcoin", amount := 1 / 2, purchasePrice := 50000,
    notes := none, tags := none }

/-- The body `{ amount: 2, purchasePrice: 45000 }`. -/
def updateBody : HoldingBody :=
  { symbol := none, name := none, amount := some 2, purchasePrice := some 45000,
    notes := none, tags := none }

/-- The two holdings of the allocation test: `BTC` 1 at 40000 and `ETH` 10 at
2000, each with `currentPrice` equal to its purchase price. -/
def allocationInputs : List HoldingInput :=
  [{ symbol := "BTC", name := "Bitcoin", amount := 1, purchasePrice := 40000,
     averagePurchasePrice := 40000, currentPrice := some 40000 },
   { symbol := "ETH", name := "Ethereum", amount := 10, purchasePrice := 2000,
     averagePurchasePrice := 2000, currentPrice := some 2000 }]

/-! ## Sample data for the socket service -/

/-- A price map with two coins. -/
def samplePrices : PriceData :=
  [("bitcoin", { usd := some 50000, usd_24h_change := some 3 }),
   ("ethereum", { usd := some 2500, usd_24h_change := some (-6) })]

/-- The module state after socket `s1` connects and subscribes, for user `u1`,
to `bitcoin` and `dogecoin`. -/
def subscribedState : WsState :=
  runEvents (initializeWebSocket WsState.initial)
    [SocketEvent.connection "s1" 0,
     SocketEvent.subscribePortfolio "s1" "u1" ["bitcoin", "dogecoin"]]

/-- The entry of socket `s1` in `subscribedState`. -/
def subscribedUser : User :=
  { socketId := "s1", userId := some "u1", connectedAt := 0,
    subscriptions := ["bitcoin", "dogecoin"], alerts := none }

/-- An alert for `Bitcoin` above 45000. -/
def aboveAlert : Alert :=
  { symbol := some "Bitcoin", type := "above", targetPrice := some 45000,
    changePercent := none }

/-- The alert `{ type: 'above', targetPrice: 45000 }`, sent without a symbol. -/
def namelessAlert : Alert :=
  { symbol := none, type := "above", targetPrice := some 45000, changePercent := none }

/-- The module state after socket `s1` connects and registers `aboveAlert`. -/
def alertState : WsState :=
  runEvents (initializeWebSocket WsState.initial)
    [SocketEvent.connection "s1" 0, SocketEvent.subscribeAlerts "s1" [aboveAlert]]

/-- The module state after socket `s0` connects and registers `namelessAlert`,
and socket `s1` connects and registers `aboveAlert`. -/
def brokenAlertState : WsState :=
  runEvents (initializeWebSocket WsState.initial)
    [SocketEvent.connection "s0" 0, SocketEvent.subscribeAlerts "s0" [namelessAlert],
     SocketEvent.connection "s1" 0, SocketEvent.subscribeAlerts "s1" [aboveAlert]]

/-- The module state after socket `s1` connects and subscribes, for user `u1`,
to the one symbol `constructor`. -/
def inheritedState : WsState :=
  runEvents (initializeWebSocket WsState.initial)
    [SocketEvent.connection "s1" 0,
     SocketEvent.subscribePortfolio "s1" "u1" ["constructor"]]

/-- A price map quoting the coin of `demoPortfolio` under its lower-cased
symbol. -/
def btcPrices : PriceData :=
  [("btc", { usd := some 50000, usd_24h_change := none })]

/-! ## `server/models/Portfolio.js`: performers -/

/-- The method `getTopPerformers`; `limit` is a non-negative integer, so
`slice(0, limit)` keeps the first `limit` elements.  The comparator is
meaningful when every `averagePurchasePrice` is non-zero. -/
def getTopPerformers (p : Portfolio) (limit : Nat) : List Holding :=
  (jsSort (fun a b => b.profitLossPercentage - a.profitLossPercentage)
    (p.holdings.filter fun h => h.currentPrice > 0)).take limit

/-- The method `getWorstPerformers`. -/
def getWorstPerformers (p : Portfolio) (limit : Nat) : List Holding :=
  (jsSort (fun a b => a.profitLossPercentage - b.profitLossPercentage)
    (p.holdings.filter fun h => h.currentPrice > 0)).take limit

/-! ## `server/routes/portfolio.js`: `DELETE /holdings/:id` and `GET /summary` -/

/-- The route `DELETE /holdings/:id`.  `holdings.id(holdingId)` is `null` for an
unknown id, and `.remove()` on it throws into the `catch` block; on a
sub-document `.remove()` pulls the elements with that `_id` from the array. -/
def deleteHolding (db : Db) (user : Option String) (holdingId : Nat) (now : Nat) :
    Response × Db :=
  let userId := requestUserId user
  match findOne db userId with
  | none => (notFound "Portfolio not found", db)
  | some portfolio =>
    match portfolio.holdings.find? (fun h => h.id = holdingId) with
    | none => (failure "Failed to delete holding", db)
    | some _ =>
      let holdings := portfolio.holdings.filter (fun h => h.id ≠ holdingId)
      match save db { portfolio with holdings := holdings } now with
      | some (saved, db1) =>
        ({ status := 200, success := true, message := some "Holding deleted successfully",
           data := some saved.holdings, errors := none }, db1)
      | none => (failure "Failed to delete holding", db)

/-- A JavaScript number: a finite value, an infinity or `NaN`. -/
inductive JsNum where
  | num (q : ℚ)
  | posInf
  | negInf
  | nan
deriving DecidableEq, Repr

/-- The power of two at the bottom of the binade of `x`, searched upward from
a power `p ≤ x`: `p` is doubled until `x < 2 * p`, at most `fuel` times. -/
def binadeUp (x : ℚ) : Nat → ℚ → ℚ
  | 0, p => p
  | fuel + 1, p => if x < 2 * p then p else binadeUp x fuel (2 * p)

/-- The same search downward from a power `p` with `x < 2 * p`: `p` is halved
until `p ≤ x`, at most `fuel` times. -/
def binadeDown (x : ℚ) : Nat → ℚ → ℚ
  | 0, p => p
  | fuel + 1, p => if p ≤ x then p else binadeDown x fuel (p / 2)

/-- The power of two `2^e ≤ x < 2^(e+1)` of a positive `x`, with the exponent
kept in the range of binary64: `2^(-1022)` for every smaller `x` (the
subnormal numbers share the spacing of the lowest binade) and `2^1023` for
every larger one. -/
def binadeOf (x : ℚ) : ℚ :=
  if 1 ≤ x then binadeUp x 1023 1 else binadeDown x 1021 (1 / 2)

/-- Rounding to the nearest integer, ties to the even one. -/
def roundHalfEven (x : ℚ) : ℤ :=
  if x - ⌊x⌋ < 1 / 2 then ⌊x⌋
  else if 1 / 2 < x - ⌊x⌋ then ⌊x⌋ + 1
  else if ⌊x⌋ % 2 = 0 then ⌊x⌋ else ⌊x⌋ + 1

/-- The spacing of the binary64 numbers around a non-negative `x`: 53
significant bits. -/
def ulp (x : ℚ) : ℚ := binadeOf x / 2 ^ 52

/-- The multiple of the spacing nearest to a non-negative `x`. -/
def roundMagnitude (x : ℚ) : ℚ := roundHalfEven (x / ulp x) * ulp x

/-- Rounding to nearest, ties to even, in an unbounded exponent range upward. -/
def roundToDouble (x : ℚ) : ℚ :=
  if x < 0 then -roundMagnitude (-x) else roundMagnitude x

/-- The binary64 value of the exact result `x` of an operation: rounded to
nearest, ties to even, and an infinity when the rounded magnitude reaches
`2^1024`. -/
def binary64 (x : ℚ) : JsNum :=
  if (2 : ℚ) ^ 1024 ≤ roundToDouble x then JsNum.posInf
  else if roundToDouble x ≤ -(2 : ℚ) ^ 1024 then JsNum.negInf
  else JsNum.num (roundToDouble x)

/-- The comparison `a > b`; it is false when either side is `NaN`. -/
def JsNum.gt : JsNum → JsNum → Bool
  | JsNum.num x, JsNum.num y => decide (x > y)
  | JsNum.posInf, JsNum.num _ => true
  | JsNum.posInf, JsNum.negInf => true
  | JsNum.num _, JsNum.negInf => true
  | _, _ => false

/-- The comparison `a < b`. -/
def JsNum.lt (a b : JsNum) : Bool := JsNum.gt b a

/-- The comparison `a >= b`; it is false when either side is `NaN`. -/
def JsNum.ge : JsNum → JsNum → Bool
  | JsNum.nan, _ => false
  | _, JsNum.nan => false
  | a, b => !(JsNum.gt b a)

/-- The negation `-a`. -/
def JsNum.neg : JsNum → JsNum
  | JsNum.num q => JsNum.num (-q)
  | JsNum.posInf => JsNum.negInf
  | JsNum.negInf => JsNum.posInf
  | JsNum.nan => JsNum.nan

/-- The sum `a + b`. -/
def JsNum.add : JsNum → JsNum → JsNum
  | JsNum.num a, JsNum.num b => binary64 (a + b)
  | JsNum.nan, _ => JsNum.nan
  | _, JsNum.nan => JsNum.nan
  | JsNum.posInf, JsNum.negInf => JsNum.nan
  | JsNum.negInf, JsNum.posInf => JsNum.nan
  | JsNum.posInf, _ => JsNum.posInf
  | _, JsNum.posInf => JsNum.posInf
  | JsNum.negInf, _ => JsNum.negInf
  | _, JsNum.negInf => JsNum.negInf

/-- The difference `a - b`. -/
def JsNum.sub (a b : JsNum) : JsNum := JsNum.add a (JsNum.neg b)

/-- The sign of a number: 1, -1, or 0 for a zero and for `NaN`. -/
def JsNum.sign : JsNum → Int
  | JsNum.num q => if q > 0 then 1 else if q < 0 then -1 else 0
  | JsNum.posInf => 1
  | JsNum.negInf => -1
  | JsNum.nan => 0

/-- The product `a * b`; an infinity times zero is `NaN`. -/
def JsNum.mul : JsNum → JsNum → JsNum
  | JsNum.num a, JsNum.num b => binary64 (a * b)
  | JsNum.nan, _ => JsNum.nan
  | _, JsNum.nan => JsNum.nan
  | a, b =>
    if a.sign * b.sign > 0 then JsNum.posInf
    else if a.sign * b.sign < 0 then JsNum.negInf
    else JsNum.nan

/-- The quotient `a / b`.  A non-zero number over zero is an infinity, zero
over zero and an infinity over an infinity are `NaN`; a zero divisor counts as
`+0`. -/
def JsNum.div : JsNum → JsNum → JsNum
  | JsNum.num a, JsNum.num b =>
    if b ≠ 0 then binary64 (a / b)
    else if a > 0 then JsNum.posInf
    else if a < 0 then JsNum.negInf
    else JsNum.nan
  | JsNum.nan, _ => JsNum.nan
  | _, JsNum.nan => JsNum.nan
  | JsNum.num _, _ => JsNum.num 0
  | JsNum.posInf, JsNum.num b => if b < 0 then JsNum.negInf else JsNum.posInf
  | JsNum.negInf, JsNum.num b => if b < 0 then JsNum.posInf else JsNum.negInf
  | _, _ => JsNum.nan

/-- `Number.prototype.toFixed(2)` on a finite number, as the number its digits
denote: the nearest multiple of 1/100, ties away from zero; at magnitudes from
`1e21` on `toFixed` prints the number itself. -/
def toFixed2 (x : ℚ) : ℚ :=
  if (10 : ℚ) ^ 21 ≤ |x| then x
  else if x < 0 then -((⌊(-x) * 100 + 1 / 2⌋ : ℤ) : ℚ) / 100
  else ((⌊x * 100 + 1 / 2⌋ : ℤ) : ℚ) / 100

/-- The expression `(performance * 100).toFixed(2)`, as the number the printed
string denotes (`toFixed` prints an infinity and `NaN` by name). -/
def reportPerformance (performance : JsNum) : JsNum :=
  match JsNum.mul performance (JsNum.num 100) with
  | JsNum.num q => JsNum.num (toFixed2 q)
  | other => other

/-- The variables of the loop of `GET /summary`. -/
structure SummaryState where
  totalValue : ℚ
  bestPerformance : JsNum
  worstPerformance : JsNum
  topPerformer : Option Holding
  worstPerformer : Option Holding
deriving DecidableEq, Repr

/-- The variables before the loop. -/
def SummaryState.initial : SummaryState :=
  { totalValue := 0, bestPerformance := JsNum.negInf, worstPerformance := JsNum.posInf,
    topPerformer := none, worstPerformer := none }

/-- The `performance` of a holding in the loop of `GET /summary`:
`((currentPrice || purchasePrice) - averagePurchasePrice) / averagePurchasePrice`
in binary64. -/
def performanceOf (holding : Holding) : JsNum :=
  JsNum.div
    (JsNum.sub (JsNum.num (orElse holding.currentPrice holding.purchasePrice))
      (JsNum.num holding.averagePurchasePrice))
    (JsNum.num holding.averagePurchasePrice)

/-- One iteration of the loop of `GET /summary`. -/
def summaryStep (s : SummaryState) (holding : Holding) : SummaryState :=
  let currentValue := holding.amount * orElse holding.currentPrice holding.purchasePrice
  let performance := performanceOf holding
  let s1 : SummaryState := { s with totalValue := s.totalValue + currentValue }
  let s2 : SummaryState :=
    if JsNum.gt performance s1.bestPerformance then
      { s1 with bestPerformance := performance, topPerformer := some holding }
    else s1
  if JsNum.lt performance s2.worstPerformance then
    { s2 with worstPerformance := performance, worstPerformer := some holding }
  else s2

/-- A performer as reported by `GET /summary`. -/
structure Performer where
  symbol : String
  performance : JsNum
deriving DecidableEq, Repr

/-- The `data` of the response of `GET /summary`. -/
structure Summary where
  totalValue : ℚ
  totalHoldings : Nat
  topPerformer : Option Performer
  worstPerformer : Option Performer
deriving DecidableEq, Repr

/-- The handler of `GET /summary`: the `data` of its response, which always has
status 200 and `success` true. -/
def getSummary (db : Db) (user : Option String) : Summary :=
  let userId := requestUserId user
  match findOne db userId with
  | none => { totalValue := 0, totalHoldings := 0, topPerformer := none, worstPerformer := none }
  | some portfolio =>
    if portfolio.holdings.length = 0 then
      { totalValue := 0, totalHoldings := 0, topPerformer := none, worstPerformer := none }
    else
      let s := portfolio.holdings.foldl summaryStep SummaryState.initial
      { totalValue := s.totalValue
        totalHoldings := portfolio.holdings.length
        topPerformer := s.topPerformer.map fun h =>
          { symbol := h.symbol, performance := reportPerformance s.bestPerformance }
        worstPerformer := s.worstPerformer.map fun h =>
          { symbol := h.symbol, performance := reportPerformance s.worstPerformance } }

/-- The argument `{ symbol: 'BTC', name: 'Bitcoin', amount: 1, purchasePrice: 40000 }`
of the first `addOrUpdateHolding` of the model test. -/
def firstBuyData : HoldingData :=
  { symbol := "btc", name := "Bitcoin", amount := 1, purchasePrice := 40000,
    notes := none, tags := none }

/-- The body `{ amount: 1 }`. -/
def amountOnlyBody : HoldingBody :=
  { symbol := none, name := none, amount := some 1, purchasePrice := none,
    notes := none, tags := none }

/-- The empty collection. -/
def emptyDb : Db := { portfolios := [], nextId := 0 }

/-- The two holdings of the performers test: `BTC` bought at 40000 now at
50000, `ETH` bought at 2000 now at 1800. -/
def performerInputs : List HoldingInput :=
  [{ symbol := "BTC", name := "Bitcoin", amount := 1, purchasePrice := 40000,
     averagePurchasePrice := 40000, currentPrice := some 50000 },
   { symbol := "ETH", name := "Ethereum", amount := 10, purchasePrice := 2000,
     averagePurchasePrice := 2000, currentPrice := some 1800 }]

/-- The body `{ symbol: 'FREE', name: 'Airdrop', amount: 5, purchasePrice: 0 }`:
coins received at no cost. -/
def freeBody : HoldingBody :=
  { symbol := some "FREE", name := some "Airdrop", amount := some 5,
    purchasePrice := some 0, notes := none, tags := none }

/-- The collection after `POST /holdings` of `freeBody` into the empty
collection. -/
def freeDb : Db := (postHoldings emptyDb none freeBody 0).2

/-- The two holdings of the summary test: `BTC` bought at 40000 now at 45000,
`ETH` bought at 2000 now at 2500. -/
def summaryInputs : List HoldingInput :=
  [{ symbol := "BTC", name := "Bitcoin", amount := 1, purchasePrice := 40000,
     averagePurchasePrice := 40000, currentPrice := some 45000 },
   { symbol := "ETH", name := "Ethereum", amount := 10, purchasePrice := 2000,
     averagePurchasePrice := 2000, currentPrice := some 2500 }]

/-- The portfolio of `demo-user` in the summary test. -/
def summaryPortfolio : Portfolio :=
  updateMetrics (newPortfolio 0 "demo-user" summaryInputs 0) 0

/-- The collection of the summary test. -/
def summaryDb : Db := { portfolios := [summaryPortfolio], nextId := 3 }

/-! ## `server/models/Portfolio.js`: `findOrCreatePortfolio` -/

/-- The static `findOrCreatePortfolio` on the collection: the portfolio it
resolves to and the collection afterwards, or `none` when `save` rejects. -/
def findOrCreatePortfolio (db : Db) (userId : String) (now : Nat) : Option (Portfolio × Db) :=
  match findOne db userId with
  | some portfolio => some (portfolio, db)
  | none =>
    save { db with nextId := db.nextId + 1 } (newPortfolio db.nextId userId [] now) now

/-! ## `server/services/cache.js`: `MemoryCache`

The clock is an argument of every operation.  The timers that `set` schedules
with `setTimeout` live in the event loop: `pending` lists the scheduled timers
that were neither cancelled nor run, and a timer may run at any time from its
due time on.  Node.js replaces a delay above 2147483647 ms or below 1 ms by
1 ms. -/

/-- A value stored in `MemoryCache.cache`. -/
structure CacheItem (V : Type) where
  value : V
  createdAt : Nat
  ttl : Nat
deriving DecidableEq, Repr

/-- A scheduled `setTimeout(() => this.delete(key), delay)`. -/
structure Timer where
  id : Nat
  key : String
  due : Nat
deriving DecidableEq, Repr

/-- An instance of `MemoryCache` (the maps `cache` and `timers`) with the
timers it has scheduled in the event loop. -/
structure MemoryCache (V : Type) where
  cache : List (String × CacheItem V)
  timers : List (String × Nat)
  pending : List Timer
  nextTimer : Nat
deriving DecidableEq, Repr

/-- The effective delay of `setTimeout(f, ms)` in Node.js. -/
def timerDelay (ms : Nat) : Nat :=
  if ms > 2147483647 ∨ ms < 1 then 1 else ms

/-- The global function `clearTimeout` on the scheduled timers. -/
def clearTimeout (id : Nat) (pending : List Timer) : List Timer :=
  pending.filter fun tm => tm.id ≠ id

/-- The constructor of `MemoryCache`. -/
def MemoryCache.empty {V : Type} : MemoryCache V :=
  { cache := [], timers := [], pending := [], nextTimer := 0 }

/-- The block `if (this.timers.has(key)) clearTimeout(this.timers.get(key))`. -/
def MemoryCache.clearTimerOf {V : Type} (c : MemoryCache V) (key : String) : List Timer :=
  match mapGet key c.timers with
  | some id => clearTimeout id c.pending
  | none => c.pending

/-- The method `MemoryCache.delete`. -/
def MemoryCache.delete {V : Type} (c : MemoryCache V) (key : String) : MemoryCache V :=
  { cache := mapDelete key c.cache
    timers := mapDelete key c.timers
    pending := c.clearTimerOf key
    nextTimer := c.nextTimer }

/-- The method `MemoryCache.set` at time `now`. -/
def MemoryCache.set {V : Type} (c : MemoryCache V) (key : String) (value : V)
    (ttlSeconds : Nat) (now : Nat) : MemoryCache V :=
  { cache := mapSet key { value := value, createdAt := now, ttl := ttlSeconds * 1000 } c.cache
    timers := mapSet key c.nextTimer c.timers
    pending := c.clearTimerOf key
      ++ [{ id := c.nextTimer, key := key, due := now + timerDelay (ttlSeconds * 1000) }]
    nextTimer := c.nextTimer + 1 }

/-- The test `Date.now() - item.createdAt > item.ttl`. -/
def CacheItem.expired {V : Type} (item : CacheItem V) (now : Nat) : Bool :=
  decide ((now : Int) - item.createdAt > item.ttl)

/-- The method `MemoryCache.get` at time `now`: the returned value (`none` for
`null`) and the cache afterwards. -/
def MemoryCache.get {V : Type} (c : MemoryCache V) (key : String) (now : Nat) :
    Option V × MemoryCache V :=
  match mapGet key c.cache with
  | none => (none, c)
  | some item =>
    if item.expired now then (none, c.delete key)
    else (some item.value, c)

/-- The method `MemoryCache.has` at time `now`. -/
def MemoryCache.has {V : Type} (c : MemoryCache V) (key : String) (now : Nat) :
    Bool × MemoryCache V :=
  match mapGet key c.cache with
  | none => (false, c)
  | some item =>
    if item.expired now then (false, c.delete key)
    else (true, c)

/-- The method `MemoryCache.clear`. -/
def MemoryCache.clear {V : Type} (c : MemoryCache V) : MemoryCache V :=
  { cache := []
    timers := []
    pending := c.timers.foldl (fun pending entry => clearTimeout entry.2 pending) c.pending
    nextTimer := c.nextTimer }

/-- The method `MemoryCache.cleanup` at time `now`: the number of keys it
deleted and the cache afterwards. -/
def MemoryCache.cleanup {V : Type} (c : MemoryCache V) (now : Nat) : Nat × MemoryCache V :=
  let keysToDelete := (c.cache.filter fun entry => entry.2.expired now).map fun entry => entry.1
  (keysToDelete.length, keysToDelete.foldl MemoryCache.delete c)

/-- The event loop runs timer `id` at time `now`: possible when the timer is
scheduled and due; it leaves the schedule and its callback `this.delete(key)`
runs. -/
def MemoryCache.fire {V : Type} (c : MemoryCache V) (id : Nat) (now : Nat) : MemoryCache V :=
  match c.pending.find? (fun tm => tm.id = id) with
  | some tm =>
    if tm.due ≤ now then
      MemoryCache.delete { c with pending := c.pending.filter fun t => t.id ≠ id } tm.key
    else c
  | none => c

/-- What can happen to a cache: a call of one of its methods, or the event loop
running one of its timers. -/
inductive CacheOp (V : Type) where
  | set (key : String) (value : V) (ttlSeconds : Nat)
  | get (key : String)
  | has (key : String)
  | delete (key : String)
  | clear
  | cleanup
  | fire (timerId : Nat)
deriving DecidableEq, Repr

/-- The cache after one event at time `now`. -/
def MemoryCache.step {V : Type} (c : MemoryCache V) (now : Nat) : CacheOp V → MemoryCache V
  | CacheOp.set key value ttlSeconds => c.set key value ttlSeconds now
  | CacheOp.get key => (c.get key now).2
  | CacheOp.has key => (c.has key now).2
  | CacheOp.delete key => c.delete key
  | CacheOp.clear => c.clear
  | CacheOp.cleanup => (c.cleanup now).2
  | CacheOp.fire timerId => c.fire timerId now

/-- The cache after a sequence of timed events. -/
def MemoryCache.run {V : Type} (c : MemoryCache V) (trace : List (Nat × CacheOp V)) :
    MemoryCache V :=
  trace.foldl (fun c e => c.step e.1 e.2) c

/-- The bookkeeping invariant of a `MemoryCache`: every scheduled timer is the
one registered in `timers` for its key, scheduled timers have distinct handles
below `nextTimer`, every key with a registered timer is in `cache`, and the keys
of `cache` are distinct. -/
def MemoryCache.WellFormed {V : Type} (c : MemoryCache V) : Prop :=
  (∀ tm ∈ c.pending, mapGet tm.key c.timers = some tm.id)
  ∧ (c.pending.map fun tm => tm.id).Nodup
  ∧ (∀ tm ∈ c.pending, tm.id < c.nextTimer)
  ∧ (∀ key id, mapGet key c.timers = some id → mapGet key c.cache ≠ none)
  ∧ (c.cache.map fun e => e.1).Nodup

/-! ## `server/middleware/validation.js`: `validateRateLimit` -/

/-- What the limiter reads of a request: the client key
(`req.ip || req.connection.remoteAddress`) and the clock (`Date.now()`). -/
structure LimitRequest where
  key : String
  now : Nat
deriving DecidableEq, Repr

/-- The response of the limiter when it refuses a request. -/
structure LimitResponse where
  status : Nat
  success : Bool
  message : String
  retryAfter : Nat
deriving DecidableEq, Repr

/-- The map `req.app.locals.rateLimitStore`; it is created empty on the first
request. -/
abbrev LimitStore := List (String × List Nat)

/-- The middleware returned by `validateRateLimit(windowMs, max)` on one request:
`some` response when it answers 429 itself, `none` when it calls `next()`, and
the store afterwards. -/
def validateRateLimit (windowMs max : Nat) (store : LimitStore) (req : LimitRequest) :
    Option LimitResponse × LimitStore :=
  let userRequests := (mapGet req.key store).getD []
  let validRequests := userRequests.filter fun (time : Nat) => (req.now : Int) - (time : Int) < (windowMs : Int)
  if validRequests.length ≥ max then
    (some { status := 429, success := false, message := "Too many requests",
            retryAfter := (windowMs + 999) / 1000 }, store)
  else
    (none, mapSet req.key (validRequests ++ [req.now]) store)

/-- The limiter on a sequence of requests: each request with the answer it got,
and the store afterwards. -/
def runRateLimit (windowMs max : Nat) :
    LimitStore → List LimitRequest → List (LimitRequest × Option LimitResponse) × LimitStore
  | store, [] => ([], store)
  | store, req :: rest =>
    let r := validateRateLimit windowMs max store req
    let rs := runRateLimit windowMs max r.2 rest
    ((req, r.1) :: rs.1, rs.2)

/-- Three requests, two of client `a` and one of client `b`, within 20 ms. -/
def burst : List LimitRequest :=
  [{ key := "a", now := 0 }, { key := "a", now := 10 }, { key := "b", now := 20 }]

/-- The argument `{ symbol: ' btc', name: 'Bitcoin', amount: 1, purchasePrice: 40000 }`:
a symbol with a leading blank. -/
def spacedBuyData : HoldingData :=
  { symbol := " btc", name := "Bitcoin", amount := 1, purchasePrice := 40000,
    notes := none, tags := none }

/-! ## `server/models/Portfolio.js`: `removeHolding` and `updatePrices` -/

/-- The method `removeHolding`: `holdings.id(holdingId)` is `null` for an
unknown id and `.remove()` on it throws (`none`); otherwise the sub-documents
with that `_id` are pulled and the metrics updated. -/
def removeHolding (p : Portfolio) (holdingId : Nat) (now : Nat) : Option Portfolio :=
  match p.holdings.find? (fun h => h.id = holdingId) with
  | none => none
  | some _ =>
    some (updateMetrics { p with holdings := p.holdings.filter (fun h => h.id ≠ holdingId) } now)

/-- The method `updatePrices`: every holding whose lower-cased symbol has a
truthy `usd` price takes it as `currentPrice`; then the metrics are updated. -/
def updatePrices (p : Portfolio) (priceData : PriceData) (now : Nat) : Portfolio :=
  let holdings := p.holdings.map fun holding =>
    match mapGet (toLowerCase holding.symbol) priceData with
    | some priceInfo =>
      match truthyNum priceInfo.usd with
      | some usd => { holding with currentPrice := usd }
      | none => holding
    | none => holding
  updateMetrics { p with holdings := holdings } now

/-! ## `server/services/marketData.js`: `makeRequest` -/

/-- The fields of `MarketDataService` read by `makeRequest`. -/
structure MarketDataService where
  retryAttempts : Nat
  retryDelay : Nat
deriving DecidableEq, Repr

/-- The service built by the constructor. -/
def marketDataService : MarketDataService := { retryAttempts := 3, retryDelay := 1000 }

/-- The error `axios.get` rejects with: the status of `error.response`, or
`none` when there is no response. -/
structure RequestError where
  response : Option Nat
deriving DecidableEq, Repr

/-- The outcome of one `axios.get`: the response, or the error thrown. -/
inductive Outcome where
  | response (status : Nat)
  | error (e : RequestError)
deriving DecidableEq, Repr

/-- The method `shouldRetry`. -/
def shouldRetry (error : RequestError) : Bool :=
  match error.response with
  | none => true
  | some status => status ≥ 500 || status = 429

/-- What a call of `makeRequest` did: how it settled, the number of
`axios.get` calls, and the arguments of `delay` in order. -/
structure RequestRun where
  result : Outcome
  attempts : Nat
  delays : List Nat
deriving DecidableEq, Repr

/-- The method `makeRequest(url, retryCount)`; `outcomes k` is the outcome of
`axios.get` in the call whose `retryCount` is `k`. -/
def makeRequest (svc : MarketDataService) (outcomes : Nat → Outcome) (retryCount : Nat) :
    RequestRun :=
  match outcomes retryCount with
  | Outcome.response status =>
    { result := Outcome.response status, attempts := 1, delays := [] }
  | Outcome.error error =>
    if h : retryCount < svc.retryAttempts ∧ shouldRetry error = true then
      let run := makeRequest svc outcomes (retryCount + 1)
      { result := run.result
        attempts := run.attempts + 1
        delays := svc.retryDelay * (retryCount + 1) :: run.delays }
    else { result := Outcome.error error, attempts := 1, delays := [] }
termination_by svc.retryAttempts - retryCount
decreasing_by omega

/-! ## `server/middleware/validation.js`: `sanitizeInput` -/

/-- Whether the characters start with the lower-case pattern, letter case
ignored: a literal of a regular expression with the flag `i`. -/
def startsWithCI : List Char → List Char → Bool
  | [], _ => true
  | _ :: _, [] => false
  | p :: ps, c :: cs => c.toLower = p && startsWithCI ps cs

/-- The class `\w`. -/
def isWordChar (c : Char) : Bool := c.isAlphanum || c = '_'

/-- The class `\s`. -/
def isSpaceChar (c : Char) : Bool :=
  c = ' ' || c = '\t' || c = '\n' || c = '\r' || c.toNat = 11 || c.toNat = 12
    || c.toNat = 160 || c.toNat = 5760 || (8192 ≤ c.toNat && c.toNat ≤ 8202)
    || c.toNat = 8232 || c.toNat = 8233 || c.toNat = 8239 || c.toNat = 8287
    || c.toNat = 12288 || c.toNat = 65279

/-- The number of characters before the first `</script>`, letter case
ignored. -/
def closeOffset : List Char → Option Nat
  | [] => none
  | c :: cs =>
    if startsWithCI "</script>".data (c :: cs) then some 0
    else (closeOffset cs).map (fun n => n + 1)

/-- The length of the match of
`/<script\b[^<]*(?:(?!<\/script>)<[^<]*)*<\/script>/i` at the start of the
characters: `<script`, a word boundary, and everything up to and including the
first `</script>`. -/
def scriptMatch (cs : List Char) : Option Nat :=
  if startsWithCI "<script".data cs then
    let rest := cs.drop 7
    if (rest.head?.map isWordChar).getD false then none
    else (closeOffset rest).map (fun n => 7 + n + 9)
  else none

/-- The length of the match of `/javascript:/i` at the start of the characters. -/
def javascriptMatch (cs : List Char) : Option Nat :=
  if startsWithCI "javascript:".data cs then some 11 else none

/-- The length of the match of `/on\w+\s*=/i` at the start of the characters. -/
def handlerMatch (cs : List Char) : Option Nat :=
  if startsWithCI "on".data cs then
    let rest := cs.drop 2
    let word := rest.takeWhile isWordChar
    let rest1 := rest.drop word.length
    let space := rest1.takeWhile isSpaceChar
    if word.length = 0 then none
    else
      match rest1.drop space.length with
      | '=' :: _ => some (2 + word.length + space.length + 1)
      | _ => none
  else none

/-- `String.prototype.replace(re, '')` for a regular expression with the flag
`g` whose matches are never empty: scan from the left, drop every match, resume
after it.  The counter is the number of characters of the current match still
to drop. -/
def removeMatches (matchLen : List Char → Option Nat) : Nat → List Char → List Char
  | _, [] => []
  | skip + 1, _ :: cs => removeMatches matchLen skip cs
  | 0, c :: cs =>
    match matchLen (c :: cs) with
    | some (n + 1) => removeMatches matchLen n cs
    | _ => c :: removeMatches matchLen 0 cs

/-- A JSON value: what `req.body`, `req.query` and `req.params` hold. -/
inductive Json where
  | null
  | bool (b : Bool)
  | num (q : ℚ)
  | str (s : String)
  | arr (items : List Json)
  | obj (fields : List (String × Json))

/-- The inner function `sanitizeValue`: the three `replace` calls on a string,
any other value unchanged. -/
def sanitizeValue : Json → Json
  | Json.str value =>
    Json.str ⟨removeMatches handlerMatch 0
      (removeMatches javascriptMatch 0 (removeMatches scriptMatch 0 value.data))⟩
  | value => value

mutual
/-- The body of the `forEach` of `sanitizeObject` for the value of one key:
an object or array is sanitized in place, any other value is replaced by its
`sanitizeValue`. -/
def sanitizeEntry : Json → Json
  | Json.arr items => Json.arr (sanitizeItems items)
  | Json.obj fields => Json.obj (sanitizeFields fields)
  | value => sanitizeValue value
/-- The `forEach` of `sanitizeObject` over the indices of an array. -/
def sanitizeItems : List Json → List Json
  | [] => []
  | item :: rest => sanitizeEntry item :: sanitizeItems rest
/-- The `forEach` of `sanitizeObject` over the keys of an object. -/
def sanitizeFields : List (String × Json) → List (String × Json)
  | [] => []
  | (key, value) :: rest => (key, sanitizeEntry value) :: sanitizeFields rest
end

/-- The inner function `sanitizeObject`: a value that is not an object is left
alone. -/
def sanitizeObject : Json → Json
  | Json.arr items => Json.arr (sanitizeItems items)
  | Json.obj fields => Json.obj (sanitizeFields fields)
  | value => value

/-- The parts of a request that `sanitizeInput` rewrites. -/
structure HttpRequest where
  body : Json
  query : Json
  params : Json

/-- The middleware `sanitizeInput`. -/
def sanitizeInput (req : HttpRequest) : HttpRequest :=
  { body := sanitizeObject req.body
    query := sanitizeObject req.query
    params := sanitizeObject req.params }

mutual
/-- The string values anywhere in a JSON value, in order. -/
def Json.strings : Json → List String
  | Json.str s => [s]
  | Json.arr items => stringsOfItems items
  | Json.obj fields => stringsOfFields fields
  | _ => []
/-- The string values anywhere in the elements of an array. -/
def stringsOfItems : List Json → List String
  | [] => []
  | item :: rest => item.strings ++ stringsOfItems rest
/-- The string values anywhere in the values of an object. -/
def stringsOfFields : List (String × Json) → List String
  | [] => []
  | (_, value) :: rest => value.strings ++ stringsOfFields rest
end

/-- Whether `javascript:` occurs in the string, in any letter case. -/
def hasJavascriptScheme (s : String) : Bool :=
  s.data.tails.any (startsWithCI "javascript:".data)

/-! ## More test data -/

/-- The argument `{ symbol: 'btc ', name: 'Bitcoin', amount: 1, purchasePrice: 50000 }`:
a symbol with a trailing blank. -/
def paddedBuyData : HoldingData :=
  { symbol := "btc ", name := "Bitcoin", amount := 1, purchasePrice := 50000,
    notes := none, tags := none }

/-- The body `{ symbol: 'BTC', amount: 1, purchasePrice: 40000 }`, without a
name. -/
def namelessBody : HoldingBody :=
  { symbol := some "BTC", name := none, amount := some 1, purchasePrice := some 40000,
    notes := none, tags := none }

/-- The body `{ symbol: 'BTC', name: 'Bitcoin', amount: 1 }`, without a
purchase price. -/
def pricelessBody : HoldingBody :=
  { symbol := some "BTC", name := some "Bitcoin", amount := some 1, purchasePrice := none,
    notes := none, tags := none }

/-- A request whose body is `{ notes: 'javajavascript:script:alert(1)' }`. -/
def nestedSchemeRequest : HttpRequest :=
  { body := Json.obj [("notes", Json.str "javajavascript:script:alert(1)")]
    query := Json.obj []
    params := Json.obj [] }

/-- One socket that subscribes for user `u1`, subscribes again for user `u2`,
and disconnects. -/
def resubscribeEvents : List SocketEvent :=
  [SocketEvent.connection "s1" 0,
   SocketEvent.subscribePortfolio "s1" "u1" ["bitcoin"],
   SocketEvent.subscribePortfolio "s1" "u2" ["bitcoin"],
   SocketEvent.disconnect "s1"]

/-- Outcomes of a request that is answered 503 twice and then 200. -/
def flakyOutcomes : Nat → Outcome := fun k =>
  if k < 2 then Outcome.error { response := some 503 } else Outcome.response 200

/-! ## `server/models/Portfolio.js`: the merge of `addOrUpdateHolding` in binary64

`mergeHolding` gives the numbers that the formulas of the merge denote.  The
engine evaluates every operation of these formulas in binary64. -/

/-- The constant `totalAmount` of `addOrUpdateHolding`, as computed. -/
def mergeTotalAmount (existingHolding : Holding) (holdingData : HoldingData) : JsNum :=
  JsNum.add (JsNum.num existingHolding.amount) (JsNum.num holdingData.amount)

/-- The constant `totalValue` of `addOrUpdateHolding`, as computed. -/
def mergeTotalValue (existingHolding : Holding) (holdingData : HoldingData) : JsNum :=
  JsNum.add
    (JsNum.mul (JsNum.num existingHolding.amount)
      (JsNum.num existingHolding.averagePurchasePrice))
    (JsNum.mul (JsNum.num holdingData.amount) (JsNum.num holdingData.purchasePrice))

/-- The quotient `totalValue / totalAmount` that `addOrUpdateHolding` assigns to
`averagePurchasePrice`, as computed. -/
def mergeAverage (existingHolding : Holding) (holdingData : HoldingData) : JsNum :=
  JsNum.div (mergeTotalValue existingHolding holdingData)
    (mergeTotalAmount existingHolding holdingData)

/-- A holding of `0.1` `BTC` at 40000; the amount is the binary64 number that
the literal `0.1` denotes. -/
def tenthHolding : Holding :=
  { id := 1, symbol := "BTC", name := "Bitcoin",
    amount := 3602879701896397 / 36028797018963968,
    purchasePrice := 40000, averagePurchasePrice := 40000, currentPrice := 0,
    addedAt := 0, updatedAt := 0, notes := "", tags := [] }

/-- The argument `{ symbol: 'BTC', name: 'Bitcoin', amount: 0.2, purchasePrice: 40000 }`;
the amount is the binary64 number that the literal `0.2` denotes. -/
def fifthData : HoldingData :=
  { symbol := "BTC", name := "Bitcoin", amount := 3602879701896397 / 18014398509481984,
    purchasePrice := 40000, notes := none, tags := none }

/-! ## Theorems -/

theorem accumulateTotals_aux (hs : List Holding) (a b : ℚ) :
    hs.foldl
      (fun acc h =>
        (acc.1 + h.amount * h.averagePurchasePrice,
         acc.2 + h.amount * orElse h.currentPrice h.purchasePrice))
      (a, b)
    = (a + (hs.map fun h => h.amount * h.averagePurchasePrice).sum,
       b + (hs.map fun h => h.amount * orElse h.currentPrice h.purchasePrice).sum) := by
  induction hs generalizing a b with
  | nil => simp
  | cons h t ih => simp [List.foldl_cons, ih, add_assoc]

theorem accumulateTotals_eq (hs : List Holding) :
    accumulateTotals hs
    = ((hs.map fun h => h.amount * h.averagePurchasePrice).sum,
       (hs.map fun h => h.amount * orElse h.currentPrice h.purchasePrice).sum) := by
  unfold accumulateTotals
  rw [accumulateTotals_aux]
  simp

/-- C1: for every portfolio, `portfolioMetrics` returns the sum of
`amount * averagePurchasePrice` as `totalInvested`, the sum of
`amount * (currentPrice if non-zero, else purchasePrice)` as `totalCurrentValue`,
their difference as `totalProfitLoss`, that difference over `totalInvested`
times 100 (or 0 when `totalInvested` is not positive) as the percentage, and the
number of holdings as `holdingsCount`; with no holdings all five are 0. -/
theorem portfolioMetrics_spec (p : Portfolio) :
    (portfolioMetrics p).totalInvested
        = (p.holdings.map fun h => h.amount * h.averagePurchasePrice).sum
    ∧ (portfolioMetrics p).totalCurrentValue
        = (p.holdings.map fun h =>
            h.amount * (if h.currentPrice ≠ 0 then h.currentPrice else h.purchasePrice)).sum
    ∧ (portfolioMetrics p).totalProfitLoss
        = (portfolioMetrics p).totalCurrentValue - (portfolioMetrics p).totalInvested
    ∧ (portfolioMetrics p).totalProfitLossPercentage
        = (if (portfolioMetrics p).totalInvested > 0
            then (portfolioMetrics p).totalProfitLoss / (portfolioMetrics p).totalInvested * 100
            else 0)
    ∧ (portfolioMetrics p).holdingsCount = p.holdings.length
    ∧ portfolioMetrics { p with holdings := [] }
        = { totalInvested := 0, totalCurrentValue := 0, totalProfitLoss := 0,
            totalProfitLossPercentage := 0, holdingsCount := 0 } := by
  have hor : ∀ h : Holding,
      (if h.currentPrice ≠ 0 then h.currentPrice else h.purchasePrice)
        = orElse h.currentPrice h.purchasePrice := fun h => rfl
  simp only [hor]
  by_cases hl : p.holdings.length = 0
  · have hnil : p.holdings = [] := List.length_eq_zero.mp hl
    simp [portfolioMetrics, hnil]
  · simp [portfolioMetrics, hl, accumulateTotals_eq]

theorem find_split {α : Type} (p : α → Bool) (pre post : List α) (x : α)
    (hpre : ∀ y ∈ pre, p y = false) (hx : p x = true) :
    (pre ++ x :: post).find? p = some x := by
  induction pre with
  | nil => simp [hx]
  | cons y ys ih =>
    have hy : p y = false := hpre y (List.mem_cons_self _ _)
    have hys : ∀ z ∈ ys, p z = false := fun z hz => hpre z (List.mem_cons_of_mem _ hz)
    simp [List.find?, hy, ih hys]

theorem updateFirst_split {α : Type} (p : α → Bool) (f : α → α) (pre post : List α) (x : α)
    (hpre : ∀ y ∈ pre, p y = false) (hx : p x = true) :
    updateFirst p f (pre ++ x :: post) = pre ++ f x :: post := by
  induction pre with
  | nil => simp [updateFirst, hx]
  | cons y ys ih =>
    have hy : p y = false := hpre y (List.mem_cons_self _ _)
    have hys : ∀ z ∈ ys, p z = false := fun z hz => hpre z (List.mem_cons_of_mem _ hz)
    simp [updateFirst, hy, ih hys]

theorem updateMetrics_holdings (p : Portfolio) (now : Nat) :
    (updateMetrics p now).holdings = p.holdings := rfl

/-- C2: when `old` is the holding that `find` returns (the first one whose
symbol is the upper-cased symbol of the data) and `old.amount + amount > 0`,
`addOrUpdateHolding` keeps the number of holdings, replaces `old` in place by a
holding with amount `old.amount + amount` and average price
`(old.amount * old.average + amount * purchasePrice) / (old.amount + amount)`,
and leaves every other holding as it was. -/
theorem addOrUpdateHolding_existing (p : Portfolio) (d : HoldingData) (freshId now : Nat)
    (pre post : List Holding) (old : Holding)
    (hsplit : p.holdings = pre ++ old :: post)
    (hpre : ∀ h ∈ pre, h.symbol ≠ toUpperCase d.symbol)
    (hold : old.symbol = toUpperCase d.symbol)
    (_hpos : old.amount + d.amount > 0) :
    ∃ updated : Holding,
      (addOrUpdateHolding p d freshId now).holdings = pre ++ updated :: post
      ∧ (addOrUpdateHolding p d freshId now).holdings.length = p.holdings.length
      ∧ updated.amount = old.amount + d.amount
      ∧ updated.averagePurchasePrice
          = (old.amount * old.averagePurchasePrice + d.amount * d.purchasePrice)
              / (old.amount + d.amount)
      ∧ updated.id = old.id ∧ updated.symbol = old.symbol ∧ updated.name = old.name
      ∧ updated.purchasePrice = old.purchasePrice
      ∧ updated.currentPrice = old.currentPrice := by
  have hpre1 : ∀ y ∈ pre,
      (fun h : Holding => decide (h.symbol = toUpperCase d.symbol)) y = false := by
    intro y hy
    simpa using hpre y hy
  have hx : (fun h : Holding => decide (h.symbol = toUpperCase d.symbol)) old = true := by
    simpa using hold
  have hfind := find_split _ pre post old hpre1 hx
  have hupd := updateFirst_split _ (fun h => mergeHolding h d now) pre post old hpre1 hx
  refine ⟨mergeHolding old d now, ?_, ?_, rfl, rfl, rfl, rfl, rfl, rfl, rfl⟩
  · unfold addOrUpdateHolding
    simp only [hsplit, hfind, updateMetrics_holdings, hupd]
  · unfold addOrUpdateHolding
    simp only [hsplit, hfind, updateMetrics_holdings, hupd]
    simp

/-- Witness of C2: the second call of the model test, `BTC` 1 at 40000 topped
up with 0.5 at 50000. -/
theorem addOrUpdateHolding_existing_witness :
    (1 : ℚ) + 1 / 2 > 0
    ∧ ∃ updated : Holding,
      (addOrUpdateHolding demoPortfolio topUpData 2 9).holdings = [] ++ updated :: []
      ∧ (addOrUpdateHolding demoPortfolio topUpData 2 9).holdings.length
          = demoPortfolio.holdings.length
      ∧ updated.amount = (mkHolding 1 0 btcInput).amount + topUpData.amount
      ∧ updated.averagePurchasePrice
          = ((mkHolding 1 0 btcInput).amount * (mkHolding 1 0 btcInput).averagePurchasePrice
              + topUpData.amount * topUpData.purchasePrice)
              / ((mkHolding 1 0 btcInput).amount + topUpData.amount)
      ∧ updated.id = (mkHolding 1 0 btcInput).id
      ∧ updated.symbol = (mkHolding 1 0 btcInput).symbol
      ∧ updated.name = (mkHolding 1 0 btcInput).name
      ∧ updated.purchasePrice = (mkHolding 1 0 btcInput).purchasePrice
      ∧ updated.currentPrice = (mkHolding 1 0 btcInput).currentPrice :=
  ⟨by norm_num,
   addOrUpdateHolding_existing demoPortfolio topUpData 2 9 [] [] (mkHolding 1 0 btcInput)
    rfl (by simp) (by decide)
    (by norm_num [mkHolding, btcInput, topUpData])⟩

/-- C3: on the input of the route test (`demo-user` holds `BTC` 1 at 40000; the
posted body is `BTC` 0.5 at 50000) `POST /holdings` answers 200 with a single
holding of amount 1.5 whose `averagePurchasePrice` is 42500, not the
amount-weighted average 130000/3 = 43333.33: the handler adds the posted amount
to `amount` before it reads `amount` again in the average. -/
theorem postHoldings_existing_average :
    (postHoldings demoDb none topUpBody 9).1 =
      { status := 200, success := true, message := some "Holding added successfully",
        data := some [{ id := 1, symbol := "BTC", name := "Bitcoin", amount := 3 / 2,
                        purchasePrice := 40000, averagePurchasePrice := 42500,
                        currentPrice := 0, addedAt := 0, updatedAt := 0, notes := "",
                        tags := [] }],
        errors := none }
    ∧ ((1 : ℚ) * 40000 + 1 / 2 * 50000) / (1 + 1 / 2) = 130000 / 3
    ∧ (42500 : ℚ) ≠ 130000 / 3 := by
  refine ⟨by decide!, by norm_num, by norm_num⟩

/-- C4: on the input of the allocation test (`BTC` 1 at 40000 and `ETH` 10 at
2000, whose values sum to 60000) `getAllocation` of the portfolio as constructed
is empty, because the stored `totalCurrentValue` still has its default 0; once
`updateMetrics` has run it returns the two entries with percentages 200/3 and
100/3. -/
theorem getAllocation_fresh_portfolio :
    (portfolioMetrics (newPortfolio 0 "test-user" allocationInputs 0)).totalCurrentValue = 60000
    ∧ (newPortfolio 0 "test-user" allocationInputs 0).totalCurrentValue = 0
    ∧ getAllocation (newPortfolio 0 "test-user" allocationInputs 0) = []
    ∧ getAllocation (updateMetrics (newPortfolio 0 "test-user" allocationInputs 0) 0)
        = [{ symbol := "BTC", name := "Bitcoin", value := 40000, percentage := 200 / 3 },
           { symbol := "ETH", name := "Ethereum", value := 20000, percentage := 100 / 3 }] := by
  refine ⟨by decide!, rfl, by decide!, by decide!⟩

/-- C5: a client whose only subscribed symbol is `constructor` shares no
symbol with the price map of `bitcoin` and `ethereum`, yet
`broadcastPriceUpdates` emits a `priceUpdate` to its socket, with an entry
`constructor` that is no entry of the price map: the test `priceData[symbol]`
finds the member inherited from `Object.prototype`. -/
theorem broadcastPriceUpdates_inherited_member :
    (mapGet "s1" inheritedState.connectedUsers).map (fun u => u.subscriptions)
      = some ["constructor"]
    ∧ (samplePrices.map fun e => e.1) = ["bitcoin", "ethereum"]
    ∧ mapGet "constructor" samplePrices = none
    ∧ broadcastPriceUpdates inheritedState samplePrices 7
        = [{ socketId := "s1"
             payload := Payload.priceUpdate
               [("constructor", { usd := none, usd_24h_change := none })] 7 }] := by
  refine ⟨by decide!, by decide!, by decide!, by decide!⟩

/-- C6: socket `s1` registered an alert for `Bitcoin` above 45000 and the price
of `bitcoin` is 50000.  Alone, it is sent the `priceAlert`.  When socket `s0`
registered before it an alert without a symbol, `checkPriceAlerts` ends in an
exception at that alert and emits nothing, so the triggered alert of `s1` is
not delivered. -/
theorem checkPriceAlerts_stops_at_malformed_alert :
    checkPriceAlerts alertState samplePrices 7
      = { emits := [{ socketId := "s1"
                      payload := Payload.priceAlert aboveAlert 50000
                        (AlertMessage.above "BITCOIN" (some 45000)) 7 7 }]
          threw := false }
    ∧ (mapGet "s1" brokenAlertState.connectedUsers).map (fun u => u.alerts)
        = some (some [aboveAlert])
    ∧ (mapGet "s0" brokenAlertState.connectedUsers).map (fun u => u.alerts)
        = some (some [namelessAlert])
    ∧ checkPriceAlerts brokenAlertState samplePrices 7 = { emits := [], threw := true } := by
  refine ⟨by decide!, by decide!, by decide!, by decide!⟩

theorem repriceHolding_fst (prices : PriceData) (h : Holding) :
    (repriceHolding prices h).1 =
      { h with currentPrice :=
          match mapGet (toLowerCase h.symbol) prices with
          | some info =>
            (match info.usd with
             | some u => if u ≠ 0 then u else h.currentPrice
             | none => h.currentPrice)
          | none => h.currentPrice } := by
  unfold repriceHolding
  cases mapGet (toLowerCase h.symbol) prices with
  | none => rfl
  | some info =>
    cases husd : info.usd with
    | none => simp [truthyNum, husd]
    | some u =>
      by_cases hu : u = 0
      · simp [truthyNum, husd, hu]
      · by_cases hc : h.currentPrice = u
        · simp [truthyNum, husd, hu, hc]
          rw [← hc]
        · simp [truthyNum, husd, hu, hc]

theorem repriceHolding_snd (prices : PriceData) (h : Holding)
    (hchanged : (repriceHolding prices h).2 = true) :
    ∃ info u, mapGet (toLowerCase h.symbol) prices = some info ∧ info.usd = some u
      ∧ u ≠ 0 ∧ h.currentPrice ≠ u := by
  unfold repriceHolding at hchanged
  cases hget : mapGet (toLowerCase h.symbol) prices with
  | none => simp [hget] at hchanged
  | some info =>
    cases husd : info.usd with
    | none => simp [hget, husd, truthyNum] at hchanged
    | some u =>
      by_cases hu : u = 0
      · simp [hget, husd, truthyNum, hu] at hchanged
      · by_cases hc : h.currentPrice = u
        · simp [hget, husd, truthyNum, hu, hc] at hchanged
        · exact ⟨info, u, rfl, husd, hu, hc⟩

theorem repriceHolding_unchanged (prices : PriceData) (h : Holding)
    (hsame : (repriceHolding prices h).2 = false) : (repriceHolding prices h).1 = h := by
  unfold repriceHolding at hsame ⊢
  cases hget : mapGet (toLowerCase h.symbol) prices with
  | none => rfl
  | some info =>
    cases husd : info.usd with
    | none => simp [truthyNum, husd]
    | some u =>
      by_cases hu : u = 0
      · simp [truthyNum, husd, hu]
      · by_cases hc : h.currentPrice = u
        · simp [truthyNum, husd, hu, hc]
        · simp [hget, husd, truthyNum, hu, hc] at hsame

theorem repriceHoldings_fst (prices : PriceData) :
    ∀ hs : List Holding,
      (repriceHoldings prices hs).1 = hs.map fun h => (repriceHolding prices h).1
  | [] => rfl
  | h :: rest => by
    simp [repriceHoldings, repriceHoldings_fst prices rest]

theorem repriceHoldings_snd (prices : PriceData) :
    ∀ hs : List Holding, (repriceHoldings prices hs).2 = true →
      ∃ h ∈ hs, (repriceHolding prices h).2 = true
  | [], hc => by simp [repriceHoldings] at hc
  | h :: rest, hc => by
    simp only [repriceHoldings, Bool.or_eq_true] at hc
    rcases hc with hc | hc
    · exact ⟨h, List.mem_cons_self _ _, hc⟩
    · obtain ⟨g, hg, hgc⟩ := repriceHoldings_snd prices rest hc
      exact ⟨g, List.mem_cons_of_mem _ hg, hgc⟩

theorem repriceHoldings_unchanged (prices : PriceData) :
    ∀ hs : List Holding, (repriceHoldings prices hs).2 = false →
      (repriceHoldings prices hs).1 = hs
  | [], _ => rfl
  | h :: rest, hc => by
    simp only [repriceHoldings, Bool.or_eq_false_iff] at hc
    simp [repriceHoldings, repriceHolding_unchanged prices h hc.1,
      repriceHoldings_unchanged prices rest hc.2]

theorem validHolding_reprice (prices : PriceData) (h : Holding) :
    validHolding (repriceHolding prices h).1 = validHolding h := by
  rw [repriceHolding_fst]
  rfl

theorem validPortfolio_reprice (prices : PriceData) (now : Nat) (p : Portfolio) :
    validPortfolio
        (updateMetrics { p with holdings := (repriceHoldings prices p.holdings).1 } now)
      = validPortfolio p := by
  unfold validPortfolio
  rw [updateMetrics_holdings]
  show (decide (p.userId ≠ "") && (repriceHoldings prices p.holdings).1.all validHolding)
      = (decide (p.userId ≠ "") && p.holdings.all validHolding)
  rw [repriceHoldings_fst, List.all_map]
  congr 1
  apply congrArg (fun f => List.all p.holdings f)
  funext h
  exact validHolding_reprice prices h

theorem updatePortfolioLoop_cons (st : WsState) (prices : PriceData) (now : Nat)
    (p : Portfolio) (rest : List Portfolio) (hp : validPortfolio p = true) :
    updatePortfolioLoop st prices now (p :: rest)
      = if (repriceHoldings prices p.holdings).2 then
          { portfolios :=
              updateMetrics { p with holdings := (repriceHoldings prices p.holdings).1 } now
                :: (updatePortfolioLoop st prices now rest).portfolios
            saved :=
              updateMetrics { p with holdings := (repriceHoldings prices p.holdings).1 } now
                :: (updatePortfolioLoop st prices now rest).saved
            emits :=
              broadcastPortfolioUpdate st p.userId
                (updateMetrics { p with holdings := (repriceHoldings prices p.holdings).1 } now)
                now
              ++ (updatePortfolioLoop st prices now rest).emits }
        else
          { portfolios := p :: (updatePortfolioLoop st prices now rest).portfolios
            saved := (updatePortfolioLoop st prices now rest).saved
            emits := (updatePortfolioLoop st prices now rest).emits } := by
  have hv := validPortfolio_reprice prices now p
  rw [hp] at hv
  simp only [updatePortfolioLoop, hv, if_true]
  rfl

/-- C7: with a cached price map and stored portfolios that satisfy the schema,
`updatePortfolioPrices` leaves the stored portfolios in place and in order, each
holding keeping every field but `currentPrice`, which becomes the `usd` price of
its lower-cased symbol when the map has a non-zero one and stays as it was
otherwise; every document it saves is a stored portfolio one of whose holdings
had a `currentPrice` different from its non-zero quoted price; every emit it
makes is a `portfolioUpdate` of a saved document. -/
theorem updatePortfolioPrices_spec (st : WsState) (prices : PriceData)
    (portfolios : List Portfolio) (now : Nat)
    (hvalid : ∀ p ∈ portfolios, validPortfolio p = true) :
    (updatePortfolioPrices st (some prices) portfolios now).portfolios.map
        (fun q => (q.id, q.userId, q.holdings))
      = portfolios.map (fun p => (p.id, p.userId, p.holdings.map fun h =>
          { h with currentPrice :=
              match mapGet (toLowerCase h.symbol) prices with
              | some info =>
                (match info.usd with
                 | some u => if u ≠ 0 then u else h.currentPrice
                 | none => h.currentPrice)
              | none => h.currentPrice }))
    ∧ (∀ q ∈ (updatePortfolioPrices st (some prices) portfolios now).saved,
        q ∈ (updatePortfolioPrices st (some prices) portfolios now).portfolios
        ∧ ∃ p ∈ portfolios, q.id = p.id
          ∧ ∃ h ∈ p.holdings, ∃ info u,
              mapGet (toLowerCase h.symbol) prices = some info ∧ info.usd = some u
                ∧ u ≠ 0 ∧ h.currentPrice ≠ u)
    ∧ (∀ e ∈ (updatePortfolioPrices st (some prices) portfolios now).emits,
        ∃ q ∈ (updatePortfolioPrices st (some prices) portfolios now).saved,
          e.payload = Payload.portfolioUpdate q now) := by
  show (updatePortfolioLoop st prices now portfolios).portfolios.map
        (fun q => (q.id, q.userId, q.holdings)) = _
    ∧ (∀ q ∈ (updatePortfolioLoop st prices now portfolios).saved,
        q ∈ (updatePortfolioLoop st prices now portfolios).portfolios ∧ _)
    ∧ (∀ e ∈ (updatePortfolioLoop st prices now portfolios).emits,
        ∃ q ∈ (updatePortfolioLoop st prices now portfolios).saved, _)
  induction portfolios with
  | nil =>
    refine ⟨rfl, ?_, ?_⟩
    · intro q hq
      cases hq
    · intro e he
      cases he
  | cons p rest ih =>
    have hp : validPortfolio p = true := hvalid p (List.mem_cons_self _ _)
    obtain ⟨ih1, ih2, ih3⟩ := ih (fun q hq => hvalid q (List.mem_cons_of_mem _ hq))
    have hmapped : (repriceHoldings prices p.holdings).1
        = p.holdings.map fun h =>
          { h with currentPrice :=
              match mapGet (toLowerCase h.symbol) prices with
              | some info =>
                (match info.usd with
                 | some u => if u ≠ 0 then u else h.currentPrice
                 | none => h.currentPrice)
              | none => h.currentPrice } := by
      rw [repriceHoldings_fst]
      apply List.map_congr_left
      intro h _
      exact repriceHolding_fst prices h
    rw [updatePortfolioLoop_cons st prices now p rest hp]
    cases hc : (repriceHoldings prices p.holdings).2 with
    | false =>
      simp only [Bool.false_eq_true, if_false]
      refine ⟨?_, ?_, ?_⟩
      · rw [List.map_cons, List.map_cons, ih1, ← hmapped,
          repriceHoldings_unchanged prices p.holdings hc]
      · intro q hq
        obtain ⟨hq1, r, hr, hrest⟩ := ih2 q hq
        exact ⟨List.mem_cons_of_mem _ hq1, r, List.mem_cons_of_mem _ hr, hrest⟩
      · exact ih3
    | true =>
      simp only [if_true]
      refine ⟨?_, ?_, ?_⟩
      · rw [List.map_cons, List.map_cons, ih1, ← hmapped]
        rfl
      · intro q hq
        rcases List.mem_cons.mp hq with hq | hq
        · subst hq
          refine ⟨List.mem_cons_self _ _, p, List.mem_cons_self _ _, rfl, ?_⟩
          obtain ⟨h, hh, hch⟩ := repriceHoldings_snd prices p.holdings hc
          exact ⟨h, hh, repriceHolding_snd prices h hch⟩
        · obtain ⟨hq1, r, hr, hrest⟩ := ih2 q hq
          exact ⟨List.mem_cons_of_mem _ hq1, r, List.mem_cons_of_mem _ hr, hrest⟩
      · intro e he
        rcases List.mem_append.mp he with he | he
        · refine ⟨_, List.mem_cons_self _ _, ?_⟩
          unfold broadcastPortfolioUpdate at he
          split at he
          · cases he
          · split at he
            · obtain ⟨s, _, hse⟩ := List.mem_map.mp he
              rw [← hse]
            · cases he
        · obtain ⟨q, hq, hpay⟩ := ih3 e he
          exact ⟨q, List.mem_cons_of_mem _ hq, hpay⟩

/-- Witness of C7: the stored `demoPortfolio` (`BTC`, `currentPrice` 0) against
a price map quoting `btc` at 50000. -/
theorem updatePortfolioPrices_spec_witness :
    (∀ p ∈ [demoPortfolio], validPortfolio p = true)
    ∧ (updatePortfolioPrices WsState.initial (some btcPrices) [demoPortfolio] 9).portfolios.map
          (fun q => (q.id, q.userId, q.holdings))
        = [demoPortfolio].map (fun p => (p.id, p.userId, p.holdings.map fun h =>
            { h with currentPrice :=
                match mapGet (toLowerCase h.symbol) btcPrices with
                | some info =>
                  (match info.usd with
                   | some u => if u ≠ 0 then u else h.currentPrice
                   | none => h.currentPrice)
                | none => h.currentPrice }))
    ∧ (updatePortfolioPrices WsState.initial (some btcPrices) [demoPortfolio] 9).portfolios.map
          (fun q => q.holdings.map fun h => (h.symbol, h.amount, h.currentPrice))
        = [[("BTC", 1, 50000)]] :=
  ⟨by decide!,
   (updatePortfolioPrices_spec WsState.initial btcPrices [demoPortfolio] 9 (by decide!)).1,
   by decide!⟩

/-- C8: socket `s1` connects, subscribes with `subscribe-portfolio` and then
sends `unsubscribe`.  The handler empties `userSubscriptions` but leaves the
subscription set of the connection as it was, and the next
`broadcastPriceUpdates` still emits a `priceUpdate` to `s1`. -/
theorem unsubscribe_keeps_price_updates :
    (handleEvent subscribedState (SocketEvent.unsubscribe "s1")).userSubscriptions = []
    ∧ mapGet "s1" (handleEvent subscribedState (SocketEvent.unsubscribe "s1")).connectedUsers
        = some subscribedUser
    ∧ broadcastPriceUpdates (handleEvent subscribedState (SocketEvent.unsubscribe "s1"))
        samplePrices 7
        = [{ socketId := "s1"
             payload := Payload.priceUpdate
               [("bitcoin", { usd := some 50000, usd_24h_change := some 3 })] 7 }] := by
  refine ⟨by decide!, by decide!, by decide!⟩

/-- C9: on the input of the route test (`demo-user` holds holding 1; the body is
`{ amount: 2, purchasePrice: 45000 }`, without `symbol`) `PUT /holdings/1` is
answered by `validatePortfolioData` with status 400 and the three `symbol`
errors, and the collection is unchanged; the handler the route never reaches
would have answered 200 with amount 2 and purchase price 45000. -/
theorem putHolding_rejects_update_body :
    putHolding demoDb none 1 updateBody 9
      = ({ status := 400, success := false, message := some "Validation failed", data := none,
           errors := some
             [⟨"symbol", "Symbol is required", FieldValue.undefined⟩,
              ⟨"symbol", "Symbol must be between 1 and 10 characters", FieldValue.undefined⟩,
              ⟨"symbol", "Symbol must contain only letters and numbers",
                FieldValue.undefined⟩] },
         demoDb)
    ∧ (putHoldingHandler demoDb none 1 updateBody 9).1
      = { status := 200, success := true, message := some "Holding updated successfully",
          data := some [{ id := 1, symbol := "BTC", name := "Bitcoin", amount := 2,
                          purchasePrice := 45000, averagePurchasePrice := 45000,
                          currentPrice := 0, addedAt := 0, updatedAt := 9, notes := "",
                          tags := [] }],
          errors := none } := by
  refine ⟨by decide!, by decide!⟩

theorem validatePortfolioData_ne_nil (body : HoldingBody)
    (h : body.symbol = none ∨ body.amount = none) :
    validatePortfolioData body ≠ []
    ∧ ∃ e ∈ validatePortfolioData body, e.field = "symbol" ∨ e.field = "amount" := by
  rcases h with h | h
  · have hmem : (⟨"symbol", "Symbol is required", FieldValue.undefined⟩ : FieldError)
        ∈ validatePortfolioData body := by
      simp [validatePortfolioData, symbolErrors, h, strValue]
    exact ⟨List.ne_nil_of_mem hmem, _, hmem, Or.inl rfl⟩
  · have hmem : (⟨"amount", "Amount is required", FieldValue.undefined⟩ : FieldError)
        ∈ validatePortfolioData body := by
      simp [validatePortfolioData, amountErrors, h]
    exact ⟨List.ne_nil_of_mem hmem, _, hmem, Or.inr rfl⟩

/-- C10: a body that lacks `symbol` or lacks `amount` is answered by
`validatePortfolioData` on both routes that use it: status 400, `success` false,
message `Validation failed`, a non-empty list of field errors naming `symbol` or
`amount`; the handler does not run and the collection is unchanged. -/
theorem validatePortfolioData_rejects (db : Db) (user : Option String) (holdingId : Nat)
    (body : HoldingBody) (now : Nat)
    (h : body.symbol = none ∨ body.amount = none) :
    ∃ errors : List FieldError,
      errors ≠ []
      ∧ (∃ e ∈ errors, e.field = "symbol" ∨ e.field = "amount")
      ∧ postHoldings db user body now
          = ({ status := 400, success := false, message := some "Validation failed",
               data := none, errors := some errors }, db)
      ∧ putHolding db user holdingId body now
          = ({ status := 400, success := false, message := some "Validation failed",
               data := none, errors := some errors }, db) := by
  obtain ⟨hne, hfield⟩ := validatePortfolioData_ne_nil body h
  have hempty : (validatePortfolioData body).isEmpty = false := by
    cases hv : validatePortfolioData body with
    | nil => exact absurd hv hne
    | cons _ _ => rfl
  refine ⟨validatePortfolioData body, hne, hfield, ?_, ?_⟩
  · simp [postHoldings, handleValidationErrors, hempty]
  · simp [putHolding, handleValidationErrors, hempty]

/-- Witness of C10: the body `{ amount: 2, purchasePrice: 45000 }`, which lacks
`symbol`, against the collection of the route tests. -/
theorem validatePortfolioData_rejects_witness :
    (updateBody.symbol = none ∨ updateBody.amount = none)
    ∧ ∃ errors : List FieldError,
      errors ≠ []
      ∧ (∃ e ∈ errors, e.field = "symbol" ∨ e.field = "amount")
      ∧ postHoldings demoDb none updateBody 9
          = ({ status := 400, success := false, message := some "Validation failed",
               data := none, errors := some errors }, demoDb)
      ∧ putHolding demoDb none 1 updateBody 9
          = ({ status := 400, success := false, message := some "Validation failed",
               data := none, errors := some errors }, demoDb) :=
  ⟨Or.inl rfl, validatePortfolioData_rejects demoDb none 1 updateBody 9 (Or.inl rfl)⟩

theorem find_none_of_forall {α : Type} (p : α → Bool) :
    ∀ l : List α, (∀ y ∈ l, p y = false) → l.find? p = none
  | [], _ => rfl
  | y :: ys, h => by
    have hy : p y = false := h y (List.mem_cons_self _ _)
    simp only [List.find?, hy]
    exact find_none_of_forall p ys (fun z hz => h z (List.mem_cons_of_mem _ hz))

/-- C11, as stated, fails for a symbol with surrounding white space: added to a
portfolio without holdings, the data with symbol `" btc"` yields a holding whose
symbol is `"BTC"`, not the upper-cased given symbol `" BTC"`, because the
schema path `symbol` also trims. -/
theorem addOrUpdateHolding_trims_symbol :
    (addOrUpdateHolding (newPortfolio 0 "test-user" [] 0) spacedBuyData 1 5).holdings.map
        (fun h => h.symbol) = ["BTC"]
    ∧ toUpperCase spacedBuyData.symbol = " BTC"
    ∧ (addOrUpdateHolding (newPortfolio 0 "test-user" [] 0) spacedBuyData 1 5).holdings.map
        (fun h => h.symbol) ≠ [toUpperCase spacedBuyData.symbol] := by
  refine ⟨by decide!, by decide!, by decide!⟩

/-- C11, amended: when no holding of the portfolio has the upper-cased symbol of
the data, `addOrUpdateHolding` appends exactly one holding, whose symbol is the
upper-cased given symbol with surrounding white space removed, with the given
amount, and with `purchasePrice` and `averagePurchasePrice` both equal to the
given purchase price; the existing holdings are unchanged and the number of
holdings grows by 1. -/
theorem addOrUpdateHolding_new (p : Portfolio) (d : HoldingData) (freshId now : Nat)
    (hnew : ∀ h ∈ p.holdings, h.symbol ≠ toUpperCase d.symbol) :
    ∃ added : Holding,
      (addOrUpdateHolding p d freshId now).holdings = p.holdings ++ [added]
      ∧ (addOrUpdateHolding p d freshId now).holdings.length = p.holdings.length + 1
      ∧ added.symbol = trim (toUpperCase d.symbol)
      ∧ added.name = trim d.name
      ∧ added.amount = d.amount
      ∧ added.purchasePrice = d.purchasePrice
      ∧ added.averagePurchasePrice = d.purchasePrice := by
  have hnone : p.holdings.find? (fun h : Holding => decide (h.symbol = toUpperCase d.symbol))
      = none := by
    apply find_none_of_forall
    intro y hy
    simpa using hnew y hy
  refine ⟨{ id := freshId
            symbol := trim (toUpperCase d.symbol)
            name := trim d.name
            amount := d.amount
            purchasePrice := d.purchasePrice
            averagePurchasePrice := d.purchasePrice
            currentPrice := 0
            addedAt := now
            updatedAt := now
            notes := d.notes.getD ""
            tags := (d.tags.getD []).map trim }, ?_, ?_, rfl, rfl, rfl, rfl, rfl⟩
  · unfold addOrUpdateHolding
    simp only [hnone, updateMetrics_holdings]
  · unfold addOrUpdateHolding
    simp only [hnone, updateMetrics_holdings]
    simp

/-- Witness of the amended C11: the first call of the model test, `btc` 1 at
40000 added to a portfolio without holdings. -/
theorem addOrUpdateHolding_new_witness :
    (∀ h ∈ (newPortfolio 0 "test-user" [] 0).holdings, h.symbol ≠ toUpperCase firstBuyData.symbol)
    ∧ (∃ added : Holding,
      (addOrUpdateHolding (newPortfolio 0 "test-user" [] 0) firstBuyData 1 5).holdings
        = (newPortfolio 0 "test-user" [] 0).holdings ++ [added]
      ∧ (addOrUpdateHolding (newPortfolio 0 "test-user" [] 0) firstBuyData 1 5).holdings.length
        = (newPortfolio 0 "test-user" [] 0).holdings.length + 1
      ∧ added.symbol = trim (toUpperCase firstBuyData.symbol)
      ∧ added.name = trim firstBuyData.name
      ∧ added.amount = firstBuyData.amount
      ∧ added.purchasePrice = firstBuyData.purchasePrice
      ∧ added.averagePurchasePrice = firstBuyData.purchasePrice)
    ∧ (addOrUpdateHolding (newPortfolio 0 "test-user" [] 0) firstBuyData 1 5).holdings.map
        (fun h => h.symbol) = ["BTC"] :=
  ⟨by decide!,
   addOrUpdateHolding_new (newPortfolio 0 "test-user" [] 0) firstBuyData 1 5 (by decide!),
   by decide!⟩

/-- C17: `PUT /holdings/:id` with body `{ amount: 1 }` for `demo-user`, who has
no stored portfolio, is answered by `validatePortfolioData` with status 400 and
the three `symbol` errors; the handler the route never reaches would have
answered 404 `Portfolio not found`. -/
theorem putHolding_rejects_before_lookup :
    putHolding emptyDb none 7 amountOnlyBody 9
      = ({ status := 400, success := false, message := some "Validation failed", data := none,
           errors := some
             [⟨"symbol", "Symbol is required", FieldValue.undefined⟩,
              ⟨"symbol", "Symbol must be between 1 and 10 characters", FieldValue.undefined⟩,
              ⟨"symbol", "Symbol must contain only letters and numbers",
                FieldValue.undefined⟩] },
         emptyDb)
    ∧ putHoldingHandler emptyDb none 7 amountOnlyBody 9
      = ({ status := 404, success := false, message := some "Portfolio not found",
           data := none, errors := none }, emptyDb) := by
  refine ⟨by decide!, by decide!⟩


theorem jsSort_perm {α : Type} (cmp : α → α → ℚ) (l : List α) : (jsSort cmp l).Perm l :=
  List.perm_insertionSort _ l

theorem jsSort_sorted_of_key {α : Type} (cmp : α → α → ℚ) (key : α → ℚ)
    (hcmp : ∀ a b, cmp a b ≤ 0 ↔ key a ≤ key b) (l : List α) :
    (jsSort cmp l).Pairwise (fun a b => key a ≤ key b) := by
  haveI : IsTotal α (fun a b => cmp a b ≤ 0) :=
    ⟨fun a b => by
      rcases le_total (key a) (key b) with h | h
      · exact Or.inl ((hcmp a b).mpr h)
      · exact Or.inr ((hcmp b a).mpr h)⟩
  haveI : IsTrans α (fun a b => cmp a b ≤ 0) :=
    ⟨fun a b c hab hbc => (hcmp a c).mpr (le_trans ((hcmp a b).mp hab) ((hcmp b c).mp hbc))⟩
  have hs : List.Sorted (fun a b => cmp a b ≤ 0) (jsSort cmp l) :=
    List.sorted_insertionSort (fun a b => cmp a b ≤ 0) l
  exact List.Pairwise.imp (fun {a b} h => (hcmp a b).mp h) hs

theorem take_jsSort_spec {α : Type} (cmp : α → α → ℚ) (key : α → ℚ)
    (hcmp : ∀ a b, cmp a b ≤ 0 ↔ key a ≤ key b) (l : List α) (n : Nat) :
    ((jsSort cmp l).take n).length = min n l.length
    ∧ (∀ a ∈ (jsSort cmp l).take n, a ∈ l)
    ∧ ((jsSort cmp l).take n).Pairwise (fun a b => key a ≤ key b)
    ∧ (∀ a ∈ l, a ∉ (jsSort cmp l).take n → ∀ b ∈ (jsSort cmp l).take n, key b ≤ key a) := by
  have hperm := jsSort_perm cmp l
  have hsorted := jsSort_sorted_of_key cmp key hcmp l
  refine ⟨?_, ?_, ?_, ?_⟩
  · rw [List.length_take, hperm.length_eq]
  · intro a ha
    exact hperm.mem_iff.mp (List.mem_of_mem_take ha)
  · exact hsorted.sublist (List.take_sublist n _)
  · intro a ha hnot b hb
    have ha1 : a ∈ (jsSort cmp l).take n ++ (jsSort cmp l).drop n := by
      rw [List.take_append_drop]
      exact hperm.mem_iff.mpr ha
    rcases List.mem_append.mp ha1 with h | h
    · exact absurd h hnot
    · exact List.Sorted.rel_of_mem_take_of_mem_drop hsorted hb h

/-- C12: for a portfolio whose holdings all have `averagePurchasePrice > 0` and
a limit `n`, `getTopPerformers n` returns `min n k` holdings, `k` being the
number of holdings with `currentPrice > 0`; each is a holding of the portfolio
with `currentPrice > 0`, whose `profitLossPercentage` is
`(currentPrice - averagePurchasePrice) / averagePurchasePrice * 100`; they come
in non-increasing order of it, and no holding with `currentPrice > 0` that is
left out has a strictly greater one than a returned holding.
`getWorstPerformers n` is the same with the order reversed. -/
theorem getTopPerformers_spec (p : Portfolio) (n : Nat)
    (_havg : ∀ h ∈ p.holdings, h.averagePurchasePrice > 0) :
    ((getTopPerformers p n).length
        = min n (p.holdings.filter fun h => h.currentPrice > 0).length
      ∧ (∀ h ∈ getTopPerformers p n, h ∈ p.holdings ∧ h.currentPrice > 0
          ∧ h.profitLossPercentage
              = (h.currentPrice - h.averagePurchasePrice) / h.averagePurchasePrice * 100)
      ∧ (getTopPerformers p n).Pairwise
          (fun a b => a.profitLossPercentage ≥ b.profitLossPercentage)
      ∧ (∀ h ∈ p.holdings, h.currentPrice > 0 → h ∉ getTopPerformers p n →
          ∀ g ∈ getTopPerformers p n, ¬ h.profitLossPercentage > g.profitLossPercentage))
    ∧ ((getWorstPerformers p n).length
        = min n (p.holdings.filter fun h => h.currentPrice > 0).length
      ∧ (∀ h ∈ getWorstPerformers p n, h ∈ p.holdings ∧ h.currentPrice > 0
          ∧ h.profitLossPercentage
              = (h.currentPrice - h.averagePurchasePrice) / h.averagePurchasePrice * 100)
      ∧ (getWorstPerformers p n).Pairwise
          (fun a b => a.profitLossPercentage ≤ b.profitLossPercentage)
      ∧ (∀ h ∈ p.holdings, h.currentPrice > 0 → h ∉ getWorstPerformers p n →
          ∀ g ∈ getWorstPerformers p n, ¬ h.profitLossPercentage < g.profitLossPercentage)) := by
  have hformula : ∀ h : Holding, h.currentPrice > 0 →
      h.profitLossPercentage
        = (h.currentPrice - h.averagePurchasePrice) / h.averagePurchasePrice * 100 := by
    intro h hpos
    have hne : h.currentPrice ≠ 0 := ne_of_gt hpos
    simp [Holding.profitLossPercentage, orElse, hne]
  have hfil : ∀ h : Holding, h ∈ (p.holdings.filter fun h => h.currentPrice > 0)
      ↔ (h ∈ p.holdings ∧ h.currentPrice > 0) := by
    intro h
    simp [List.mem_filter]
  constructor
  · obtain ⟨h1, h2, h3, h4⟩ :=
      take_jsSort_spec (fun a b : Holding => b.profitLossPercentage - a.profitLossPercentage)
        (fun h => -h.profitLossPercentage)
        (fun a b => by
          dsimp only
          constructor <;> intro h <;> linarith)
        (p.holdings.filter fun h => h.currentPrice > 0) n
    refine ⟨h1, ?_, ?_, ?_⟩
    · intro h hh
      have hm := (hfil h).mp (h2 h hh)
      exact ⟨hm.1, hm.2, hformula h hm.2⟩
    · exact List.Pairwise.imp (fun {a b} hab => by simpa using hab) h3
    · intro h hh hpos hnot g hg
      have := h4 h ((hfil h).mpr ⟨hh, hpos⟩) hnot g hg
      simp only [neg_le_neg_iff] at this
      exact not_lt.mpr this
  · obtain ⟨h1, h2, h3, h4⟩ :=
      take_jsSort_spec (fun a b : Holding => a.profitLossPercentage - b.profitLossPercentage)
        (fun h => h.profitLossPercentage)
        (fun a b => by
          dsimp only
          constructor <;> intro h <;> linarith)
        (p.holdings.filter fun h => h.currentPrice > 0) n
    refine ⟨h1, ?_, h3, ?_⟩
    · intro h hh
      have hm := (hfil h).mp (h2 h hh)
      exact ⟨hm.1, hm.2, hformula h hm.2⟩
    · intro h hh hpos hnot g hg
      exact not_lt.mpr (h4 h ((hfil h).mpr ⟨hh, hpos⟩) hnot g hg)

/-- Witness of C12: the portfolio of the model test, `BTC` up 25% and `ETH`
down 10%, with limit 1. -/
theorem getTopPerformers_spec_witness :
    (∀ h ∈ (newPortfolio 0 "test-user" performerInputs 0).holdings, h.averagePurchasePrice > 0)
    ∧ (getTopPerformers (newPortfolio 0 "test-user" performerInputs 0) 1).length
        = min 1 ((newPortfolio 0 "test-user" performerInputs 0).holdings.filter
            fun h => h.currentPrice > 0).length
    ∧ (getTopPerformers (newPortfolio 0 "test-user" performerInputs 0) 1).map
          (fun h => (h.symbol, h.profitLossPercentage)) = [("BTC", 25)]
    ∧ (getWorstPerformers (newPortfolio 0 "test-user" performerInputs 0) 1).map
          (fun h => (h.symbol, h.profitLossPercentage)) = [("ETH", -10)] :=
  ⟨by decide!,
   (getTopPerformers_spec (newPortfolio 0 "test-user" performerInputs 0) 1 (by decide!)).1.1,
   by decide!, by decide!⟩


theorem filter_id_split (holdingId : Nat) (pre post : List Holding) (h : Holding)
    (hid : h.id = holdingId) (hothers : ∀ g ∈ pre ++ post, g.id ≠ holdingId) :
    (pre ++ h :: post).filter (fun g => g.id ≠ holdingId) = pre ++ post := by
  have hpre : pre.filter (fun g => decide (g.id ≠ holdingId)) = pre := by
    apply List.filter_eq_self.mpr
    intro g hg
    simpa using hothers g (List.mem_append_left _ hg)
  have hpost : post.filter (fun g => decide (g.id ≠ holdingId)) = post := by
    apply List.filter_eq_self.mpr
    intro g hg
    simpa using hothers g (List.mem_append_right _ hg)
  rw [List.filter_append, List.filter_cons, hpre, hpost]
  simp [hid]

/-- C13: when the stored portfolio of the user satisfies the schema and its
holdings are `pre ++ h :: post` with `h` the only holding of id `holdingId`,
`DELETE /holdings/:id` answers 200 with `success` true and the holdings
`pre ++ post`: the other holdings unchanged and in order, the list one shorter;
the collection stores the portfolio with these holdings. -/
theorem deleteHolding_removes (db : Db) (user : Option String) (holdingId now : Nat)
    (portfolio : Portfolio) (pre post : List Holding) (h : Holding)
    (hfound : findOne db (requestUserId user) = some portfolio)
    (hvalid : validPortfolio portfolio = true)
    (hsplit : portfolio.holdings = pre ++ h :: post)
    (hid : h.id = holdingId)
    (hothers : ∀ g ∈ pre ++ post, g.id ≠ holdingId) :
    (deleteHolding db user holdingId now).1.status = 200
    ∧ (deleteHolding db user holdingId now).1.success = true
    ∧ (deleteHolding db user holdingId now).1.data = some (pre ++ post)
    ∧ (pre ++ post).length + 1 = portfolio.holdings.length
    ∧ (deleteHolding db user holdingId now).2.portfolios
        = store (updateMetrics { portfolio with holdings := pre ++ post } now) db.portfolios := by
  have hfind : (portfolio.holdings.find? fun g => decide (g.id = holdingId)).isSome = true := by
    rw [List.find?_isSome]
    exact ⟨h, by rw [hsplit]; simp, by simpa using hid⟩
  obtain ⟨g, hg⟩ := Option.isSome_iff_exists.mp hfind
  have hfilter := filter_id_split holdingId pre post h hid hothers
  have hvalid1 : validPortfolio { portfolio with holdings := pre ++ post } = true := by
    unfold validPortfolio at hvalid ⊢
    rw [Bool.and_eq_true] at hvalid ⊢
    refine ⟨hvalid.1, ?_⟩
    rw [List.all_eq_true] at hvalid ⊢
    intro x hx
    apply hvalid.2 x
    rw [hsplit]
    rcases List.mem_append.mp hx with hx | hx
    · exact List.mem_append_left _ hx
    · exact List.mem_append_right _ (List.mem_cons_of_mem _ hx)
  have hlen : (pre ++ post).length + 1 = portfolio.holdings.length := by
    rw [hsplit]
    simp
    omega
  have hres : deleteHolding db user holdingId now
      = ({ status := 200, success := true, message := some "Holding deleted successfully",
           data := some (pre ++ post), errors := none },
         { portfolios :=
             store (updateMetrics { portfolio with holdings := pre ++ post } now) db.portfolios
           nextId := db.nextId }) := by
    unfold deleteHolding
    simp only [hfound, hg]
    rw [← hsplit] at hfilter
    simp only [hfilter, save, hvalid1, if_true, updateMetrics_holdings]
  rw [hres]
  exact ⟨rfl, rfl, rfl, hlen, rfl⟩

/-- Witness of C13: the route test, which deletes the only holding (id 1) of
`demo-user`. -/
theorem deleteHolding_removes_witness :
    findOne demoDb (requestUserId none) = some demoPortfolio
    ∧ validPortfolio demoPortfolio = true
    ∧ demoPortfolio.holdings = [] ++ mkHolding 1 0 btcInput :: []
    ∧ (deleteHolding demoDb none 1 9).1.status = 200
    ∧ (deleteHolding demoDb none 1 9).1.success = true
    ∧ (deleteHolding demoDb none 1 9).1.data = some ([] ++ [])
    ∧ (deleteHolding demoDb none 1 9).2.portfolios
        = store (updateMetrics { demoPortfolio with holdings := [] ++ [] } 9) demoDb.portfolios :=
  have h := deleteHolding_removes demoDb none 1 9 demoPortfolio [] [] (mkHolding 1 0 btcInput)
    (by decide!) (by decide!) (by decide!) rfl (by simp)
  ⟨by decide!, by decide!, by decide!, h.1, h.2.1, h.2.2.1, h.2.2.2.2⟩

theorem portfolioMetrics_totals (p : Portfolio) :
    (portfolioMetrics p).totalCurrentValue
        = (p.holdings.map fun h => h.amount * orElse h.currentPrice h.purchasePrice).sum
    ∧ (portfolioMetrics p).holdingsCount = p.holdings.length := by
  by_cases hl : p.holdings.length = 0
  · have hnil : p.holdings = [] := List.length_eq_zero.mp hl
    simp [portfolioMetrics, hnil]
  · simp [portfolioMetrics, hl, accumulateTotals_eq]

theorem summaryStep_totalValue (s : SummaryState) (h : Holding) :
    (summaryStep s h).totalValue
      = s.totalValue + h.amount * orElse h.currentPrice h.purchasePrice := by
  unfold summaryStep
  simp only
  split <;> split <;> rfl

theorem foldl_summaryStep_totalValue :
    ∀ (hs : List Holding) (s : SummaryState),
      (hs.foldl summaryStep s).totalValue
        = s.totalValue + (hs.map fun h => h.amount * orElse h.currentPrice h.purchasePrice).sum
  | [], s => by simp
  | h :: rest, s => by
    rw [List.foldl_cons, foldl_summaryStep_totalValue rest, summaryStep_totalValue]
    simp [add_assoc]

theorem getSummary_none (db : Db) (user : Option String)
    (hf : findOne db (requestUserId user) = none) :
    getSummary db user
      = { totalValue := 0, totalHoldings := 0, topPerformer := none, worstPerformer := none } := by
  unfold getSummary
  simp only [hf]

theorem getSummary_some (db : Db) (user : Option String) (p : Portfolio)
    (hf : findOne db (requestUserId user) = some p) :
    getSummary db user
      = if p.holdings.length = 0 then
          { totalValue := 0, totalHoldings := 0, topPerformer := none, worstPerformer := none }
        else
          { totalValue := (p.holdings.foldl summaryStep SummaryState.initial).totalValue
            totalHoldings := p.holdings.length
            topPerformer := (p.holdings.foldl summaryStep SummaryState.initial).topPerformer.map
              fun h =>
                { symbol := h.symbol
                  performance := reportPerformance
                    (p.holdings.foldl summaryStep SummaryState.initial).bestPerformance }
            worstPerformer := (p.holdings.foldl summaryStep SummaryState.initial).worstPerformer.map
              fun h =>
                { symbol := h.symbol
                  performance := reportPerformance
                    (p.holdings.foldl summaryStep SummaryState.initial).worstPerformance } } := by
  unfold getSummary
  simp only [hf]

/-- C14: `GET /summary` reports as `totalValue` the sum over the holdings of the
user of `amount * (currentPrice if non-zero, else purchasePrice)` and as
`totalHoldings` their number, both 0 without a portfolio or without holdings;
they equal the `totalCurrentValue` and `holdingsCount` of `portfolioMetrics` on
the same holdings. -/
theorem getSummary_totals (db : Db) (user : Option String) :
    (getSummary db user).totalValue
      = ((((findOne db (requestUserId user)).map fun p => p.holdings).getD []).map fun h =>
          h.amount * (if h.currentPrice ≠ 0 then h.currentPrice else h.purchasePrice)).sum
    ∧ (getSummary db user).totalHoldings
      = (((findOne db (requestUserId user)).map fun p => p.holdings).getD []).length
    ∧ (∀ q : Portfolio,
        (getSummary db user).totalValue
          = (portfolioMetrics { q with holdings :=
              ((findOne db (requestUserId user)).map fun p => p.holdings).getD [] }).totalCurrentValue
        ∧ (getSummary db user).totalHoldings
          = (portfolioMetrics { q with holdings :=
              ((findOne db (requestUserId user)).map fun p => p.holdings).getD [] }).holdingsCount)
    ∧ getSummary emptyDb user
      = { totalValue := 0, totalHoldings := 0, topPerformer := none, worstPerformer := none } := by
  have hor : ∀ h : Holding,
      (if h.currentPrice ≠ 0 then h.currentPrice else h.purchasePrice)
        = orElse h.currentPrice h.purchasePrice := fun h => rfl
  simp only [hor]
  have key : (getSummary db user).totalValue
      = ((((findOne db (requestUserId user)).map fun p => p.holdings).getD []).map fun h =>
          h.amount * orElse h.currentPrice h.purchasePrice).sum
    ∧ (getSummary db user).totalHoldings
      = (((findOne db (requestUserId user)).map fun p => p.holdings).getD []).length := by
    cases hf : findOne db (requestUserId user) with
    | none =>
      rw [getSummary_none db user hf]
      simp
    | some p =>
      rw [getSummary_some db user p hf]
      by_cases hl : p.holdings.length = 0
      · have hnil : p.holdings = [] := List.length_eq_zero.mp hl
        simp [hnil]
      · simp only [hl, if_false, Option.map_some', Option.getD_some]
        refine ⟨?_, trivial⟩
        rw [foldl_summaryStep_totalValue]
        simp [SummaryState.initial]
  refine ⟨key.1, key.2, ?_, rfl⟩
  intro q
  have hm := portfolioMetrics_totals
    { q with holdings := ((findOne db (requestUserId user)).map fun p => p.holdings).getD [] }
  rw [key.1, key.2]
  exact ⟨hm.1.symm, hm.2.symm⟩


theorem summaryStep_top (s : SummaryState) (h : Holding) :
    (summaryStep s h).topPerformer
        = (if JsNum.gt (performanceOf h) s.bestPerformance then some h else s.topPerformer)
    ∧ (summaryStep s h).bestPerformance
        = (if JsNum.gt (performanceOf h) s.bestPerformance then performanceOf h
            else s.bestPerformance) := by
  unfold summaryStep
  simp only
  split <;> split <;> exact ⟨rfl, rfl⟩

theorem summaryStep_worst (s : SummaryState) (h : Holding) :
    (summaryStep s h).worstPerformer
        = (if JsNum.lt (performanceOf h) s.worstPerformance then some h else s.worstPerformer)
    ∧ (summaryStep s h).worstPerformance
        = (if JsNum.lt (performanceOf h) s.worstPerformance then performanceOf h
            else s.worstPerformance) := by
  unfold summaryStep
  simp only
  split <;> split <;> simp_all

theorem foldl_summaryStep_top (k : Holding → ℚ) :
    ∀ l : List Holding, (∀ h ∈ l, performanceOf h = JsNum.num (k h)) → l ≠ [] →
      ∃ pre t post, l = pre ++ t :: post
        ∧ (∀ h ∈ pre, k h < k t) ∧ (∀ h ∈ post, k h ≤ k t)
        ∧ (l.foldl summaryStep SummaryState.initial).topPerformer = some t
        ∧ (l.foldl summaryStep SummaryState.initial).bestPerformance = JsNum.num (k t) := by
  intro l
  induction l using List.reverseRecOn with
  | nil => intro _ hne; exact absurd rfl hne
  | append_singleton l x ih =>
    intro hfin _
    have hx : performanceOf x = JsNum.num (k x) := hfin x (by simp)
    have hstep := summaryStep_top (l.foldl summaryStep SummaryState.initial) x
    rw [List.foldl_append, List.foldl_cons, List.foldl_nil]
    by_cases hl : l = []
    · subst hl
      refine ⟨[], x, [], rfl, by simp, by simp, ?_, ?_⟩
      · rw [hstep.1]
        simp [SummaryState.initial, hx, JsNum.gt]
      · rw [hstep.2]
        simp [SummaryState.initial, hx, JsNum.gt]
    · obtain ⟨pre, t, post, hsplit, hpre, hpost, htop, hbest⟩ :=
        ih (fun h hh => hfin h (List.mem_append_left _ hh)) hl
      by_cases hgt : k x > k t
      · refine ⟨l, x, [], rfl, ?_, by simp, ?_, ?_⟩
        · intro h hh
          rw [hsplit] at hh
          rcases List.mem_append.mp hh with h1 | h1
          · exact lt_trans (hpre h h1) hgt
          · rcases List.mem_cons.mp h1 with h2 | h2
            · rw [h2]; exact hgt
            · exact lt_of_le_of_lt (hpost h h2) hgt
        · rw [hstep.1, hbest, hx]
          simp [JsNum.gt, hgt]
        · rw [hstep.2, hbest, hx]
          simp [JsNum.gt, hgt]
      · refine ⟨pre, t, post ++ [x], by rw [hsplit]; simp, hpre, ?_, ?_, ?_⟩
        · intro h hh
          rcases List.mem_append.mp hh with h1 | h1
          · exact hpost h h1
          · have : h = x := by simpa using h1
            rw [this]
            exact not_lt.mp hgt
        · rw [hstep.1, hbest, hx]
          simp [JsNum.gt, hgt, htop]
        · rw [hstep.2, hbest, hx]
          simp [JsNum.gt, hgt]

theorem foldl_summaryStep_worst (k : Holding → ℚ) :
    ∀ l : List Holding, (∀ h ∈ l, performanceOf h = JsNum.num (k h)) → l ≠ [] →
      ∃ pre w post, l = pre ++ w :: post
        ∧ (∀ h ∈ pre, k w < k h) ∧ (∀ h ∈ post, k w ≤ k h)
        ∧ (l.foldl summaryStep SummaryState.initial).worstPerformer = some w
        ∧ (l.foldl summaryStep SummaryState.initial).worstPerformance = JsNum.num (k w) := by
  intro l
  induction l using List.reverseRecOn with
  | nil => intro _ hne; exact absurd rfl hne
  | append_singleton l x ih =>
    intro hfin _
    have hx : performanceOf x = JsNum.num (k x) := hfin x (by simp)
    have hstep := summaryStep_worst (l.foldl summaryStep SummaryState.initial) x
    rw [List.foldl_append, List.foldl_cons, List.foldl_nil]
    by_cases hl : l = []
    · subst hl
      refine ⟨[], x, [], rfl, by simp, by simp, ?_, ?_⟩
      · rw [hstep.1]
        simp [SummaryState.initial, hx, JsNum.gt, JsNum.lt]
      · rw [hstep.2]
        simp [SummaryState.initial, hx, JsNum.gt, JsNum.lt]
    · obtain ⟨pre, w, post, hsplit, hpre, hpost, hworst, hperf⟩ :=
        ih (fun h hh => hfin h (List.mem_append_left _ hh)) hl
      by_cases hlt : k x < k w
      · refine ⟨l, x, [], rfl, ?_, by simp, ?_, ?_⟩
        · intro h hh
          rw [hsplit] at hh
          rcases List.mem_append.mp hh with h1 | h1
          · exact lt_trans hlt (hpre h h1)
          · rcases List.mem_cons.mp h1 with h2 | h2
            · rw [h2]; exact hlt
            · exact lt_of_lt_of_le hlt (hpost h h2)
        · rw [hstep.1, hperf, hx]
          simp [JsNum.gt, JsNum.lt, hlt]
        · rw [hstep.2, hperf, hx]
          simp [JsNum.gt, JsNum.lt, hlt]
      · refine ⟨pre, w, post ++ [x], by rw [hsplit]; simp, hpre, ?_, ?_, ?_⟩
        · intro h hh
          rcases List.mem_append.mp hh with h1 | h1
          · exact hpost h h1
          · have : h = x := by simpa using h1
            rw [this]
            exact not_lt.mp hlt
        · rw [hstep.1, hperf, hx]
          simp [JsNum.gt, JsNum.lt, hlt, hworst]
        · rw [hstep.2, hperf, hx]
          simp [JsNum.gt, JsNum.lt, hlt]

theorem toFixed2_nonneg_mono (a b : ℚ) (ha : 0 ≤ a) (hab : a ≤ b) :
    toFixed2 a ≤ toFixed2 b ∧ 0 ≤ toFixed2 a := by
  have hb : 0 ≤ b := le_trans ha hab
  have hna : ¬ a < 0 := not_lt.mpr ha
  have hnb : ¬ b < 0 := not_lt.mpr hb
  have hfloor : ∀ c : ℚ, 0 ≤ c → (0 : ℚ) ≤ ((⌊c * 100 + 1 / 2⌋ : ℤ) : ℚ) / 100 := by
    intro c hc
    apply div_nonneg _ (by norm_num)
    exact_mod_cast Int.floor_nonneg.mpr (by positivity)
  unfold toFixed2
  rw [abs_of_nonneg ha, abs_of_nonneg hb]
  by_cases h1 : (10 : ℚ) ^ 21 ≤ a
  · have h2 : (10 : ℚ) ^ 21 ≤ b := le_trans h1 hab
    simp only [h1, h2, if_true]
    exact ⟨hab, ha⟩
  · by_cases h2 : (10 : ℚ) ^ 21 ≤ b
    · simp only [h1, h2, hna, if_true, if_false]
      refine ⟨?_, hfloor a ha⟩
      have hlt : a * 100 + 1 / 2 < ((10 ^ 23 + 1 : ℤ) : ℚ) := by
        push_cast
        have : a < 10 ^ 21 := not_le.mp h1
        linarith
      have hfl : ⌊a * 100 + 1 / 2⌋ < (10 ^ 23 + 1 : ℤ) := Int.floor_lt.mpr hlt
      have hfl1 : ⌊a * 100 + 1 / 2⌋ ≤ (10 ^ 23 : ℤ) := by omega
      have hq : ((⌊a * 100 + 1 / 2⌋ : ℤ) : ℚ) ≤ 10 ^ 23 := by exact_mod_cast hfl1
      calc ((⌊a * 100 + 1 / 2⌋ : ℤ) : ℚ) / 100 ≤ 10 ^ 23 / 100 := by
            apply div_le_div_of_nonneg_right hq (by norm_num)
        _ = 10 ^ 21 := by norm_num
        _ ≤ b := h2
    · simp only [h1, h2, hna, hnb, if_false]
      refine ⟨?_, hfloor a ha⟩
      apply div_le_div_of_nonneg_right _ (by norm_num)
      exact_mod_cast Int.floor_le_floor (by linarith)

theorem toFixed2_neg (x : ℚ) (hx : x < 0) : toFixed2 x = -toFixed2 (-x) := by
  have hpos : ¬ (-x < 0) := by linarith
  unfold toFixed2
  rw [abs_neg]
  by_cases h1 : (10 : ℚ) ^ 21 ≤ |x|
  · simp [h1]
  · simp only [h1, hx, hpos, if_true, if_false]
    ring

theorem toFixed2_mono (x y : ℚ) (hxy : x ≤ y) : toFixed2 x ≤ toFixed2 y := by
  by_cases hx : x < 0
  · by_cases hy : y < 0
    · rw [toFixed2_neg x hx, toFixed2_neg y hy]
      have := (toFixed2_nonneg_mono (-y) (-x) (by linarith) (by linarith)).1
      linarith
    · rw [toFixed2_neg x hx]
      have h1 := (toFixed2_nonneg_mono (-x) (-x) (by linarith) le_rfl).2
      have h2 := (toFixed2_nonneg_mono y y (not_lt.mp hy) le_rfl).2
      linarith
  · exact (toFixed2_nonneg_mono x y (not_lt.mp hx) hxy).1

/-! ## Rounding to binary64 -/

theorem binadeUp_spec (x : ℚ) : ∀ (fuel : Nat) (p : ℚ), 0 < p → p ≤ x →
    binadeUp x fuel p ≤ x
    ∧ (∃ k : Nat, k ≤ fuel ∧ binadeUp x fuel p = 2 ^ k * p)
    ∧ (binadeUp x fuel p < 2 ^ fuel * p → x < 2 * binadeUp x fuel p)
  | 0, p, _, hpx => by
    refine ⟨hpx, ⟨0, le_refl _, by simp [binadeUp]⟩, ?_⟩
    intro h
    simp [binadeUp] at h
  | fuel + 1, p, hp, hpx => by
    unfold binadeUp
    split
    · rename_i hlt
      exact ⟨hpx, ⟨0, Nat.zero_le _, by simp⟩, fun _ => hlt⟩
    · rename_i hge
      have hge1 : 2 * p ≤ x := not_lt.mp hge
      obtain ⟨h1, ⟨k, hk, hk2⟩, h3⟩ := binadeUp_spec x fuel (2 * p) (by positivity) hge1
      refine ⟨h1, ⟨k + 1, by omega, ?_⟩, ?_⟩
      · rw [hk2]
        ring
      · intro h
        apply h3
        calc binadeUp x fuel (2 * p) < 2 ^ (fuel + 1) * p := h
          _ = 2 ^ fuel * (2 * p) := by ring

theorem binadeDown_spec (x : ℚ) : ∀ (fuel : Nat) (p : ℚ), 0 < p → x < 2 * p →
    x < 2 * binadeDown x fuel p
    ∧ (∃ k : Nat, k ≤ fuel ∧ binadeDown x fuel p = p / 2 ^ k)
    ∧ (p / 2 ^ fuel < binadeDown x fuel p → binadeDown x fuel p ≤ x)
  | 0, p, _, hpx => by
    refine ⟨hpx, ⟨0, le_refl _, by simp [binadeDown]⟩, ?_⟩
    intro h
    simp [binadeDown] at h
  | fuel + 1, p, hp, hpx => by
    unfold binadeDown
    split
    · rename_i hle
      exact ⟨hpx, ⟨0, Nat.zero_le _, by simp⟩, fun _ => hle⟩
    · rename_i hnle
      have hlt : x < 2 * (p / 2) := by
        have := not_le.mp hnle
        linarith
      obtain ⟨h1, ⟨k, hk, hk2⟩, h3⟩ := binadeDown_spec x fuel (p / 2) (by positivity) hlt
      refine ⟨h1, ⟨k + 1, by omega, ?_⟩, ?_⟩
      · rw [hk2, div_div, pow_succ']
      · intro h
        apply h3
        calc p / 2 / 2 ^ fuel = p / 2 ^ (fuel + 1) := by
              rw [div_div, pow_succ']
          _ < binadeDown x fuel (p / 2) := h

theorem binadeOf_spec (x : ℚ) :
    ∃ e : ℤ, -1022 ≤ e ∧ e ≤ 1023 ∧ binadeOf x = (2 : ℚ) ^ e
      ∧ (e < 1023 → x < 2 * binadeOf x) ∧ (-1022 < e → binadeOf x ≤ x) := by
  unfold binadeOf
  split
  · rename_i h1
    obtain ⟨hle, ⟨k, hk, hk2⟩, hlt⟩ := binadeUp_spec x 1023 1 one_pos h1
    refine ⟨(k : ℤ), by omega, by omega, ?_, ?_, fun _ => hle⟩
    · rw [hk2, mul_one, zpow_natCast]
    · intro hk3
      apply hlt
      rw [hk2, mul_one, mul_one]
      apply pow_lt_pow_right₀ (by norm_num)
      omega
  · rename_i h1
    have hx : x < 2 * (1 / 2) := by
      have := not_le.mp h1
      linarith
    obtain ⟨hlt, ⟨k, hk, hk2⟩, hle⟩ := binadeDown_spec x 1021 (1 / 2) (by norm_num) hx
    refine ⟨-((k : ℤ) + 1), by omega, by omega, ?_, fun _ => hlt, ?_⟩
    · rw [hk2, zpow_neg, ← Nat.cast_succ, zpow_natCast, pow_succ', div_div, one_div]
    · intro hk3
      apply hle
      rw [hk2]
      have hk4 : k < 1021 := by omega
      have : (2 : ℚ) ^ k < 2 ^ 1021 := pow_lt_pow_right₀ (by norm_num) hk4
      apply div_lt_div_of_pos_left (by norm_num) (by positivity) this

theorem binadeOf_pos (x : ℚ) : 0 < binadeOf x := by
  obtain ⟨e, _, _, he, _⟩ := binadeOf_spec x
  rw [he]
  positivity

theorem binadeOf_le (x : ℚ) (hx : (2 : ℚ) ^ (-1022 : ℤ) ≤ x) : binadeOf x ≤ x := by
  obtain ⟨e, h1, _, he, _, h5⟩ := binadeOf_spec x
  rcases eq_or_lt_of_le h1 with h | h
  · rw [he, ← h]
    exact hx
  · exact h5 h

theorem binadeOf_cases (x y : ℚ) (hxy : x ≤ y) :
    binadeOf x = binadeOf y
    ∨ (x < 2 * binadeOf x ∧ 2 * binadeOf x ≤ binadeOf y ∧ binadeOf y ≤ y) := by
  obtain ⟨ex, hx1, hx2, hex, hx4, hx5⟩ := binadeOf_spec x
  obtain ⟨ey, hy1, hy2, hey, hy4, hy5⟩ := binadeOf_spec y
  rcases lt_trichotomy ex ey with h | h | h
  · right
    refine ⟨hx4 (by omega), ?_, hy5 (by omega)⟩
    rw [hex, hey]
    calc (2 : ℚ) * 2 ^ ex = 2 ^ (ex + 1) := by
          rw [zpow_add_one₀ (by norm_num)]
          ring
      _ ≤ 2 ^ ey := zpow_le_zpow_right₀ (by norm_num) (by omega)
  · left
    rw [hex, hey, h]
  · exfalso
    have h1 : y < 2 * binadeOf y := hy4 (by omega)
    have h2 : binadeOf x ≤ x := hx5 (by omega)
    have h3 : 2 * binadeOf y ≤ binadeOf x := by
      rw [hex, hey]
      calc (2 : ℚ) * 2 ^ ey = 2 ^ (ey + 1) := by
            rw [zpow_add_one₀ (by norm_num)]
            ring
        _ ≤ 2 ^ ex := zpow_le_zpow_right₀ (by norm_num) (by omega)
    linarith

theorem roundHalfEven_bounds (x : ℚ) :
    (⌊x⌋ ≤ roundHalfEven x ∧ roundHalfEven x ≤ ⌊x⌋ + 1)
    ∧ ((roundHalfEven x : ℚ) - 1 / 2 ≤ x ∧ x ≤ (roundHalfEven x : ℚ) + 1 / 2) := by
  have h1 : (⌊x⌋ : ℚ) ≤ x := Int.floor_le x
  have h2 : x < (⌊x⌋ : ℚ) + 1 := Int.lt_floor_add_one x
  unfold roundHalfEven
  split
  · rename_i h
    refine ⟨⟨le_refl _, by omega⟩, by linarith, by linarith⟩
  · rename_i h
    split
    · rename_i h3
      refine ⟨⟨by omega, le_refl _⟩, ?_, ?_⟩ <;> push_cast <;> linarith
    · rename_i h3
      have heq : x - ⌊x⌋ = 1 / 2 := le_antisymm (not_lt.mp h3) (not_lt.mp h)
      split
      · refine ⟨⟨le_refl _, by omega⟩, by linarith, by linarith⟩
      · refine ⟨⟨by omega, le_refl _⟩, ?_, ?_⟩ <;> push_cast <;> linarith

theorem roundHalfEven_cases (x : ℚ) :
    (x - ⌊x⌋ < 1 / 2 → roundHalfEven x = ⌊x⌋)
    ∧ (1 / 2 < x - ⌊x⌋ → roundHalfEven x = ⌊x⌋ + 1)
    ∧ (x - ⌊x⌋ = 1 / 2 → roundHalfEven x = if ⌊x⌋ % 2 = 0 then ⌊x⌋ else ⌊x⌋ + 1) := by
  unfold roundHalfEven
  refine ⟨?_, ?_, ?_⟩
  · intro h
    rw [if_pos h]
  · intro h
    have h1 : ¬ (x - ⌊x⌋ < 1 / 2) := not_lt.mpr (le_of_lt h)
    rw [if_neg h1, if_pos h]
  · intro h
    have h1 : ¬ (x - ⌊x⌋ < 1 / 2) := by
      rw [h]
      exact lt_irrefl _
    have h2 : ¬ (1 / 2 < x - ⌊x⌋) := by
      rw [h]
      exact lt_irrefl _
    rw [if_neg h1, if_neg h2]

theorem roundHalfEven_mono (x y : ℚ) (hxy : x ≤ y) : roundHalfEven x ≤ roundHalfEven y := by
  have hfl : ⌊x⌋ ≤ ⌊y⌋ := Int.floor_le_floor hxy
  have hbx := (roundHalfEven_bounds x).1
  have hby := (roundHalfEven_bounds y).1
  rcases eq_or_lt_of_le hfl with heq | hlt
  · obtain ⟨cx1, cx2, cx3⟩ := roundHalfEven_cases x
    obtain ⟨cy1, cy2, cy3⟩ := roundHalfEven_cases y
    have hcast : (⌊x⌋ : ℚ) = (⌊y⌋ : ℚ) := by rw [heq]
    rcases lt_trichotomy (x - ⌊x⌋) (1 / 2) with h | h | h
    · rw [cx1 h]
      omega
    · rcases eq_or_lt_of_le (show (1 : ℚ) / 2 ≤ y - ⌊y⌋ by linarith) with h2 | h2
      · rw [cx3 h, cy3 h2.symm, heq]
      · rw [cy2 h2]
        omega
    · rw [cx2 h, cy2 (by linarith), heq]
  · omega

theorem roundHalfEven_intCast (n : ℤ) : roundHalfEven (n : ℚ) = n := by
  unfold roundHalfEven
  simp

theorem roundMagnitude_nonneg (x : ℚ) (hx : 0 ≤ x) : 0 ≤ roundMagnitude x := by
  unfold roundMagnitude ulp
  have hb := binadeOf_pos x
  have h0 : (0 : ℤ) ≤ roundHalfEven (x / (binadeOf x / 2 ^ 52)) := by
    have := roundHalfEven_mono 0 (x / (binadeOf x / 2 ^ 52)) (by positivity)
    have h00 : roundHalfEven (0 : ℚ) = 0 := by
      have := roundHalfEven_intCast 0
      simpa using this
    rw [h00] at this
    exact this
  have : (0 : ℚ) ≤ (roundHalfEven (x / (binadeOf x / 2 ^ 52)) : ℚ) := by exact_mod_cast h0
  positivity

theorem roundMagnitude_mono (x y : ℚ) (hxy : x ≤ y) :
    roundMagnitude x ≤ roundMagnitude y := by
  have hbx := binadeOf_pos x
  have hby := binadeOf_pos y
  rcases binadeOf_cases x y hxy with heq | ⟨h1, h2, h3⟩
  · unfold roundMagnitude ulp
    rw [heq]
    have hu : 0 < binadeOf y / 2 ^ 52 := by positivity
    have hdiv : x / (binadeOf y / 2 ^ 52) ≤ y / (binadeOf y / 2 ^ 52) :=
      div_le_div_of_nonneg_right hxy (le_of_lt hu)
    have := roundHalfEven_mono _ _ hdiv
    have hc : (roundHalfEven (x / (binadeOf y / 2 ^ 52)) : ℚ)
        ≤ (roundHalfEven (y / (binadeOf y / 2 ^ 52)) : ℚ) := by exact_mod_cast this
    exact mul_le_mul_of_nonneg_right hc (le_of_lt hu)
  · have hux : 0 < binadeOf x / 2 ^ 52 := by positivity
    have huy : 0 < binadeOf y / 2 ^ 52 := by positivity
    have hlow : roundMagnitude x ≤ 2 * binadeOf x := by
      unfold roundMagnitude ulp
      have hq : x / (binadeOf x / 2 ^ 52) ≤ ((2 ^ 53 : ℤ) : ℚ) := by
        rw [div_le_iff₀ hux]
        have : ((2 ^ 53 : ℤ) : ℚ) * (binadeOf x / 2 ^ 52) = 2 * binadeOf x := by
          push_cast
          field_simp
          ring
        rw [this]
        exact le_of_lt h1
      have := roundHalfEven_mono _ _ hq
      rw [roundHalfEven_intCast] at this
      have hc : (roundHalfEven (x / (binadeOf x / 2 ^ 52)) : ℚ) ≤ ((2 ^ 53 : ℤ) : ℚ) := by
        exact_mod_cast this
      calc (roundHalfEven (x / (binadeOf x / 2 ^ 52)) : ℚ) * (binadeOf x / 2 ^ 52)
          ≤ ((2 ^ 53 : ℤ) : ℚ) * (binadeOf x / 2 ^ 52) :=
            mul_le_mul_of_nonneg_right hc (le_of_lt hux)
        _ = 2 * binadeOf x := by
            push_cast
            field_simp
            ring
    have hhigh : binadeOf y ≤ roundMagnitude y := by
      unfold roundMagnitude ulp
      have hq : ((2 ^ 52 : ℤ) : ℚ) ≤ y / (binadeOf y / 2 ^ 52) := by
        rw [le_div_iff₀ huy]
        have : ((2 ^ 52 : ℤ) : ℚ) * (binadeOf y / 2 ^ 52) = binadeOf y := by
          push_cast
          field_simp
          ring
        rw [this]
        exact h3
      have := roundHalfEven_mono _ _ hq
      rw [roundHalfEven_intCast] at this
      have hc : ((2 ^ 52 : ℤ) : ℚ) ≤ (roundHalfEven (y / (binadeOf y / 2 ^ 52)) : ℚ) := by
        exact_mod_cast this
      calc binadeOf y = ((2 ^ 52 : ℤ) : ℚ) * (binadeOf y / 2 ^ 52) := by
            push_cast
            field_simp
            ring
        _ ≤ (roundHalfEven (y / (binadeOf y / 2 ^ 52)) : ℚ) * (binadeOf y / 2 ^ 52) :=
            mul_le_mul_of_nonneg_right hc (le_of_lt huy)
    linarith

theorem roundToDouble_mono (x y : ℚ) (hxy : x ≤ y) : roundToDouble x ≤ roundToDouble y := by
  unfold roundToDouble
  split
  · rename_i hx
    split
    · rename_i hy
      have := roundMagnitude_mono (-y) (-x) (by linarith)
      linarith
    · rename_i hy
      have h1 := roundMagnitude_nonneg (-x) (by linarith)
      have h2 := roundMagnitude_nonneg y (not_lt.mp hy)
      linarith
  · rename_i hx
    have hy : ¬ y < 0 := by
      intro h
      exact hx (lt_of_le_of_lt hxy h)
    simp only [hy, if_false]
    exact roundMagnitude_mono x y hxy

theorem roundMagnitude_error (x : ℚ) (hx : (2 : ℚ) ^ (-1022 : ℤ) ≤ x) :
    |roundMagnitude x - x| ≤ x / 2 ^ 53 := by
  have hb := binadeOf_pos x
  have hle := binadeOf_le x hx
  have hu : 0 < binadeOf x / 2 ^ 52 := by positivity
  have hr := (roundHalfEven_bounds (x / (binadeOf x / 2 ^ 52))).2
  unfold roundMagnitude ulp
  have hx1 : x = x / (binadeOf x / 2 ^ 52) * (binadeOf x / 2 ^ 52) := by
    field_simp
  have habs : |(roundHalfEven (x / (binadeOf x / 2 ^ 52)) : ℚ) - x / (binadeOf x / 2 ^ 52)|
      ≤ 1 / 2 := by
    rw [abs_le]
    constructor <;> linarith
  calc |(roundHalfEven (x / (binadeOf x / 2 ^ 52)) : ℚ) * (binadeOf x / 2 ^ 52) - x|
      = |((roundHalfEven (x / (binadeOf x / 2 ^ 52)) : ℚ) - x / (binadeOf x / 2 ^ 52))
          * (binadeOf x / 2 ^ 52)| := by
        rw [sub_mul, ← hx1]
    _ = |(roundHalfEven (x / (binadeOf x / 2 ^ 52)) : ℚ) - x / (binadeOf x / 2 ^ 52)|
          * (binadeOf x / 2 ^ 52) := by
        rw [abs_mul, abs_of_pos hu]
    _ ≤ 1 / 2 * (binadeOf x / 2 ^ 52) := mul_le_mul_of_nonneg_right habs (le_of_lt hu)
    _ = binadeOf x / 2 ^ 53 := by ring
    _ ≤ x / 2 ^ 53 := div_le_div_of_nonneg_right hle (by positivity)


theorem roundToDouble_nonneg (x : ℚ) (hx : 0 ≤ x) : roundToDouble x = roundMagnitude x := by
  unfold roundToDouble
  rw [if_neg (not_lt.mpr hx)]

theorem binary64_mono (x y : ℚ) (hxy : x ≤ y) :
    JsNum.ge (binary64 y) (binary64 x) = true := by
  have h := roundToDouble_mono x y hxy
  unfold binary64
  have hpos : (0 : ℚ) < 2 ^ 1024 := by positivity
  split_ifs <;> simp [JsNum.ge, JsNum.gt] <;> linarith

theorem roundMagnitude_zero : roundMagnitude 0 = 0 := by
  unfold roundMagnitude
  simp [roundHalfEven]

theorem binary64_zero : binary64 0 = JsNum.num 0 := by
  unfold binary64
  rw [roundToDouble_nonneg 0 le_rfl, roundMagnitude_zero]
  have hpos : (0 : ℚ) < 2 ^ 1024 := by positivity
  rw [if_neg (by linarith), if_neg (by linarith)]

theorem binary64_normal (x : ℚ) (h0 : 0 ≤ x) (hlo : x = 0 ∨ 1 / 2 ^ 1022 ≤ x)
    (hhi : x ≤ 2 ^ 1023) :
    ∃ r : ℚ, binary64 x = JsNum.num r
      ∧ x * (1 - 1 / 2 ^ 53) ≤ r ∧ r ≤ x * (1 + 1 / 2 ^ 53) := by
  rcases hlo with h | h
  · rw [h, binary64_zero]
    exact ⟨0, rfl, by simp, by simp⟩
  · have hz : (2 : ℚ) ^ (-1022 : ℤ) ≤ x := by
      have : (2 : ℚ) ^ (-1022 : ℤ) = 1 / 2 ^ 1022 := by
        rw [zpow_neg, zpow_ofNat, one_div]
      rw [this]
      exact h
    have herr := roundMagnitude_error x hz
    rw [abs_le] at herr
    have hr0 := roundMagnitude_nonneg x h0
    refine ⟨roundMagnitude x, ?_, by linarith, by linarith⟩
    unfold binary64
    rw [roundToDouble_nonneg x h0]
    have hxpos : 0 < x := lt_of_lt_of_le (by positivity) h
    have hlt : roundMagnitude x < 2 ^ 1024 := by
      have h1 : x / 2 ^ 53 < x := div_lt_self hxpos (by norm_num)
      have h2 : (2 : ℚ) ^ 1024 = 2 * 2 ^ 1023 := by rw [← pow_succ']
      linarith
    have hpos : (0 : ℚ) < 2 ^ 1024 := by positivity
    rw [if_neg (by linarith), if_neg (by linarith)]


theorem quotient_bounds (V W T S D A m M u : ℚ) (hu0 : 0 ≤ u) (hu1 : u < 1) (hW : 0 < W)
    (hV : 0 ≤ V) (hm : m * W ≤ V) (hM : V ≤ M * W)
    (hT : V * (1 - u) ≤ T ∧ T ≤ V * (1 + u))
    (hS : T * (1 - u) ≤ S ∧ S ≤ T * (1 + u))
    (hD : W * (1 - u) ≤ D ∧ D ≤ W * (1 + u))
    (hA : S / D * (1 - u) ≤ A ∧ A ≤ S / D * (1 + u)) :
    m * (1 - u) ^ 3 ≤ A * (1 + u) ∧ A * (1 - u) ≤ M * (1 + u) ^ 3
    ∧ V * (1 - u) ^ 3 ≤ D * A ∧ D * A ≤ V * (1 + u) ^ 3 := by
  have h1u : 0 < 1 - u := by linarith
  have h1p : 0 < 1 + u := by linarith
  have hT0 : 0 ≤ T := le_trans (mul_nonneg hV (le_of_lt h1u)) hT.1
  have hS0 : 0 ≤ S := le_trans (mul_nonneg hT0 (le_of_lt h1u)) hS.1
  have hD0 : 0 < D := lt_of_lt_of_le (mul_pos hW h1u) hD.1
  have hQ0 : 0 ≤ S / D := div_nonneg hS0 (le_of_lt hD0)
  have hA0 : 0 ≤ A := le_trans (mul_nonneg hQ0 (le_of_lt h1u)) hA.1
  have hDQ : D * (S / D) = S := by
    field_simp
  have hup : D * A ≤ V * (1 + u) ^ 3 := by
    calc D * A ≤ D * (S / D * (1 + u)) := mul_le_mul_of_nonneg_left hA.2 (le_of_lt hD0)
      _ = S * (1 + u) := by rw [← mul_assoc, hDQ]
      _ ≤ T * (1 + u) * (1 + u) := mul_le_mul_of_nonneg_right hS.2 (le_of_lt h1p)
      _ ≤ V * (1 + u) * (1 + u) * (1 + u) :=
          mul_le_mul_of_nonneg_right (mul_le_mul_of_nonneg_right hT.2 (le_of_lt h1p))
            (le_of_lt h1p)
      _ = V * (1 + u) ^ 3 := by ring
  have hlow : V * (1 - u) ^ 3 ≤ D * A := by
    calc V * (1 - u) ^ 3 = V * (1 - u) * (1 - u) * (1 - u) := by ring
      _ ≤ T * (1 - u) * (1 - u) :=
          mul_le_mul_of_nonneg_right (mul_le_mul_of_nonneg_right hT.1 (le_of_lt h1u))
            (le_of_lt h1u)
      _ ≤ S * (1 - u) := mul_le_mul_of_nonneg_right hS.1 (le_of_lt h1u)
      _ = D * (S / D * (1 - u)) := by rw [← mul_assoc, hDQ]
      _ ≤ D * A := mul_le_mul_of_nonneg_left hA.1 (le_of_lt hD0)
  refine ⟨?_, ?_, hlow, hup⟩
  · have h1 : W * (m * (1 - u) ^ 3) ≤ W * (A * (1 + u)) := by
      calc W * (m * (1 - u) ^ 3) = m * W * (1 - u) ^ 3 := by ring
        _ ≤ V * (1 - u) ^ 3 := mul_le_mul_of_nonneg_right hm (by positivity)
        _ ≤ D * A := hlow
        _ ≤ W * (1 + u) * A := mul_le_mul_of_nonneg_right hD.2 hA0
        _ = W * (A * (1 + u)) := by ring
    exact le_of_mul_le_mul_left h1 hW
  · have h1 : W * (A * (1 - u)) ≤ W * (M * (1 + u) ^ 3) := by
      calc W * (A * (1 - u)) = W * (1 - u) * A := by ring
        _ ≤ D * A := mul_le_mul_of_nonneg_right hD.1 hA0
        _ ≤ V * (1 + u) ^ 3 := hup
        _ ≤ M * W * (1 + u) ^ 3 := mul_le_mul_of_nonneg_right hM (by positivity)
        _ = W * (M * (1 + u) ^ 3) := by ring
    exact le_of_mul_le_mul_left h1 hW

theorem product_rounding (c z : ℚ) (hc : 0 ≤ c) (hz : 0 ≤ z)
    (hrc : c = 0 ∨ (1 / 2 ^ 255 ≤ c ∧ c ≤ 2 ^ 255))
    (hrz : z = 0 ∨ (1 / 2 ^ 255 ≤ z ∧ z ≤ 2 ^ 255)) :
    ∃ P : ℚ, binary64 (c * z) = JsNum.num P
      ∧ c * z * (1 - 1 / 2 ^ 53) ≤ P ∧ P ≤ c * z * (1 + 1 / 2 ^ 53)
      ∧ (P = 0 ∨ 1 / 2 ^ 511 ≤ P) ∧ P ≤ 2 ^ 511 := by
  have hrange : (c * z = 0 ∨ 1 / 2 ^ 510 ≤ c * z) ∧ c * z ≤ 2 ^ 510 := by
    rcases hrc with h | ⟨h1, h2⟩
    · rw [h, zero_mul]
      exact ⟨Or.inl rfl, by positivity⟩
    · rcases hrz with h | ⟨h3, h4⟩
      · rw [h, mul_zero]
        exact ⟨Or.inl rfl, by positivity⟩
      · constructor
        · right
          calc (1 : ℚ) / 2 ^ 510 = 1 / 2 ^ 255 * (1 / 2 ^ 255) := by norm_num
            _ ≤ c * z := mul_le_mul h1 h3 (by positivity) hc
        · calc c * z ≤ 2 ^ 255 * 2 ^ 255 := mul_le_mul h2 h4 hz (by positivity)
            _ = 2 ^ 510 := by norm_num
  have hlo : c * z = 0 ∨ 1 / 2 ^ 1022 ≤ c * z := by
    rcases hrange.1 with h | h
    · exact Or.inl h
    · right
      have : (1 : ℚ) / 2 ^ 1022 ≤ 1 / 2 ^ 510 := by norm_num
      linarith
  have hhi : c * z ≤ 2 ^ 1023 := by
    have : (2 : ℚ) ^ 510 ≤ 2 ^ 1023 := by norm_num
    linarith [hrange.2]
  obtain ⟨P, hP, hP1, hP2⟩ := binary64_normal (c * z) (mul_nonneg hc hz) hlo hhi
  refine ⟨P, hP, hP1, hP2, ?_, ?_⟩
  · rcases hrange.1 with h | h
    · left
      rw [h] at hP1 hP2
      linarith
    · right
      have h1 : 1 / 2 ^ 510 * (1 - 1 / 2 ^ 53) ≤ c * z * (1 - 1 / 2 ^ 53) :=
        mul_le_mul_of_nonneg_right h (by norm_num)
      have h2 : (1 : ℚ) / 2 ^ 511 ≤ 1 / 2 ^ 510 * (1 - 1 / 2 ^ 53) := by norm_num
      linarith
  · have h1 : c * z * (1 + 1 / 2 ^ 53) ≤ 2 ^ 510 * (1 + 1 / 2 ^ 53) :=
      mul_le_mul_of_nonneg_right hrange.2 (by norm_num)
    have h2 : (2 : ℚ) ^ 510 * (1 + 1 / 2 ^ 53) ≤ 2 ^ 511 := by norm_num
    linarith


theorem merge_rounding (a b x y : ℚ) (ha : 0 ≤ a) (hb : 0 ≤ b) (hpos : 0 < a + b)
    (hx : 0 ≤ x) (hy : 0 ≤ y)
    (hra : a = 0 ∨ (1 / 2 ^ 255 ≤ a ∧ a ≤ 2 ^ 255))
    (hrb : b = 0 ∨ (1 / 2 ^ 255 ≤ b ∧ b ≤ 2 ^ 255))
    (hrx : x = 0 ∨ (1 / 2 ^ 255 ≤ x ∧ x ≤ 2 ^ 255))
    (hry : y = 0 ∨ (1 / 2 ^ 255 ≤ y ∧ y ≤ 2 ^ 255)) :
    ∃ N A : ℚ, JsNum.add (JsNum.num a) (JsNum.num b) = JsNum.num N
      ∧ JsNum.div
          (JsNum.add (JsNum.mul (JsNum.num a) (JsNum.num x))
            (JsNum.mul (JsNum.num b) (JsNum.num y)))
          (JsNum.add (JsNum.num a) (JsNum.num b)) = JsNum.num A
      ∧ (1 - 1 / 2 ^ 50) * min x y ≤ A ∧ A ≤ (1 + 1 / 2 ^ 50) * max x y
      ∧ |N * A - (a * x + b * y)| ≤ (a * x + b * y) / 2 ^ 50 := by
  obtain ⟨P1, hP1, hP1a, hP1b, hP1c, hP1d⟩ := product_rounding a x ha hx hra hrx
  obtain ⟨P2, hP2, hP2a, hP2b, hP2c, hP2d⟩ := product_rounding b y hb hy hrb hry
  have hu : (0 : ℚ) ≤ 1 - 1 / 2 ^ 53 := by norm_num
  have hP10 : 0 ≤ P1 := le_trans (mul_nonneg (mul_nonneg ha hx) hu) hP1a
  have hP20 : 0 ≤ P2 := le_trans (mul_nonneg (mul_nonneg hb hy) hu) hP2a
  -- the sum of the products
  have hTlo : P1 + P2 = 0 ∨ 1 / 2 ^ 511 ≤ P1 + P2 := by
    rcases hP1c with h1 | h1
    · rcases hP2c with h2 | h2
      · left
        rw [h1, h2, add_zero]
      · right
        linarith
    · right
      linarith
  have hThi : P1 + P2 ≤ 2 ^ 512 := by
    have : (2 : ℚ) ^ 512 = 2 ^ 511 + 2 ^ 511 := by norm_num
    linarith
  obtain ⟨S, hS, hSa, hSb⟩ := binary64_normal (P1 + P2) (add_nonneg hP10 hP20)
    (by
      rcases hTlo with h | h
      · exact Or.inl h
      · right
        have : (1 : ℚ) / 2 ^ 1022 ≤ 1 / 2 ^ 511 := by norm_num
        linarith)
    (by
      have : (2 : ℚ) ^ 512 ≤ 2 ^ 1023 := by norm_num
      linarith)
  have hS0 : S = 0 ∨ 1 / 2 ^ 512 ≤ S := by
    rcases hTlo with h | h
    · left
      rw [h] at hSa hSb
      linarith
    · right
      have h1 : 1 / 2 ^ 511 * (1 - 1 / 2 ^ 53) ≤ (P1 + P2) * (1 - 1 / 2 ^ 53) :=
        mul_le_mul_of_nonneg_right h hu
      have h2 : (1 : ℚ) / 2 ^ 512 ≤ 1 / 2 ^ 511 * (1 - 1 / 2 ^ 53) := by norm_num
      linarith
  have hShi : S ≤ 2 ^ 513 := by
    have h1 : (P1 + P2) * (1 + 1 / 2 ^ 53) ≤ 2 ^ 512 * (1 + 1 / 2 ^ 53) :=
      mul_le_mul_of_nonneg_right hThi (by norm_num)
    have h2 : (2 : ℚ) ^ 512 * (1 + 1 / 2 ^ 53) ≤ 2 ^ 513 := by norm_num
    linarith
  have hSnn : 0 ≤ S := le_trans (mul_nonneg (add_nonneg hP10 hP20) hu) hSa
  -- the sum of the amounts
  have hWlo : 1 / 2 ^ 255 ≤ a + b := by
    rcases hra with h | ⟨h1, _⟩
    · rcases hrb with h2 | ⟨h3, _⟩
      · rw [h, h2] at hpos
        exact absurd hpos (by norm_num)
      · linarith
    · linarith
  have hWhi : a + b ≤ 2 ^ 256 := by
    have h1 : a ≤ 2 ^ 255 := by
      rcases hra with h | ⟨_, h2⟩
      · rw [h]
        positivity
      · exact h2
    have h2 : b ≤ 2 ^ 255 := by
      rcases hrb with h | ⟨_, h2⟩
      · rw [h]
        positivity
      · exact h2
    have : (2 : ℚ) ^ 256 = 2 ^ 255 + 2 ^ 255 := by norm_num
    linarith
  obtain ⟨D, hD, hDa, hDb⟩ := binary64_normal (a + b) (le_of_lt hpos)
    (by
      right
      have : (1 : ℚ) / 2 ^ 1022 ≤ 1 / 2 ^ 255 := by norm_num
      linarith)
    (by
      have : (2 : ℚ) ^ 256 ≤ 2 ^ 1023 := by norm_num
      linarith)
  have hDlo : 1 / 2 ^ 256 ≤ D := by
    have h1 : 1 / 2 ^ 255 * (1 - 1 / 2 ^ 53) ≤ (a + b) * (1 - 1 / 2 ^ 53) :=
      mul_le_mul_of_nonneg_right hWlo hu
    have h2 : (1 : ℚ) / 2 ^ 256 ≤ 1 / 2 ^ 255 * (1 - 1 / 2 ^ 53) := by norm_num
    linarith
  have hDhi : D ≤ 2 ^ 257 := by
    have h1 : (a + b) * (1 + 1 / 2 ^ 53) ≤ 2 ^ 256 * (1 + 1 / 2 ^ 53) :=
      mul_le_mul_of_nonneg_right hWhi (by norm_num)
    have h2 : (2 : ℚ) ^ 256 * (1 + 1 / 2 ^ 53) ≤ 2 ^ 257 := by norm_num
    linarith
  have hDpos : 0 < D := lt_of_lt_of_le (by positivity) hDlo
  -- the quotient
  have hQ0 : 0 ≤ S / D := div_nonneg hSnn (le_of_lt hDpos)
  have hQlo : S / D = 0 ∨ 1 / 2 ^ 1022 ≤ S / D := by
    rcases hS0 with h | h
    · left
      rw [h, zero_div]
    · right
      rw [le_div_iff₀ hDpos]
      calc 1 / 2 ^ 1022 * D ≤ 1 / 2 ^ 1022 * 2 ^ 257 :=
            mul_le_mul_of_nonneg_left hDhi (by positivity)
        _ ≤ 1 / 2 ^ 512 := by norm_num
        _ ≤ S := h
  have hQhi : S / D ≤ 2 ^ 1023 := by
    rw [div_le_iff₀ hDpos]
    calc S ≤ 2 ^ 513 := hShi
      _ ≤ 2 ^ 1023 * (1 / 2 ^ 256) := by norm_num
      _ ≤ 2 ^ 1023 * D := mul_le_mul_of_nonneg_left hDlo (by positivity)
  obtain ⟨A, hA, hAa, hAb⟩ := binary64_normal (S / D) hQ0 hQlo hQhi
  have hadd : JsNum.add (JsNum.num a) (JsNum.num b) = JsNum.num D := hD
  have hmul1 : JsNum.mul (JsNum.num a) (JsNum.num x) = JsNum.num P1 := hP1
  have hmul2 : JsNum.mul (JsNum.num b) (JsNum.num y) = JsNum.num P2 := hP2
  have hsum : JsNum.add (JsNum.num P1) (JsNum.num P2) = JsNum.num S := hS
  have hdiv : JsNum.div (JsNum.num S) (JsNum.num D) = JsNum.num A := by
    simp [JsNum.div, ne_of_gt hDpos, hA]
  have hmin : min x y * (a + b) ≤ a * x + b * y := by
    have h1 : min x y ≤ x := min_le_left x y
    have h2 : min x y ≤ y := min_le_right x y
    nlinarith [mul_le_mul_of_nonneg_left h1 ha, mul_le_mul_of_nonneg_left h2 hb]
  have hmax : a * x + b * y ≤ max x y * (a + b) := by
    have h1 : x ≤ max x y := le_max_left x y
    have h2 : y ≤ max x y := le_max_right x y
    nlinarith [mul_le_mul_of_nonneg_left h1 ha, mul_le_mul_of_nonneg_left h2 hb]
  have hV : 0 ≤ a * x + b * y := add_nonneg (mul_nonneg ha hx) (mul_nonneg hb hy)
  have hT : (a * x + b * y) * (1 - 1 / 2 ^ 53) ≤ P1 + P2
      ∧ P1 + P2 ≤ (a * x + b * y) * (1 + 1 / 2 ^ 53) := by
    constructor <;> linarith
  obtain ⟨k1, k2, k3, k4⟩ := quotient_bounds (a * x + b * y) (a + b) (P1 + P2) S D A
    (min x y) (max x y) (1 / 2 ^ 53) (by norm_num) (by norm_num) hpos hV hmin hmax hT
    ⟨hSa, hSb⟩ ⟨hDa, hDb⟩ ⟨hAa, hAb⟩
  have hm0 : 0 ≤ min x y := le_min hx hy
  have hM0 : 0 ≤ max x y := le_trans hx (le_max_left x y)
  have hA0 : 0 ≤ A := le_trans (mul_nonneg hQ0 hu) hAa
  refine ⟨D, A, hadd, ?_, ?_, ?_, ?_⟩
  · rw [hmul1, hmul2, hsum, hadd, hdiv]
  · have e1 : (1 - 1 / 2 ^ 50) * (1 + 1 / 2 ^ 53) ≤ ((1 : ℚ) - 1 / 2 ^ 53) ^ 3 := by norm_num
    have h1 : (1 - 1 / 2 ^ 50) * min x y * (1 + 1 / 2 ^ 53) ≤ A * (1 + 1 / 2 ^ 53) := by
      calc (1 - 1 / 2 ^ 50) * min x y * (1 + 1 / 2 ^ 53)
          = min x y * ((1 - 1 / 2 ^ 50) * (1 + 1 / 2 ^ 53)) := by ring
        _ ≤ min x y * (1 - 1 / 2 ^ 53) ^ 3 := mul_le_mul_of_nonneg_left e1 hm0
        _ ≤ A * (1 + 1 / 2 ^ 53) := k1
    exact le_of_mul_le_mul_right h1 (by norm_num)
  · have e1 : ((1 : ℚ) + 1 / 2 ^ 53) ^ 3 ≤ (1 + 1 / 2 ^ 50) * (1 - 1 / 2 ^ 53) := by norm_num
    have h1 : A * (1 - 1 / 2 ^ 53) ≤ (1 + 1 / 2 ^ 50) * max x y * (1 - 1 / 2 ^ 53) := by
      calc A * (1 - 1 / 2 ^ 53) ≤ max x y * (1 + 1 / 2 ^ 53) ^ 3 := k2
        _ ≤ max x y * ((1 + 1 / 2 ^ 50) * (1 - 1 / 2 ^ 53)) :=
            mul_le_mul_of_nonneg_left e1 hM0
        _ = (1 + 1 / 2 ^ 50) * max x y * (1 - 1 / 2 ^ 53) := by ring
    exact le_of_mul_le_mul_right h1 (by norm_num)
  · have e1 : (1 : ℚ) - 1 / 2 ^ 50 ≤ (1 - 1 / 2 ^ 53) ^ 3 := by norm_num
    have e2 : ((1 : ℚ) + 1 / 2 ^ 53) ^ 3 ≤ 1 + 1 / 2 ^ 50 := by norm_num
    have h1 := mul_le_mul_of_nonneg_left e1 hV
    have h2 := mul_le_mul_of_nonneg_left e2 hV
    rw [abs_le]
    constructor
    · have : (a * x + b * y) * (1 - 1 / 2 ^ 50)
          = (a * x + b * y) - (a * x + b * y) / 2 ^ 50 := by ring
      linarith
    · have : (a * x + b * y) * (1 + 1 / 2 ^ 50)
          = (a * x + b * y) + (a * x + b * y) / 2 ^ 50 := by ring
      linarith

theorem reportPerformance_mono (x y : ℚ) (hxy : x ≤ y) :
    JsNum.ge (reportPerformance (JsNum.num y)) (reportPerformance (JsNum.num x)) = true := by
  have h := roundToDouble_mono (x * 100) (y * 100) (by linarith)
  have ht := toFixed2_mono _ _ h
  have hpos : (0 : ℚ) < 2 ^ 1024 := by positivity
  have hx : JsNum.mul (JsNum.num x) (JsNum.num 100) = binary64 (x * 100) := rfl
  have hy : JsNum.mul (JsNum.num y) (JsNum.num 100) = binary64 (y * 100) := rfl
  unfold reportPerformance
  rw [hx, hy]
  unfold binary64
  split_ifs <;> simp [JsNum.ge, JsNum.gt] <;> linarith

/-- C15, as stated, fails: after `POST /holdings` of 5 `FREE` coins bought at
price 0 into the empty collection (accepted with status 200), `GET /summary`
counts one holding and reports `topPerformer` and `worstPerformer` as null: the
performance `(0 - 0) / 0` is `NaN`, which compares false with both infinities. -/
theorem getSummary_null_with_holdings :
    (postHoldings emptyDb none freeBody 0).1.status = 200
    ∧ (getSummary freeDb none).totalHoldings = 1
    ∧ (getSummary freeDb none).topPerformer = none
    ∧ (getSummary freeDb none).worstPerformer = none
    ∧ ¬ ((getSummary freeDb none).topPerformer = none
          ↔ (getSummary freeDb none).totalHoldings = 0) := by
  have h1 : (getSummary freeDb none).totalHoldings = 1 := by decide!
  have h2 : (getSummary freeDb none).topPerformer = none := by decide!
  refine ⟨by decide!, h1, h2, by decide!, ?_⟩
  intro hiff
  have := hiff.mp h2
  rw [h1] at this
  exact absurd this (by decide)

/-- C15, amended: `topPerformer` and `worstPerformer` are null when the user has
no portfolio or no holdings.  When the stored portfolio has holdings and the
performance of each, computed in binary64 as `(price - averagePurchasePrice) /
averagePurchasePrice` (`price` the `currentPrice` if non-zero, else the
`purchasePrice`), is a finite number `perf h`, both are reported:
`topPerformer` names the first holding `t` whose performance is maximal,
`worstPerformer` the first holding `w` whose performance is minimal, each with
its performance times 100 printed to two decimals, and the reported top
performance is at least the reported worst. -/
theorem getSummary_performers (db : Db) (user : Option String) (p : Portfolio)
    (perf : Holding → ℚ)
    (hf : findOne db (requestUserId user) = some p)
    (hfin : ∀ h ∈ p.holdings, performanceOf h = JsNum.num (perf h)) :
    (p.holdings = [] →
      (getSummary db user).topPerformer = none ∧ (getSummary db user).worstPerformer = none)
    ∧ (p.holdings ≠ [] →
      ∃ pre t post pre1 w post1,
        p.holdings = pre ++ t :: post
        ∧ (∀ h ∈ pre, perf h < perf t) ∧ (∀ h ∈ post, perf h ≤ perf t)
        ∧ (getSummary db user).topPerformer
            = some { symbol := t.symbol
                     performance := reportPerformance (JsNum.num (perf t)) }
        ∧ p.holdings = pre1 ++ w :: post1
        ∧ (∀ h ∈ pre1, perf w < perf h) ∧ (∀ h ∈ post1, perf w ≤ perf h)
        ∧ (getSummary db user).worstPerformer
            = some { symbol := w.symbol
                     performance := reportPerformance (JsNum.num (perf w)) }
        ∧ JsNum.ge (reportPerformance (JsNum.num (perf t)))
            (reportPerformance (JsNum.num (perf w))) = true)
    ∧ (∀ db0 : Db, findOne db0 (requestUserId user) = none →
      (getSummary db0 user).topPerformer = none ∧ (getSummary db0 user).worstPerformer = none) := by
  refine ⟨?_, ?_, ?_⟩
  · intro hnil
    rw [getSummary_some db user p hf]
    simp [hnil]
  · intro hne
    obtain ⟨pre, t, post, hsplit, hpre, hpost, htop, hbest⟩ :=
      foldl_summaryStep_top perf p.holdings hfin hne
    obtain ⟨pre1, w, post1, hsplit1, hpre1, hpost1, hworst, hperf⟩ :=
      foldl_summaryStep_worst perf p.holdings hfin hne
    have hlen : ¬ p.holdings.length = 0 := fun h0 => hne (List.length_eq_zero.mp h0)
    have hwt : perf w ≤ perf t := by
      have hw : w ∈ p.holdings := by rw [hsplit1]; simp
      rw [hsplit] at hw
      rcases List.mem_append.mp hw with h1 | h1
      · exact le_of_lt (hpre w h1)
      · rcases List.mem_cons.mp h1 with h2 | h2
        · rw [h2]
        · exact hpost w h2
    refine ⟨pre, t, post, pre1, w, post1, hsplit, hpre, hpost, ?_, hsplit1, hpre1, hpost1, ?_, ?_⟩
    · rw [getSummary_some db user p hf]
      simp only [hlen, if_false, htop, hbest, Option.map_some']
    · rw [getSummary_some db user p hf]
      simp only [hlen, if_false, hworst, hperf, Option.map_some']
    · exact reportPerformance_mono _ _ hwt
  · intro db0 h0
    rw [getSummary_none db0 user h0]
    exact ⟨rfl, rfl⟩

/-- Witness of the amended C15: the summary test, `BTC` up 12.5% and `ETH` up
25%; both performances, 1/8 and 1/4, are binary64 numbers. -/
theorem getSummary_performers_witness :
    findOne summaryDb (requestUserId none) = some summaryPortfolio
    ∧ (∀ h ∈ summaryPortfolio.holdings,
        performanceOf h = JsNum.num ((h.currentPrice - h.averagePurchasePrice)
          / h.averagePurchasePrice))
    ∧ summaryPortfolio.holdings ≠ []
    ∧ getSummary summaryDb none
        = { totalValue := 70000, totalHoldings := 2,
            topPerformer := some { symbol := "ETH", performance := JsNum.num 25 },
            worstPerformer := some { symbol := "BTC", performance := JsNum.num (25 / 2) } }
    ∧ (∃ pre t post pre1 w post1,
        summaryPortfolio.holdings = pre ++ t :: post
        ∧ (∀ h ∈ pre, (h.currentPrice - h.averagePurchasePrice) / h.averagePurchasePrice
              < (t.currentPrice - t.averagePurchasePrice) / t.averagePurchasePrice)
        ∧ (∀ h ∈ post, (h.currentPrice - h.averagePurchasePrice) / h.averagePurchasePrice
              ≤ (t.currentPrice - t.averagePurchasePrice) / t.averagePurchasePrice)
        ∧ (getSummary summaryDb none).topPerformer
            = some { symbol := t.symbol
                     performance := reportPerformance (JsNum.num
                       ((t.currentPrice - t.averagePurchasePrice) / t.averagePurchasePrice)) }
        ∧ summaryPortfolio.holdings = pre1 ++ w :: post1
        ∧ (∀ h ∈ pre1, (w.currentPrice - w.averagePurchasePrice) / w.averagePurchasePrice
              < (h.currentPrice - h.averagePurchasePrice) / h.averagePurchasePrice)
        ∧ (∀ h ∈ post1, (w.currentPrice - w.averagePurchasePrice) / w.averagePurchasePrice
              ≤ (h.currentPrice - h.averagePurchasePrice) / h.averagePurchasePrice)
        ∧ (getSummary summaryDb none).worstPerformer
            = some { symbol := w.symbol
                     performance := reportPerformance (JsNum.num
                       ((w.currentPrice - w.averagePurchasePrice) / w.averagePurchasePrice)) }
        ∧ JsNum.ge
            (reportPerformance (JsNum.num
              ((t.currentPrice - t.averagePurchasePrice) / t.averagePurchasePrice)))
            (reportPerformance (JsNum.num
              ((w.currentPrice - w.averagePurchasePrice) / w.averagePurchasePrice))) = true) :=
  ⟨by decide!, by decide!, by decide!, by decide!,
   (getSummary_performers summaryDb none summaryPortfolio
      (fun h => (h.currentPrice - h.averagePurchasePrice) / h.averagePurchasePrice)
      (by decide!) (by decide!)).2.1 (by decide!)⟩

theorem store_fresh (p : Portfolio) :
    ∀ l : List Portfolio, (∀ q ∈ l, q.id ≠ p.id) → store p l = l ++ [p]
  | [], _ => rfl
  | q :: rest, h => by
    have hq : q.id ≠ p.id := h q (List.mem_cons_self _ _)
    simp only [store, hq, if_false, List.cons_append]
    rw [store_fresh p rest (fun r hr => h r (List.mem_cons_of_mem _ hr))]

/-- C16, as stated, fails for the empty user id: no portfolio exists for it,
yet `findOrCreatePortfolio` stores and returns nothing, because `save` rejects a
document whose required `userId` is empty. -/
theorem findOrCreatePortfolio_empty_userId :
    findOne emptyDb "" = none ∧ findOrCreatePortfolio emptyDb "" 0 = none := by
  refine ⟨by decide!, by decide!⟩

/-- C16, amended: for a non-empty `userId` and a collection with fresh ids and
at most one portfolio per user, `findOrCreatePortfolio` stores and returns a new
portfolio with that `userId` and no holdings when none exists, and returns the
existing one with the collection unchanged otherwise; a second call on the
resulting collection returns the same portfolio and changes nothing, and the
collection then holds exactly one portfolio of that `userId`. -/
theorem findOrCreatePortfolio_idempotent (db : Db) (userId : String) (now : Nat)
    (hid : userId ≠ "")
    (hfresh : ∀ q ∈ db.portfolios, q.id < db.nextId)
    (hunique : (db.portfolios.map fun q => q.userId).Nodup) :
    (findOne db userId = none →
      ∃ p, findOrCreatePortfolio db userId now
            = some (p, { portfolios := db.portfolios ++ [p], nextId := db.nextId + 1 })
        ∧ p.userId = userId ∧ p.holdings = [])
    ∧ (∀ q, findOne db userId = some q → findOrCreatePortfolio db userId now = some (q, db))
    ∧ ∃ p db1, findOrCreatePortfolio db userId now = some (p, db1)
        ∧ (∀ later, findOrCreatePortfolio db1 userId later = some (p, db1))
        ∧ (db1.portfolios.map fun q => q.userId).count userId = 1 := by
  have hcreate : findOne db userId = none →
      findOrCreatePortfolio db userId now
        = some (updateMetrics (newPortfolio db.nextId userId [] now) now,
            { portfolios := db.portfolios ++ [updateMetrics (newPortfolio db.nextId userId [] now) now]
              nextId := db.nextId + 1 }) := by
    intro hnone
    have hv : validPortfolio (newPortfolio db.nextId userId [] now) = true := by
      simp [validPortfolio, newPortfolio, mkHoldings, hid]
    have hst : store (updateMetrics (newPortfolio db.nextId userId [] now) now) db.portfolios
        = db.portfolios ++ [updateMetrics (newPortfolio db.nextId userId [] now) now] := by
      apply store_fresh
      intro q hq
      exact ne_of_lt (hfresh q hq)
    unfold findOrCreatePortfolio
    simp only [hnone, save, hv, if_true, hst]
  have hexisting : ∀ q, findOne db userId = some q →
      findOrCreatePortfolio db userId now = some (q, db) := by
    intro q hq
    unfold findOrCreatePortfolio
    simp only [hq]
  refine ⟨?_, hexisting, ?_⟩
  · intro hnone
    exact ⟨_, hcreate hnone, rfl, rfl⟩
  · cases hfind : findOne db userId with
    | some q =>
      refine ⟨q, db, hexisting q hfind, ?_, ?_⟩
      · intro later
        unfold findOrCreatePortfolio
        simp only [hfind]
      · have hmem := List.mem_of_find?_eq_some hfind
        have huser : q.userId = userId := by
          have := List.find?_some hfind
          simpa using this
        apply List.count_eq_one_of_mem hunique
        rw [← huser]
        exact List.mem_map_of_mem (fun q => q.userId) hmem
    | none =>
      refine ⟨_, _, hcreate hfind, ?_, ?_⟩
      · intro later
        unfold findOrCreatePortfolio
        have hnone : db.portfolios.find? (fun q => decide (q.userId = userId)) = none := hfind
        have : findOne
            { portfolios :=
                db.portfolios ++ [updateMetrics (newPortfolio db.nextId userId [] now) now]
              nextId := db.nextId + 1 } userId
            = some (updateMetrics (newPortfolio db.nextId userId [] now) now) := by
          unfold findOne
          simp only [List.find?_append, hnone, Option.none_or]
          simp [updateMetrics, newPortfolio]
        simp only [this]
      · have hnot : userId ∉ db.portfolios.map fun q => q.userId := by
          intro hmem
          obtain ⟨q, hq, hqu⟩ := List.mem_map.mp hmem
          have hnone : db.portfolios.find? (fun q => decide (q.userId = userId)) = none := hfind
          rw [List.find?_eq_none] at hnone
          exact hnone q hq (by simpa using hqu)
        simp only [List.map_append, List.count_append, List.count_eq_zero_of_not_mem hnot]
        simp [updateMetrics, newPortfolio]

/-- Witness of the amended C16: the model test, two calls for `new-user` on an
empty collection. -/
theorem findOrCreatePortfolio_idempotent_witness :
    ("new-user" ≠ "")
    ∧ (∀ q ∈ emptyDb.portfolios, q.id < emptyDb.nextId)
    ∧ (emptyDb.portfolios.map fun q => q.userId).Nodup
    ∧ ∃ p db1, findOrCreatePortfolio emptyDb "new-user" 3 = some (p, db1)
        ∧ (∀ later, findOrCreatePortfolio db1 "new-user" later = some (p, db1))
        ∧ (db1.portfolios.map fun q => q.userId).count "new-user" = 1 :=
  ⟨by decide, by decide!, by decide!,
   (findOrCreatePortfolio_idempotent emptyDb "new-user" 3 (by decide) (by decide!)
      (by decide!)).2.2⟩

theorem mapGet_mapSet_self {β : Type} (k : String) (v : β) :
    ∀ m : List (String × β), mapGet k (mapSet k v m) = some v
  | [] => by simp [mapSet, mapGet]
  | (k1, v1) :: rest => by
    by_cases h : k1 = k
    · simp [mapSet, mapGet, h]
    · simp [mapSet, mapGet, h, mapGet_mapSet_self k v rest]

theorem mapGet_mapSet_ne {β : Type} (k k2 : String) (v : β) (hne : k2 ≠ k) :
    ∀ m : List (String × β), mapGet k2 (mapSet k v m) = mapGet k2 m
  | [] => by
    have : ¬ k = k2 := fun h => hne h.symm
    simp [mapSet, mapGet, this]
  | (k1, v1) :: rest => by
    have h3 : ¬ k = k2 := fun e => hne e.symm
    by_cases h : k1 = k
    · subst h
      simp [mapSet, mapGet, h3]
    · by_cases h2 : k1 = k2
      · subst h2
        simp [mapSet, mapGet, h]
      · simp [mapSet, mapGet, h, h2, mapGet_mapSet_ne k k2 v hne rest]

theorem mapDelete_cons {β : Type} (k k1 : String) (v1 : β) (rest : List (String × β)) :
    mapDelete k ((k1, v1) :: rest)
      = if k1 = k then mapDelete k rest else (k1, v1) :: mapDelete k rest := by
  unfold mapDelete
  by_cases h : k1 = k
  · simp [List.filter_cons, h]
  · simp [List.filter_cons, h]

theorem mapGet_mapDelete_self {β : Type} (k : String) :
    ∀ m : List (String × β), mapGet k (mapDelete k m) = none
  | [] => rfl
  | (k1, v1) :: rest => by
    have ih := mapGet_mapDelete_self k rest
    rw [mapDelete_cons]
    by_cases h : k1 = k
    · simp only [h, if_true, ih]
    · simp only [h, if_false, mapGet, ih]

theorem mapGet_mapDelete_ne {β : Type} (k k2 : String) (hne : k2 ≠ k) :
    ∀ m : List (String × β), mapGet k2 (mapDelete k m) = mapGet k2 m
  | [] => rfl
  | (k1, v1) :: rest => by
    have ih := mapGet_mapDelete_ne k k2 hne rest
    rw [mapDelete_cons]
    by_cases h : k1 = k
    · have h2 : ¬ k1 = k2 := fun e => hne (e.symm.trans h)
      simp only [h, if_true, ih, mapGet]
      rw [h] at h2
      simp only [h2, if_false]
    · simp only [h, if_false, mapGet, ih]

theorem mem_of_mapGet {β : Type} (k : String) (v : β) :
    ∀ m : List (String × β), mapGet k m = some v → (k, v) ∈ m
  | [], h => by cases h
  | (k1, v1) :: rest, h => by
    by_cases h1 : k1 = k
    · simp only [mapGet, h1, if_true] at h
      cases h
      rw [h1]
      exact List.mem_cons_self _ _
    · simp only [mapGet, h1, if_false] at h
      exact List.mem_cons_of_mem _ (mem_of_mapGet k v rest h)

theorem clearTimerOf_sublist {V : Type} (c : MemoryCache V) (key : String) :
    (c.clearTimerOf key).Sublist c.pending := by
  unfold MemoryCache.clearTimerOf
  cases mapGet key c.timers with
  | none => exact List.Sublist.refl _
  | some id => exact List.filter_sublist _

theorem clearTimerOf_key_ne {V : Type} (c : MemoryCache V) (key : String)
    (hreg : ∀ tm ∈ c.pending, mapGet tm.key c.timers = some tm.id) :
    ∀ tm ∈ c.clearTimerOf key, tm.key ≠ key := by
  intro tm htm hkey
  have hmem : tm ∈ c.pending := (clearTimerOf_sublist c key).subset htm
  have hr := hreg tm hmem
  rw [hkey] at hr
  unfold MemoryCache.clearTimerOf at htm
  rw [hr] at htm
  simp [clearTimeout] at htm

theorem wellFormed_empty {V : Type} : (MemoryCache.empty : MemoryCache V).WellFormed := by
  refine ⟨?_, ?_, ?_, ?_, ?_⟩
  · intro tm htm
    cases htm
  · exact List.nodup_nil
  · intro tm htm
    cases htm
  · intro key id h
    cases h
  · exact List.nodup_nil

theorem wellFormed_delete {V : Type} (c : MemoryCache V) (key : String)
    (hwf : c.WellFormed) : (c.delete key).WellFormed := by
  obtain ⟨hreg, hnd, hfresh, hin, hkeys⟩ := hwf
  have hsub := clearTimerOf_sublist c key
  refine ⟨?_, ?_, ?_, ?_, ?_⟩
  · intro tm htm
    have hne := clearTimerOf_key_ne c key hreg tm htm
    show mapGet tm.key (mapDelete key c.timers) = some tm.id
    rw [mapGet_mapDelete_ne key tm.key hne]
    exact hreg tm (hsub.subset htm)
  · exact hnd.sublist (hsub.map _)
  · intro tm htm
    exact hfresh tm (hsub.subset htm)
  · intro key2 id h
    show mapGet key2 (mapDelete key c.cache) ≠ none
    have h1 : mapGet key2 (mapDelete key c.timers) = some id := h
    by_cases hk : key2 = key
    · rw [hk, mapGet_mapDelete_self] at h1
      cases h1
    · rw [mapGet_mapDelete_ne key key2 hk] at h1 ⊢
      exact hin key2 id h1
  · show ((mapDelete key c.cache).map fun e => e.1).Nodup
    exact hkeys.sublist ((List.filter_sublist _).map _)

theorem keys_mapSet {β : Type} (k : String) (v : β) :
    ∀ m : List (String × β),
      (mapSet k v m).map (fun e => e.1)
        = if k ∈ m.map (fun e => e.1) then m.map (fun e => e.1)
          else m.map (fun e => e.1) ++ [k]
  | [] => by simp [mapSet]
  | (k1, v1) :: rest => by
    by_cases h : k1 = k
    · subst h
      simp [mapSet]
    · have h2 : ¬ k = k1 := fun e => h e.symm
      have ih := keys_mapSet k v rest
      simp only [mapSet, h, if_false, List.map_cons, List.mem_cons, h2, false_or, ih]
      split <;> simp

theorem nodup_keys_mapSet {β : Type} (k : String) (v : β) (m : List (String × β))
    (h : (m.map fun e => e.1).Nodup) : ((mapSet k v m).map fun e => e.1).Nodup := by
  rw [keys_mapSet]
  split
  · exact h
  · rename_i hk
    rw [List.nodup_append]
    refine ⟨h, by simp, ?_⟩
    intro a ha hb
    have : a = k := by simpa using hb
    rw [this] at ha
    exact hk ha

theorem wellFormed_set {V : Type} (c : MemoryCache V) (key : String) (value : V)
    (ttlSeconds now : Nat) (hwf : c.WellFormed) : (c.set key value ttlSeconds now).WellFormed := by
  obtain ⟨hreg, hnd, hfresh, hin, hkeys⟩ := hwf
  have hsub := clearTimerOf_sublist c key
  refine ⟨?_, ?_, ?_, ?_, ?_⟩
  · intro tm htm
    show mapGet tm.key (mapSet key c.nextTimer c.timers) = some tm.id
    rcases List.mem_append.mp htm with h | h
    · have hne := clearTimerOf_key_ne c key hreg tm h
      rw [mapGet_mapSet_ne key tm.key _ hne]
      exact hreg tm (hsub.subset h)
    · have : tm = Timer.mk c.nextTimer key (now + timerDelay (ttlSeconds * 1000)) := by
        simpa using h
      rw [this]
      exact mapGet_mapSet_self key c.nextTimer c.timers
  · show ((c.clearTimerOf key
        ++ [Timer.mk c.nextTimer key (now + timerDelay (ttlSeconds * 1000))]).map
          fun tm => tm.id).Nodup
    rw [List.map_append, List.nodup_append]
    refine ⟨hnd.sublist (hsub.map _), by simp, ?_⟩
    intro a ha hb
    obtain ⟨tm, htm, hid⟩ := List.mem_map.mp ha
    have hlt := hfresh tm (hsub.subset htm)
    have : a = c.nextTimer := by simpa using hb
    omega
  · intro tm htm
    show tm.id < c.nextTimer + 1
    rcases List.mem_append.mp htm with h | h
    · exact Nat.lt_succ_of_lt (hfresh tm (hsub.subset h))
    · have : tm = Timer.mk c.nextTimer key (now + timerDelay (ttlSeconds * 1000)) := by
        simpa using h
      rw [this]
      exact Nat.lt_succ_self _
  · intro key2 id h
    show mapGet key2 (mapSet key _ c.cache) ≠ none
    have h1 : mapGet key2 (mapSet key c.nextTimer c.timers) = some id := h
    by_cases hk : key2 = key
    · rw [hk, mapGet_mapSet_self]
      exact Option.some_ne_none _
    · rw [mapGet_mapSet_ne key key2 _ hk] at h1 ⊢
      exact hin key2 id h1
  · exact nodup_keys_mapSet key _ c.cache hkeys

theorem wellFormed_get {V : Type} (c : MemoryCache V) (key : String) (now : Nat)
    (hwf : c.WellFormed) : (c.get key now).2.WellFormed := by
  unfold MemoryCache.get
  split
  · exact hwf
  · split
    · exact wellFormed_delete c key hwf
    · exact hwf

theorem wellFormed_has {V : Type} (c : MemoryCache V) (key : String) (now : Nat)
    (hwf : c.WellFormed) : (c.has key now).2.WellFormed := by
  unfold MemoryCache.has
  split
  · exact hwf
  · split
    · exact wellFormed_delete c key hwf
    · exact hwf

theorem wellFormed_foldl_delete {V : Type} :
    ∀ (keys : List String) (c : MemoryCache V), c.WellFormed →
      (keys.foldl MemoryCache.delete c).WellFormed
  | [], _, h => h
  | k :: rest, c, h => wellFormed_foldl_delete rest (c.delete k) (wellFormed_delete c k h)

theorem mem_foldl_clearTimeout (tm : Timer) :
    ∀ (timers : List (String × Nat)) (pending : List Timer),
      tm ∈ timers.foldl (fun pending entry => clearTimeout entry.2 pending) pending →
        tm ∈ pending ∧ ∀ e ∈ timers, tm.id ≠ e.2
  | [], pending, h => ⟨h, fun e he => by cases he⟩
  | e :: rest, pending, h => by
    rw [List.foldl_cons] at h
    obtain ⟨h1, h2⟩ := mem_foldl_clearTimeout tm rest (clearTimeout e.2 pending) h
    have h3 : tm ∈ pending ∧ tm.id ≠ e.2 := by
      simpa [clearTimeout] using h1
    refine ⟨h3.1, ?_⟩
    intro e2 he2
    rcases List.mem_cons.mp he2 with h4 | h4
    · rw [h4]; exact h3.2
    · exact h2 e2 h4

theorem clear_pending_nil {V : Type} (c : MemoryCache V) (hwf : c.WellFormed) :
    ∀ tm, tm ∉ c.clear.pending := by
  intro tm htm
  obtain ⟨h1, h2⟩ := mem_foldl_clearTimeout tm c.timers c.pending htm
  have hreg := mem_of_mapGet tm.key tm.id c.timers (hwf.1 tm h1)
  exact h2 _ hreg rfl

theorem wellFormed_clear {V : Type} (c : MemoryCache V) (hwf : c.WellFormed) :
    c.clear.WellFormed := by
  have hnil : c.clear.pending = [] := List.eq_nil_iff_forall_not_mem.mpr (clear_pending_nil c hwf)
  refine ⟨?_, ?_, ?_, ?_, ?_⟩
  · intro tm htm
    rw [hnil] at htm
    cases htm
  · rw [hnil]
    exact List.nodup_nil
  · intro tm htm
    rw [hnil] at htm
    cases htm
  · intro key id h
    cases h
  · exact List.nodup_nil

theorem wellFormed_unschedule {V : Type} (c : MemoryCache V) (id : Nat)
    (hwf : c.WellFormed) :
    MemoryCache.WellFormed { c with pending := c.pending.filter fun t => t.id ≠ id } := by
  obtain ⟨hreg, hnd, hfresh, hin, hkeys⟩ := hwf
  have hsub : (c.pending.filter fun t => decide (t.id ≠ id)).Sublist c.pending :=
    List.filter_sublist _
  exact ⟨fun tm htm => hreg tm (hsub.subset htm), hnd.sublist (hsub.map _),
    fun tm htm => hfresh tm (hsub.subset htm), hin, hkeys⟩

theorem wellFormed_fire {V : Type} (c : MemoryCache V) (id now : Nat)
    (hwf : c.WellFormed) : (c.fire id now).WellFormed := by
  unfold MemoryCache.fire
  split
  · split
    · exact wellFormed_delete _ _ (wellFormed_unschedule c id hwf)
    · exact hwf
  · exact hwf

theorem wellFormed_step {V : Type} (c : MemoryCache V) (now : Nat) (op : CacheOp V)
    (hwf : c.WellFormed) : (c.step now op).WellFormed := by
  cases op with
  | set key value ttlSeconds => exact wellFormed_set c key value ttlSeconds now hwf
  | get key => exact wellFormed_get c key now hwf
  | has key => exact wellFormed_has c key now hwf
  | delete key => exact wellFormed_delete c key hwf
  | clear => exact wellFormed_clear c hwf
  | cleanup => exact wellFormed_foldl_delete _ c hwf
  | fire timerId => exact wellFormed_fire c timerId now hwf

theorem wellFormed_run {V : Type} :
    ∀ (trace : List (Nat × CacheOp V)) (c : MemoryCache V), c.WellFormed →
      (c.run trace).WellFormed
  | [], _, h => h
  | e :: rest, c, h => wellFormed_run rest (c.step e.1 e.2) (wellFormed_step c e.1 e.2 h)


theorem mapGet_mapDelete_cases {β : Type} (k key : String) (m : List (String × β)) :
    mapGet k (mapDelete key m) = none ∨ mapGet k (mapDelete key m) = mapGet k m := by
  by_cases h : k = key
  · rw [h]
    exact Or.inl (mapGet_mapDelete_self key m)
  · exact Or.inr (mapGet_mapDelete_ne key k h m)

theorem mapGet_foldl_delete {V : Type} (k : String) :
    ∀ (keys : List String) (c : MemoryCache V),
      mapGet k (keys.foldl MemoryCache.delete c).cache = none
        ∨ mapGet k (keys.foldl MemoryCache.delete c).cache = mapGet k c.cache
  | [], _ => Or.inr rfl
  | key :: rest, c => by
    rw [List.foldl_cons]
    rcases mapGet_foldl_delete k rest (c.delete key) with h | h
    · exact Or.inl h
    · rw [h]
      exact mapGet_mapDelete_cases k key c.cache

theorem mapGet_get_cases {V : Type} (k : String) (c : MemoryCache V) (key : String)
    (now : Nat) :
    mapGet k (c.get key now).2.cache = none
      ∨ mapGet k (c.get key now).2.cache = mapGet k c.cache := by
  unfold MemoryCache.get
  split
  · exact Or.inr rfl
  · split
    · exact mapGet_mapDelete_cases k key c.cache
    · exact Or.inr rfl

theorem mapGet_has_cases {V : Type} (k : String) (c : MemoryCache V) (key : String)
    (now : Nat) :
    mapGet k (c.has key now).2.cache = none
      ∨ mapGet k (c.has key now).2.cache = mapGet k c.cache := by
  unfold MemoryCache.has
  split
  · exact Or.inr rfl
  · split
    · exact mapGet_mapDelete_cases k key c.cache
    · exact Or.inr rfl

theorem mapGet_fire_cases {V : Type} (k : String) (c : MemoryCache V) (id now : Nat) :
    mapGet k (c.fire id now).cache = none
      ∨ mapGet k (c.fire id now).cache = mapGet k c.cache := by
  unfold MemoryCache.fire
  split
  · split
    · exact mapGet_mapDelete_cases k _ c.cache
    · exact Or.inr rfl
  · exact Or.inr rfl

theorem mapGet_step_cases {V : Type} (k : String) (c : MemoryCache V) (now : Nat)
    (op : CacheOp V) (hop : ∀ w s, op ≠ CacheOp.set k w s) :
    mapGet k (c.step now op).cache = none
      ∨ mapGet k (c.step now op).cache = mapGet k c.cache := by
  cases op with
  | set key value ttlSeconds =>
    have hne : k ≠ key := by
      intro h
      exact hop value ttlSeconds (by rw [h])
    exact Or.inr (mapGet_mapSet_ne key k _ hne c.cache)
  | get key => exact mapGet_get_cases k c key now
  | has key => exact mapGet_has_cases k c key now
  | delete key => exact mapGet_mapDelete_cases k key c.cache
  | clear => exact Or.inl rfl
  | cleanup => exact mapGet_foldl_delete k _ c
  | fire timerId => exact mapGet_fire_cases k c timerId now

theorem mapGet_run_cases {V : Type} (k : String) :
    ∀ (trace : List (Nat × CacheOp V)) (c : MemoryCache V),
      (∀ e ∈ trace, ∀ w s, e.2 ≠ CacheOp.set k w s) →
      mapGet k (c.run trace).cache = none ∨ mapGet k (c.run trace).cache = mapGet k c.cache
  | [], _, _ => Or.inr rfl
  | e :: rest, c, h => by
    have h1 := mapGet_run_cases k rest (c.step e.1 e.2)
      (fun e2 he2 => h e2 (List.mem_cons_of_mem _ he2))
    have h2 := mapGet_step_cases k c e.1 e.2 (h e (List.mem_cons_self _ _))
    have hrun : c.run (e :: rest) = (c.step e.1 e.2).run rest := rfl
    rw [hrun]
    rcases h1 with h1 | h1
    · exact Or.inl h1
    · rw [h1]
      exact h2

theorem get_of_absent {V : Type} (c : MemoryCache V) (k : String) (now : Nat)
    (h : mapGet k c.cache = none) : c.get k now = (none, c) := by
  unfold MemoryCache.get
  simp only [h]

theorem get_of_present {V : Type} (c : MemoryCache V) (k : String) (item : CacheItem V)
    (now : Nat) (h : mapGet k c.cache = some item) :
    c.get k now = if item.expired now then (none, c.delete k) else (some item.value, c) := by
  unfold MemoryCache.get
  simp only [h]

theorem get_after_expiry {V : Type} (c : MemoryCache V) (k : String) (item : CacheItem V)
    (now : Nat) (hitem : mapGet k c.cache = none ∨ mapGet k c.cache = some item)
    (hexp : item.expired now = true) :
    (c.get k now).1 = none ∧ mapGet k (c.get k now).2.cache = none := by
  rcases hitem with h | h
  · rw [get_of_absent c k now h]
    exact ⟨rfl, h⟩
  · rw [get_of_present c k item now h]
    rw [if_pos hexp]
    exact ⟨rfl, mapGet_mapDelete_self k c.cache⟩

theorem mapGet_of_mem_nodup {β : Type} (k : String) (v : β) :
    ∀ m : List (String × β), (m.map fun e => e.1).Nodup → (k, v) ∈ m → mapGet k m = some v
  | [], _, h => by cases h
  | (k1, v1) :: rest, hnd, h => by
    rw [List.map_cons, List.nodup_cons] at hnd
    rcases List.mem_cons.mp h with h1 | h1
    · cases h1
      simp [mapGet]
    · have hne : ¬ k1 = k := by
        intro e
        apply hnd.1
        rw [e]
        exact List.mem_map_of_mem (fun e => e.1) h1
      simp only [mapGet, hne, if_false]
      exact mapGet_of_mem_nodup k v rest hnd.2 h1


theorem expired_mono {V : Type} (item : CacheItem V) (now later : Nat) (h : now ≤ later)
    (hlater : item.expired later = false) : item.expired now = false := by
  unfold CacheItem.expired at hlater ⊢
  simp only [decide_eq_false_iff_not, not_lt] at hlater ⊢
  omega

theorem get_state_cases {V : Type} (c : MemoryCache V) (key : String) (now : Nat) :
    (c.get key now).2 = c ∨ (c.get key now).2 = c.delete key := by
  unfold MemoryCache.get
  split
  · exact Or.inl rfl
  · split
    · exact Or.inr rfl
    · exact Or.inl rfl

theorem has_state_cases {V : Type} (c : MemoryCache V) (key : String) (now : Nat) :
    (c.has key now).2 = c ∨ (c.has key now).2 = c.delete key := by
  unfold MemoryCache.has
  split
  · exact Or.inl rfl
  · split
    · exact Or.inr rfl
    · exact Or.inl rfl

theorem fire_cases {V : Type} (c : MemoryCache V) (id now : Nat) :
    c.fire id now = c
    ∨ ∃ tm ∈ c.pending, tm.due ≤ now
        ∧ c.fire id now
          = MemoryCache.delete { c with pending := c.pending.filter fun t => t.id ≠ id } tm.key := by
  unfold MemoryCache.fire
  cases hfind : c.pending.find? (fun tm => decide (tm.id = id)) with
  | none => exact Or.inl rfl
  | some tm =>
    by_cases hdue : tm.due ≤ now
    · refine Or.inr ⟨tm, List.mem_of_find?_eq_some hfind, hdue, ?_⟩
      simp only [if_pos hdue]
    · left
      simp only [if_neg hdue]

theorem alive_delete {V : Type} (c : MemoryCache V) (k key : String) (item : CacheItem V)
    (limit : Nat) (hne : key ≠ k)
    (h : mapGet k c.cache = some item ∧ c.WellFormed
      ∧ ∀ tm ∈ c.pending, tm.key = k → limit < tm.due) :
    mapGet k (c.delete key).cache = some item ∧ (c.delete key).WellFormed
      ∧ ∀ tm ∈ (c.delete key).pending, tm.key = k → limit < tm.due := by
  obtain ⟨h1, h2, h3⟩ := h
  refine ⟨?_, wellFormed_delete c key h2, ?_⟩
  · show mapGet k (mapDelete key c.cache) = some item
    rw [mapGet_mapDelete_ne key k (fun e => hne e.symm)]
    exact h1
  · intro tm htm
    exact h3 tm ((clearTimerOf_sublist c key).subset htm)

theorem alive_foldl_delete {V : Type} (k : String) (item : CacheItem V) (limit : Nat) :
    ∀ (keys : List String) (c : MemoryCache V), (∀ key ∈ keys, key ≠ k) →
      (mapGet k c.cache = some item ∧ c.WellFormed
        ∧ ∀ tm ∈ c.pending, tm.key = k → limit < tm.due) →
      mapGet k (keys.foldl MemoryCache.delete c).cache = some item
        ∧ (keys.foldl MemoryCache.delete c).WellFormed
        ∧ ∀ tm ∈ (keys.foldl MemoryCache.delete c).pending, tm.key = k → limit < tm.due
  | [], _, _, h => h
  | key :: rest, c, hk, h =>
    alive_foldl_delete k item limit rest (c.delete key)
      (fun key2 h2 => hk key2 (List.mem_cons_of_mem _ h2))
      (alive_delete c k key item limit (hk key (List.mem_cons_self _ _)) h)

theorem alive_step {V : Type} (c : MemoryCache V) (k : String) (item : CacheItem V)
    (limit now : Nat) (op : CacheOp V)
    (hnow : now ≤ limit) (hfresh : item.expired limit = false)
    (hop : (∀ w s, op ≠ CacheOp.set k w s) ∧ op ≠ CacheOp.delete k ∧ op ≠ CacheOp.clear)
    (h : mapGet k c.cache = some item ∧ c.WellFormed
      ∧ ∀ tm ∈ c.pending, tm.key = k → limit < tm.due) :
    mapGet k (c.step now op).cache = some item ∧ (c.step now op).WellFormed
      ∧ ∀ tm ∈ (c.step now op).pending, tm.key = k → limit < tm.due := by
  have hwf := wellFormed_step c now op h.2.1
  cases op with
  | set key value ttlSeconds =>
    have hne : k ≠ key := by
      intro e
      exact hop.1 value ttlSeconds (by rw [e])
    refine ⟨?_, hwf, ?_⟩
    · show mapGet k (mapSet key _ c.cache) = some item
      rw [mapGet_mapSet_ne key k _ hne]
      exact h.1
    · intro tm htm hkey
      have htm1 : tm ∈ c.clearTimerOf key
          ++ [Timer.mk c.nextTimer key (now + timerDelay (ttlSeconds * 1000))] := htm
      rcases List.mem_append.mp htm1 with h1 | h1
      · exact h.2.2 tm ((clearTimerOf_sublist c key).subset h1) hkey
      · have : tm = Timer.mk c.nextTimer key (now + timerDelay (ttlSeconds * 1000)) := by
          simpa using h1
        rw [this] at hkey
        exact absurd hkey.symm hne
  | get key =>
    have hstep : c.step now (CacheOp.get key) = (c.get key now).2 := rfl
    rw [hstep]
    by_cases hk : key = k
    · have hsame : (c.get key now).2 = c := by
        rw [hk, get_of_present c k item now h.1, expired_mono item now limit hnow hfresh]
        rfl
      rw [hsame]
      exact h
    · rcases get_state_cases c key now with hs | hs
      · rw [hs]
        exact h
      · rw [hs]
        exact alive_delete c k key item limit hk h
  | has key =>
    have hstep : c.step now (CacheOp.has key) = (c.has key now).2 := rfl
    rw [hstep]
    by_cases hk : key = k
    · have hsame : (c.has key now).2 = c := by
        unfold MemoryCache.has
        rw [hk, h.1]
        simp only [expired_mono item now limit hnow hfresh]
        rfl
      rw [hsame]
      exact h
    · rcases has_state_cases c key now with hs | hs
      · rw [hs]
        exact h
      · rw [hs]
        exact alive_delete c k key item limit hk h
  | delete key =>
    have hne : key ≠ k := by
      intro e
      exact hop.2.1 (by rw [e])
    exact alive_delete c k key item limit hne h
  | clear => exact absurd rfl hop.2.2
  | cleanup =>
    apply alive_foldl_delete k item limit _ c _ h
    intro key hkey hk
    obtain ⟨entry, hentry, hfst⟩ := List.mem_map.mp hkey
    obtain ⟨hmem, hexp⟩ := List.mem_filter.mp hentry
    have hget := mapGet_of_mem_nodup entry.1 entry.2 c.cache h.2.1.2.2.2.2 hmem
    rw [hfst, hk, h.1] at hget
    have : entry.2 = item := (Option.some.inj hget).symm
    rw [this, expired_mono item now limit hnow hfresh] at hexp
    cases hexp
  | fire timerId =>
    have hstep : c.step now (CacheOp.fire timerId) = c.fire timerId now := rfl
    rw [hstep]
    rcases fire_cases c timerId now with hs | ⟨tm, hmem, hdue, hs⟩
    · rw [hs]
      exact h
    · rw [hs]
      have hne : tm.key ≠ k := by
        intro e
        have := h.2.2 tm hmem e
        omega
      apply alive_delete _ k tm.key item limit hne
      refine ⟨h.1, wellFormed_unschedule c timerId h.2.1, ?_⟩
      intro t ht
      exact h.2.2 t ((List.filter_sublist _).subset ht)

theorem alive_run {V : Type} (k : String) (item : CacheItem V) (limit : Nat)
    (hfresh : item.expired limit = false) :
    ∀ (trace : List (Nat × CacheOp V)) (c : MemoryCache V),
      (∀ e ∈ trace, e.1 ≤ limit) →
      (∀ e ∈ trace, (∀ w s, e.2 ≠ CacheOp.set k w s) ∧ e.2 ≠ CacheOp.delete k
        ∧ e.2 ≠ CacheOp.clear) →
      (mapGet k c.cache = some item ∧ c.WellFormed
        ∧ ∀ tm ∈ c.pending, tm.key = k → limit < tm.due) →
      mapGet k (c.run trace).cache = some item
  | [], _, _, _, h => h.1
  | e :: rest, c, hclock, hquiet, h =>
    alive_run k item limit hfresh rest (c.step e.1 e.2)
      (fun e2 he2 => hclock e2 (List.mem_cons_of_mem _ he2))
      (fun e2 he2 => hquiet e2 (List.mem_cons_of_mem _ he2))
      (alive_step c k item limit e.1 e.2 (hclock e (List.mem_cons_self _ _)) hfresh
        (hquiet e (List.mem_cons_self _ _)) h)


theorem timerDelay_ge (ms : Nat) (h : ms ≤ 2147483647) : ms ≤ timerDelay ms := by
  unfold timerDelay
  split
  · rename_i hc
    omega
  · exact le_rfl

theorem has_iff {V : Type} (c : MemoryCache V) (key : String) (now : Nat) :
    (c.has key now).1 = true
      ↔ ∃ item, mapGet key c.cache = some item ∧ (now : Int) - item.createdAt ≤ item.ttl := by
  unfold MemoryCache.has
  cases hget : mapGet key c.cache with
  | none => simp
  | some item =>
    by_cases hexp : item.expired now = true
    · have hgt : (now : Int) - item.createdAt > item.ttl := by
        simpa [CacheItem.expired] using hexp
      simp only [hexp, if_true]
      constructor
      · intro h
        cases h
      · rintro ⟨item2, h2, hle⟩
        cases h2
        omega
    · have hle : (now : Int) - item.createdAt ≤ item.ttl := by
        simpa [CacheItem.expired] using hexp
      simp only [hexp]
      constructor
      · intro _
        exact ⟨item, rfl, hle⟩
      · intro _
        rfl

/-- C18, as stated, fails for a long time-to-live: after `set("k", 7, 3000000)`
at time 0 the delay of 3000000000 ms exceeds what a Node.js timer can hold, so
the expiry timer is due at time 1; once it has run, `get("k")` at time 2
returns null although 2 ms is far less than the time-to-live. -/
theorem cache_long_ttl_expires_early :
    ((MemoryCache.empty : MemoryCache Nat).set "k" 7 3000000 0).pending
      = [{ id := 0, key := "k", due := 1 }]
    ∧ ((((MemoryCache.empty : MemoryCache Nat).set "k" 7 3000000 0).run
          [(1, CacheOp.fire 0)]).get "k" 2).1 = none
    ∧ ((2 : Int) - 0 < 3000000 * 1000) := by
  refine ⟨by decide!, by decide!, by decide⟩

/-- C18, amended: for a time-to-live of at most 2147483647 ms.  After any
history, `set(k, v, ttlSeconds)` at time `t`, and then events up to time
`later` that neither set nor delete `k` nor clear the cache, `get(k)` at
`later` returns `v` while `later - t < ttlSeconds * 1000`; once
`later - t > ttlSeconds * 1000` it returns null and `k` is no longer in the
cache.  `has(key)` is true exactly when `key` has an entry that is not expired,
and `get` of a key never set returns null. -/
theorem cache_get_after_set {V : Type} (history trace : List (Nat × CacheOp V)) (k : String)
    (v : V) (ttlSeconds t later : Nat)
    (hbound : ttlSeconds * 1000 ≤ 2147483647)
    (hquiet : ∀ e ∈ trace, (∀ w s, e.2 ≠ CacheOp.set k w s) ∧ e.2 ≠ CacheOp.delete k
      ∧ e.2 ≠ CacheOp.clear)
    (hclock : ∀ e ∈ trace, e.1 ≤ later) :
    let c := ((MemoryCache.empty.run history).set k v ttlSeconds t).run trace
    ((later : Int) - t < ttlSeconds * 1000 → (c.get k later).1 = some v)
    ∧ ((later : Int) - t > ttlSeconds * 1000 →
        (c.get k later).1 = none ∧ mapGet k (c.get k later).2.cache = none)
    ∧ (∀ key now, (c.has key now).1 = true
        ↔ ∃ item, mapGet key c.cache = some item ∧ (now : Int) - item.createdAt ≤ item.ttl)
    ∧ (∀ (other : List (Nat × CacheOp V)) key now,
        (∀ e ∈ other, ∀ w s, e.2 ≠ CacheOp.set key w s) →
          ((MemoryCache.empty.run other).get key now).1 = none) := by
  intro c
  have hwf0 : (MemoryCache.empty.run history : MemoryCache V).WellFormed :=
    wellFormed_run history _ wellFormed_empty
  have hset : mapGet k ((MemoryCache.empty.run history).set k v ttlSeconds t).cache
      = some { value := v, createdAt := t, ttl := ttlSeconds * 1000 } :=
    mapGet_mapSet_self k _ _
  refine ⟨?_, ?_, fun key now => has_iff c key now, ?_⟩
  · intro hlt
    have hfresh : (CacheItem.mk v t (ttlSeconds * 1000)).expired later = false := by
      unfold CacheItem.expired
      simp only [decide_eq_false_iff_not, not_lt]
      push_cast
      omega
    have halive := alive_run k (CacheItem.mk v t (ttlSeconds * 1000)) later hfresh trace
      ((MemoryCache.empty.run history).set k v ttlSeconds t) hclock hquiet
      ⟨hset, wellFormed_set _ k v ttlSeconds t hwf0, by
        intro tm htm hkey
        have htm1 : tm ∈ (MemoryCache.empty.run history : MemoryCache V).clearTimerOf k
            ++ [Timer.mk (MemoryCache.empty.run history : MemoryCache V).nextTimer k
                  (t + timerDelay (ttlSeconds * 1000))] := htm
        rcases List.mem_append.mp htm1 with h1 | h1
        · exact absurd hkey (clearTimerOf_key_ne _ k hwf0.1 tm h1)
        · have : tm = Timer.mk (MemoryCache.empty.run history : MemoryCache V).nextTimer k
              (t + timerDelay (ttlSeconds * 1000)) := by simpa using h1
          rw [this]
          have hd := timerDelay_ge (ttlSeconds * 1000) hbound
          show later < t + timerDelay (ttlSeconds * 1000)
          omega⟩
    rw [get_of_present c k _ later halive, hfresh]
    rfl
  · intro hgt
    have hexp : (CacheItem.mk v t (ttlSeconds * 1000)).expired later = true := by
      unfold CacheItem.expired
      simp only [decide_eq_true_eq]
      push_cast
      omega
    have hcases := mapGet_run_cases k trace
      ((MemoryCache.empty.run history).set k v ttlSeconds t) (fun e he => (hquiet e he).1)
    rw [hset] at hcases
    exact get_after_expiry c k _ later hcases hexp
  · intro other key now hother
    have hcases := mapGet_run_cases key other (MemoryCache.empty : MemoryCache V) hother
    have hnone : mapGet key (MemoryCache.empty.run other : MemoryCache V).cache = none := by
      rcases hcases with h | h
      · exact h
      · rw [h]
        rfl
    rw [get_of_absent _ key now hnone]

/-- Witness of the amended C18: the price updater caches `latest-prices` for 60
seconds; a `has` and an unrelated `set` happen before it is read after 59999 ms,
and after 60001 ms. -/
theorem cache_get_after_set_witness :
    (60 * 1000 ≤ 2147483647)
    ∧ ((((MemoryCache.empty : MemoryCache Nat).run []).set "latest-prices" 7 60 100).run
          [(200, CacheOp.has "latest-prices"), (300, CacheOp.set "other" 1 1),
           (1300, CacheOp.fire 1)]).get "latest-prices" 60099 = (some 7,
        (((MemoryCache.empty : MemoryCache Nat).run []).set "latest-prices" 7 60 100).run
          [(200, CacheOp.has "latest-prices"), (300, CacheOp.set "other" 1 1),
           (1300, CacheOp.fire 1)])
    ∧ (((((MemoryCache.empty : MemoryCache Nat).run []).set "latest-prices" 7 60 100).run
          [(200, CacheOp.has "latest-prices"), (300, CacheOp.set "other" 1 1),
           (1300, CacheOp.fire 1)]).get "latest-prices" 60101).1 = none
    ∧ (((60099 : Nat) : Int) - ((100 : Nat) : Int) < ((60 : Nat) : Int) * 1000 →
        (((((MemoryCache.empty : MemoryCache Nat).run []).set "latest-prices" 7 60 100).run
          [(200, CacheOp.has "latest-prices"), (300, CacheOp.set "other" 1 1),
           (1300, CacheOp.fire 1)]).get "latest-prices" 60099).1 = some 7) :=
  ⟨by decide, by decide!, by decide!,
   (cache_get_after_set [] [(200, CacheOp.has "latest-prices"), (300, CacheOp.set "other" 1 1),
      (1300, CacheOp.fire 1)] "latest-prices" 7 60 100 60099 (by decide) (by simp)
      (by decide!)).1⟩


theorem length_le_one_of_same_id :
    ∀ l : List Timer, (l.map fun tm => tm.id).Nodup → (∀ a ∈ l, ∀ b ∈ l, a.id = b.id) →
      l.length ≤ 1
  | [], _, _ => by simp
  | [_], _, _ => by simp
  | a :: b :: rest, hnd, hsame => by
    exfalso
    have hab : a.id = b.id := hsame a (by simp) b (by simp)
    simp only [List.map_cons, List.nodup_cons, List.mem_cons] at hnd
    exact hnd.1 (Or.inl hab)

theorem wellFormed_at_most_one {V : Type} (c : MemoryCache V) (hwf : c.WellFormed)
    (key : String) : (c.pending.filter fun tm => tm.key = key).length ≤ 1 := by
  have hsub : (c.pending.filter fun tm => decide (tm.key = key)).Sublist c.pending :=
    List.filter_sublist _
  apply length_le_one_of_same_id _ (hwf.2.1.sublist (hsub.map _))
  intro a ha b hb
  obtain ⟨hma, hka⟩ := List.mem_filter.mp ha
  obtain ⟨hmb, hkb⟩ := List.mem_filter.mp hb
  have h1 := hwf.1 a hma
  have h2 := hwf.1 b hmb
  have hka1 : a.key = key := by simpa using hka
  have hkb1 : b.key = key := by simpa using hkb
  rw [hka1] at h1
  rw [hkb1, h1] at h2
  exact Option.some.inj h2

theorem set_pending_of_key {V : Type} (c : MemoryCache V) (hwf : c.WellFormed) (k : String)
    (v : V) (ttlSeconds t : Nat) :
    (c.set k v ttlSeconds t).pending.filter (fun tm => tm.key = k)
      = [Timer.mk c.nextTimer k (t + timerDelay (ttlSeconds * 1000))] := by
  have hnone : (c.clearTimerOf k).filter (fun tm => decide (tm.key = k)) = [] := by
    apply List.filter_eq_nil_iff.mpr
    intro tm htm
    simpa using clearTimerOf_key_ne c k hwf.1 tm htm
  show (c.clearTimerOf k ++ [Timer.mk c.nextTimer k (t + timerDelay (ttlSeconds * 1000))]).filter
      (fun tm => decide (tm.key = k)) = _
  rw [List.filter_append, hnone]
  simp

theorem get_after_overwrite {V : Type} (c0 : MemoryCache V) (hwf0 : c0.WellFormed)
    (trace : List (Nat × CacheOp V)) (k : String) (v : V) (ttlSeconds t later : Nat)
    (hbound : ttlSeconds * 1000 ≤ 2147483647)
    (hquiet : ∀ e ∈ trace, (∀ w s, e.2 ≠ CacheOp.set k w s) ∧ e.2 ≠ CacheOp.delete k
      ∧ e.2 ≠ CacheOp.clear)
    (hclock : ∀ e ∈ trace, e.1 ≤ later) :
    ((later : Int) - t < ttlSeconds * 1000 →
        (((c0.set k v ttlSeconds t).run trace).get k later).1 = some v)
    ∧ ((later : Int) - t > ttlSeconds * 1000 →
        (((c0.set k v ttlSeconds t).run trace).get k later).1 = none
        ∧ mapGet k (((c0.set k v ttlSeconds t).run trace).get k later).2.cache = none) := by
  have hset : mapGet k (c0.set k v ttlSeconds t).cache
      = some { value := v, createdAt := t, ttl := ttlSeconds * 1000 } :=
    mapGet_mapSet_self k _ _
  constructor
  · intro hlt
    have hfresh : (CacheItem.mk v t (ttlSeconds * 1000)).expired later = false := by
      unfold CacheItem.expired
      simp only [decide_eq_false_iff_not, not_lt]
      push_cast
      omega
    have halive := alive_run k (CacheItem.mk v t (ttlSeconds * 1000)) later hfresh trace
      (c0.set k v ttlSeconds t) hclock hquiet
      ⟨hset, wellFormed_set _ k v ttlSeconds t hwf0, by
        intro tm htm hkey
        have htm1 : tm ∈ c0.clearTimerOf k
            ++ [Timer.mk c0.nextTimer k (t + timerDelay (ttlSeconds * 1000))] := htm
        rcases List.mem_append.mp htm1 with h1 | h1
        · exact absurd hkey (clearTimerOf_key_ne _ k hwf0.1 tm h1)
        · have : tm = Timer.mk c0.nextTimer k (t + timerDelay (ttlSeconds * 1000)) := by
            simpa using h1
          rw [this]
          have hd := timerDelay_ge (ttlSeconds * 1000) hbound
          show later < t + timerDelay (ttlSeconds * 1000)
          omega⟩
    rw [get_of_present _ k _ later halive, hfresh]
    rfl
  · intro hgt
    have hexp : (CacheItem.mk v t (ttlSeconds * 1000)).expired later = true := by
      unfold CacheItem.expired
      simp only [decide_eq_true_eq]
      push_cast
      omega
    have hcases := mapGet_run_cases k trace (c0.set k v ttlSeconds t)
      (fun e he => (hquiet e he).1)
    rw [hset] at hcases
    exact get_after_expiry _ k _ later hcases hexp

/-- C19, as stated, fails for a long second time-to-live: after
`set("k", 1, 60)` at time 0 and `set("k", 2, 3000000)` at time 10 the delay of
3000000000 ms exceeds what a Node.js timer can hold, so the timer of the second
`set` is due at time 11; once it has run, `get("k")` at time 12 returns null
although only 2 ms of the second time-to-live have passed. -/
theorem cache_overwrite_long_ttl_expires_early :
    (((MemoryCache.empty : MemoryCache Nat).set "k" 1 60 0).set "k" 2 3000000 10).pending
      = [{ id := 1, key := "k", due := 11 }]
    ∧ (((((MemoryCache.empty : MemoryCache Nat).set "k" 1 60 0).set "k" 2 3000000 10).run
          [(11, CacheOp.fire 1)]).get "k" 12).1 = none
    ∧ ((12 : Int) - 10 < 3000000 * 1000) := by
  refine ⟨by decide!, by decide!, by decide⟩

/-- C19, amended: for a second time-to-live of at most 2147483647 ms.  After
any history, `set(k, v1, ttl1)` at `t1` followed by `set(k, v2, ttl2)` at `t2`
leaves for `k` the entry `v2` created at `t2` with time-to-live `ttl2`.  After
further events up to time `later` that neither set nor delete `k` nor clear the
cache (timers may run), `get(k)` at `later` returns `v2` while
`later - t2 < ttl2 * 1000` and null once `later - t2 > ttl2 * 1000`, so the
lifetime is measured from the second `set` with `ttl2`.  The timer scheduled by
the first `set` is no longer scheduled and running it changes nothing; the only
scheduled timer of `k` is the one of the second `set`; and in every later state
each key has at most one scheduled timer and every scheduled timer belongs to a
key of the cache. -/
theorem cache_last_write_wins {V : Type} (history trace : List (Nat × CacheOp V)) (k : String)
    (v1 v2 : V) (ttl1 ttl2 t1 t2 later : Nat)
    (hbound : ttl2 * 1000 ≤ 2147483647)
    (hquiet : ∀ e ∈ trace, (∀ w s, e.2 ≠ CacheOp.set k w s) ∧ e.2 ≠ CacheOp.delete k
      ∧ e.2 ≠ CacheOp.clear)
    (hclock : ∀ e ∈ trace, e.1 ≤ later) :
    let c0 : MemoryCache V := MemoryCache.empty.run history
    let c1 := c0.set k v1 ttl1 t1
    let c2 := c1.set k v2 ttl2 t2
    mapGet k c2.cache = some { value := v2, createdAt := t2, ttl := ttl2 * 1000 }
    ∧ ((later : Int) - t2 < ttl2 * 1000 → ((c2.run trace).get k later).1 = some v2)
    ∧ ((later : Int) - t2 > ttl2 * 1000 →
        ((c2.run trace).get k later).1 = none
        ∧ mapGet k ((c2.run trace).get k later).2.cache = none)
    ∧ (c1.pending.filter fun tm => tm.key = k)
        = [Timer.mk c0.nextTimer k (t1 + timerDelay (ttl1 * 1000))]
    ∧ (∀ tm ∈ c2.pending, tm.id ≠ c0.nextTimer)
    ∧ (∀ now, c2.fire c0.nextTimer now = c2)
    ∧ (c2.pending.filter fun tm => tm.key = k)
        = [Timer.mk c1.nextTimer k (t2 + timerDelay (ttl2 * 1000))]
    ∧ (∀ (after : List (Nat × CacheOp V)) (key : String),
        ((c2.run after).pending.filter fun tm => tm.key = key).length ≤ 1)
    ∧ (∀ (after : List (Nat × CacheOp V)), ∀ tm ∈ (c2.run after).pending,
        mapGet tm.key (c2.run after).cache ≠ none) := by
  intro c0 c1 c2
  have hwf0 : c0.WellFormed := wellFormed_run history _ wellFormed_empty
  have hwf1 : c1.WellFormed := wellFormed_set c0 k v1 ttl1 t1 hwf0
  have hwf2 : c2.WellFormed := wellFormed_set c1 k v2 ttl2 t2 hwf1
  have hentry : mapGet k c2.cache = some { value := v2, createdAt := t2, ttl := ttl2 * 1000 } :=
    mapGet_mapSet_self k _ _
  have hids : ∀ tm ∈ c2.pending, tm.id ≠ c0.nextTimer := by
    intro tm htm
    have htm1 : tm ∈ c1.clearTimerOf k
        ++ [Timer.mk c1.nextTimer k (t2 + timerDelay (ttl2 * 1000))] := htm
    rcases List.mem_append.mp htm1 with h | h
    · have hreg : mapGet k c1.timers = some c0.nextTimer := mapGet_mapSet_self k _ _
      unfold MemoryCache.clearTimerOf at h
      rw [hreg] at h
      simpa [clearTimeout] using (List.mem_filter.mp h).2
    · have : tm = Timer.mk c1.nextTimer k (t2 + timerDelay (ttl2 * 1000)) := by simpa using h
      rw [this]
      show c0.nextTimer + 1 ≠ c0.nextTimer
      omega
  have hlife := get_after_overwrite c1 hwf1 trace k v2 ttl2 t2 later hbound hquiet hclock
  refine ⟨hentry, hlife.1, hlife.2, set_pending_of_key c0 hwf0 k v1 ttl1 t1, hids, ?_,
    set_pending_of_key c1 hwf1 k v2 ttl2 t2, ?_, ?_⟩
  · intro now
    have hnone : c2.pending.find? (fun tm => decide (tm.id = c0.nextTimer)) = none := by
      apply find_none_of_forall
      intro tm htm
      simpa using hids tm htm
    unfold MemoryCache.fire
    rw [hnone]
  · intro after key
    exact wellFormed_at_most_one _ (wellFormed_run after c2 hwf2) key
  · intro after tm htm
    have hwf := wellFormed_run after c2 hwf2
    exact hwf.2.2.2.1 tm.key tm.id (hwf.1 tm htm)

/-- Witness of the amended C19: `latest-prices` is cached for 60 seconds and
overwritten 100 ms later for 30 seconds; the timer of the first `set` (handle 0)
is gone, a `has` happens, and the entry is read 29999 ms and 30001 ms after the
second `set`. -/
theorem cache_last_write_wins_witness :
    (30 * 1000 ≤ 2147483647)
    ∧ (((((MemoryCache.empty : MemoryCache Nat).run []).set "latest-prices" 7 60 0).set
          "latest-prices" 8 30 100).run
          [(200, CacheOp.has "latest-prices"), (300, CacheOp.fire 0)]).get "latest-prices" 30099
        = (some 8,
          ((((MemoryCache.empty : MemoryCache Nat).run []).set "latest-prices" 7 60 0).set
            "latest-prices" 8 30 100).run
            [(200, CacheOp.has "latest-prices"), (300, CacheOp.fire 0)])
    ∧ ((((((MemoryCache.empty : MemoryCache Nat).run []).set "latest-prices" 7 60 0).set
          "latest-prices" 8 30 100).run
          [(200, CacheOp.has "latest-prices"), (300, CacheOp.fire 0)]).get
          "latest-prices" 30101).1 = none
    ∧ (((30099 : Nat) : Int) - ((100 : Nat) : Int) < ((30 : Nat) : Int) * 1000 →
        ((((((MemoryCache.empty : MemoryCache Nat).run []).set "latest-prices" 7 60 0).set
          "latest-prices" 8 30 100).run
          [(200, CacheOp.has "latest-prices"), (300, CacheOp.fire 0)]).get
          "latest-prices" 30099).1 = some 8) :=
  ⟨by decide, by decide!, by decide!,
   (cache_last_write_wins [] [(200, CacheOp.has "latest-prices"), (300, CacheOp.fire 0)]
      "latest-prices" 7 8 60 30 0 100 30099 (by decide) (by simp) (by decide!)).2.1⟩

theorem runRateLimit_append (windowMs max : Nat) :
    ∀ (a b : List LimitRequest) (store : LimitStore),
      runRateLimit windowMs max store (a ++ b)
        = ((runRateLimit windowMs max store a).1
            ++ (runRateLimit windowMs max (runRateLimit windowMs max store a).2 b).1,
           (runRateLimit windowMs max (runRateLimit windowMs max store a).2 b).2)
  | [], b, store => by simp [runRateLimit]
  | r :: rest, b, store => by
    have ih := runRateLimit_append windowMs max rest b
      (validateRateLimit windowMs max store r).2
    simp only [List.cons_append, runRateLimit, List.append_eq, ih]

theorem runRateLimit_snoc (windowMs max : Nat) (pre : List LimitRequest) (r : LimitRequest)
    (store : LimitStore) :
    runRateLimit windowMs max store (pre ++ [r])
      = ((runRateLimit windowMs max store pre).1
            ++ [(r, (validateRateLimit windowMs max (runRateLimit windowMs max store pre).2 r).1)],
         (validateRateLimit windowMs max (runRateLimit windowMs max store pre).2 r).2) := by
  rw [runRateLimit_append]
  simp [runRateLimit]

theorem validateRateLimit_admit_iff (windowMs max : Nat) (store : LimitStore)
    (req : LimitRequest) :
    ((validateRateLimit windowMs max store req).1 = none
      ↔ (((mapGet req.key store).getD []).filter
          fun (time : Nat) => (req.now : Int) - (time : Int) < (windowMs : Int)).length < max)
    ∧ ((validateRateLimit windowMs max store req).1 = none →
        (validateRateLimit windowMs max store req).2
          = mapSet req.key
              ((((mapGet req.key store).getD []).filter
                  fun (time : Nat) => (req.now : Int) - (time : Int) < (windowMs : Int)) ++ [req.now]) store)
    ∧ ((validateRateLimit windowMs max store req).1 ≠ none →
        validateRateLimit windowMs max store req
          = (some { status := 429, success := false, message := "Too many requests",
                    retryAfter := (windowMs + 999) / 1000 }, store)) := by
  unfold validateRateLimit
  simp only
  split
  · rename_i h
    refine ⟨?_, ?_, ?_⟩
    · constructor
      · intro hc
        cases hc
      · intro hc
        omega
    · intro hc
      cases hc
    · intro _
      rfl
  · rename_i h
    refine ⟨?_, ?_, ?_⟩
    · constructor
      · intro _
        omega
      · intro _
        rfl
    · intro _
      rfl
    · intro hc
      exact absurd rfl hc


theorem filter_window_later (windowMs earlier later : Nat) (h : earlier ≤ later)
    (l : List Nat) :
    (l.filter fun (time : Nat) => (earlier : Int) - (time : Int) < (windowMs : Int)).filter
        (fun (time : Nat) => (later : Int) - (time : Int) < (windowMs : Int))
      = l.filter fun (time : Nat) => (later : Int) - (time : Int) < (windowMs : Int) := by
  rw [List.filter_filter]
  apply List.filter_congr
  intro t _
  by_cases hl : (later : Int) - (t : Int) < (windowMs : Int)
  · have he : (earlier : Int) - (t : Int) < (windowMs : Int) := by omega
    simp [hl, he]
  · simp [hl]

theorem rateLimit_store_window (windowMs max : Nat) :
    ∀ pre : List LimitRequest, pre.Pairwise (fun a b => a.now ≤ b.now) →
      ∀ (k : String) (now : Nat), (∀ a ∈ pre, a.now ≤ now) →
        ((mapGet k (runRateLimit windowMs max [] pre).2).getD []).filter
            (fun (time : Nat) => (now : Int) - (time : Int) < (windowMs : Int))
          = ((runRateLimit windowMs max [] pre).1.filter fun e =>
              e.2 = none ∧ e.1.key = k
                ∧ (now : Int) - (e.1.now : Int) < (windowMs : Int)).map fun e => e.1.now := by
  intro pre
  induction pre using List.reverseRecOn with
  | nil =>
    intro _ k now _
    simp [runRateLimit, mapGet]
  | append_singleton p x ih =>
    intro hsorted k now hnow
    rw [List.pairwise_append] at hsorted
    obtain ⟨hp, _, hpx⟩ := hsorted
    have hx : x.now ≤ now := hnow x (by simp)
    have hpnow : ∀ a ∈ p, a.now ≤ now := fun a ha => hnow a (List.mem_append_left _ ha)
    have ihk := ih hp k now hpnow
    obtain ⟨_, hadm, hrej⟩ :=
      validateRateLimit_admit_iff windowMs max (runRateLimit windowMs max [] p).2 x
    rw [runRateLimit_snoc]
    simp only [List.filter_append, List.map_append]
    cases hd : (validateRateLimit windowMs max (runRateLimit windowMs max [] p).2 x).1 with
    | some resp =>
      have hst := hrej (by rw [hd]; exact Option.some_ne_none _)
      rw [hst]
      simp only
      rw [ihk]
      simp
    | none =>
      rw [hadm hd]
      by_cases hk : k = x.key
      · subst hk
        rw [mapGet_mapSet_self]
        simp only [Option.getD_some, List.filter_append]
        have ihx := ih hp x.key x.now (fun a ha => hpx a ha x (by simp))
        rw [filter_window_later windowMs x.now now hx, ihk]
        congr 1
        by_cases hw : (now : Int) - (x.now : Int) < (windowMs : Int)
        · simp [List.filter_cons, hw]
        · simp [List.filter_cons, hw]
      · rw [mapGet_mapSet_ne x.key k _ hk, ihk]
        have hk2 : ¬ x.key = k := fun e => hk e.symm
        simp [List.filter_cons, hk2]


theorem validateRateLimit_congr (windowMs max : Nat) (s1 s2 : LimitStore) (r : LimitRequest)
    (h : mapGet r.key s1 = mapGet r.key s2) :
    (validateRateLimit windowMs max s1 r).1 = (validateRateLimit windowMs max s2 r).1
    ∧ mapGet r.key (validateRateLimit windowMs max s1 r).2
        = mapGet r.key (validateRateLimit windowMs max s2 r).2 := by
  unfold validateRateLimit
  simp only [h]
  split
  · exact ⟨rfl, h⟩
  · exact ⟨rfl, by rw [mapGet_mapSet_self, mapGet_mapSet_self]⟩

theorem validateRateLimit_other (windowMs max : Nat) (store : LimitStore) (r : LimitRequest)
    (k : String) (hk : k ≠ r.key) :
    mapGet k (validateRateLimit windowMs max store r).2 = mapGet k store := by
  unfold validateRateLimit
  simp only
  split
  · rfl
  · exact mapGet_mapSet_ne r.key k _ hk store

theorem runRateLimit_per_key (windowMs max : Nat) (k : String) :
    ∀ (reqs : List LimitRequest) (s1 s2 : LimitStore), mapGet k s1 = mapGet k s2 →
      (runRateLimit windowMs max s1 reqs).1.filter (fun e => e.1.key = k)
        = (runRateLimit windowMs max s2 (reqs.filter fun q => q.key = k)).1
  | [], _, _, _ => rfl
  | r :: rest, s1, s2, h => by
    by_cases hk : r.key = k
    · have hc := validateRateLimit_congr windowMs max s1 s2 r (by rw [hk]; exact h)
      rw [hk] at hc
      have ih := runRateLimit_per_key windowMs max k rest
        (validateRateLimit windowMs max s1 r).2 (validateRateLimit windowMs max s2 r).2 hc.2
      simp only [runRateLimit, List.filter_cons, hk, decide_True, if_true, ih, hc.1]
    · have ho := validateRateLimit_other windowMs max s1 r k (fun e => hk e.symm)
      have ih := runRateLimit_per_key windowMs max k rest
        (validateRateLimit windowMs max s1 r).2 s2 (by rw [ho]; exact h)
      simp only [runRateLimit, List.filter_cons, hk, decide_False, if_false, ih]
      simp

theorem rateLimit_window_bound (windowMs max : Nat) :
    ∀ reqs : List LimitRequest, reqs.Pairwise (fun a b => a.now ≤ b.now) →
      ∀ (k : String) (lo : Nat),
        ((runRateLimit windowMs max [] reqs).1.filter fun e =>
          e.2 = none ∧ e.1.key = k ∧ lo ≤ e.1.now ∧ e.1.now < lo + windowMs).length ≤ max := by
  intro reqs
  induction reqs using List.reverseRecOn with
  | nil =>
    intro _ k lo
    simp [runRateLimit]
  | append_singleton p x ih =>
    intro hsorted k lo
    have hsplit := List.pairwise_append.mp hsorted
    obtain ⟨hp, _, hpx⟩ := hsplit
    have ihk := ih hp k lo
    rw [runRateLimit_snoc]
    simp only [List.filter_append, List.length_append]
    by_cases hcount : (validateRateLimit windowMs max (runRateLimit windowMs max [] p).2 x).1 = none
        ∧ x.key = k ∧ lo ≤ x.now ∧ x.now < lo + windowMs
    · obtain ⟨hnone, hkey, hlo, hhi⟩ := hcount
      have hadm :=
        (validateRateLimit_admit_iff windowMs max (runRateLimit windowMs max [] p).2 x).1.mp hnone
      rw [rateLimit_store_window windowMs max p hp x.key x.now
        (fun a ha => hpx a ha x (by simp)), List.length_map] at hadm
      have hsub : ((runRateLimit windowMs max [] p).1.filter fun e =>
            decide (e.2 = none ∧ e.1.key = k ∧ lo ≤ e.1.now ∧ e.1.now < lo + windowMs)).length
          ≤ ((runRateLimit windowMs max [] p).1.filter fun e =>
            decide (e.2 = none ∧ e.1.key = x.key
              ∧ (x.now : Int) - (e.1.now : Int) < (windowMs : Int))).length := by
        apply List.Sublist.length_le
        apply List.monotone_filter_right
        intro e he
        simp only [decide_eq_true_eq] at he ⊢
        refine ⟨he.1, by rw [he.2.1, hkey], ?_⟩
        omega
      have hlast : ([(x, (validateRateLimit windowMs max (runRateLimit windowMs max [] p).2 x).1)].filter
          fun e => decide (e.2 = none ∧ e.1.key = k ∧ lo ≤ e.1.now
            ∧ e.1.now < lo + windowMs)).length ≤ 1 := by
        exact le_trans (List.length_filter_le _ _) (by simp)
      omega
    · have hlast : [(x, (validateRateLimit windowMs max (runRateLimit windowMs max [] p).2 x).1)].filter
          (fun e => decide (e.2 = none ∧ e.1.key = k ∧ lo ≤ e.1.now
            ∧ e.1.now < lo + windowMs)) = [] := by
        simp only [List.filter_cons, List.filter_nil]
        simp [hcount]
      rw [hlast]
      simpa using ihk

theorem ceil_windowMs (windowMs : Nat) (hw : windowMs > 0) :
    (windowMs + 999) / 1000 = ⌈(windowMs : ℚ) / 1000⌉₊ := by
  symm
  have hn : (windowMs + 999) / 1000 ≠ 0 := by omega
  rw [Nat.ceil_eq_iff hn]
  have h1 : 1000 * ((windowMs + 999) / 1000 - 1) < windowMs := by omega
  have h2 : windowMs ≤ 1000 * ((windowMs + 999) / 1000) := by omega
  constructor
  · rw [lt_div_iff₀ (by norm_num)]
    have : (((1000 * ((windowMs + 999) / 1000 - 1) : ℕ)) : ℚ) < (windowMs : ℚ) := by
      exact_mod_cast h1
    push_cast at this ⊢
    linarith
  · rw [div_le_iff₀ (by norm_num)]
    have : ((windowMs : ℕ) : ℚ) ≤ ((1000 * ((windowMs + 999) / 1000) : ℕ) : ℚ) := by
      exact_mod_cast h2
    push_cast at this ⊢
    linarith

/-- C20: for `windowMs > 0`, any `max` and requests with non-decreasing
timestamps handled from the empty store, the limiter admits the request `r`
that follows the requests `pre` if and only if fewer than `max` of the requests
of `pre` with the key of `r` were admitted and lie less than `windowMs` before
`r`; otherwise it answers 429 `Too many requests` with
`retryAfter = ceil(windowMs / 1000)` and leaves the store as it was.  No key has
more than `max` admitted requests with timestamps in a span `[lo, lo + windowMs)`,
and the answers to the requests of one key are those the limiter gives when it
sees the requests of that key alone. -/
theorem validateRateLimit_window (windowMs max : Nat) (pre : List LimitRequest)
    (r : LimitRequest) (hw : windowMs > 0)
    (hsorted : (pre ++ [r]).Pairwise (fun a b => a.now ≤ b.now)) :
    let past := runRateLimit windowMs max [] pre
    let answer := validateRateLimit windowMs max past.2 r
    (answer.1 = none
      ↔ (past.1.filter fun e => e.2 = none ∧ e.1.key = r.key
          ∧ (r.now : Int) - (e.1.now : Int) < (windowMs : Int)).length < max)
    ∧ (answer.1 ≠ none →
        answer = (some { status := 429, success := false, message := "Too many requests",
                         retryAfter := ⌈(windowMs : ℚ) / 1000⌉₊ }, past.2))
    ∧ runRateLimit windowMs max [] (pre ++ [r]) = (past.1 ++ [(r, answer.1)], answer.2)
    ∧ (∀ (k : String) (lo : Nat),
        ((runRateLimit windowMs max [] (pre ++ [r])).1.filter fun e =>
          e.2 = none ∧ e.1.key = k ∧ lo ≤ e.1.now ∧ e.1.now < lo + windowMs).length ≤ max)
    ∧ (∀ k : String,
        (runRateLimit windowMs max [] (pre ++ [r])).1.filter (fun e => e.1.key = k)
          = (runRateLimit windowMs max [] ((pre ++ [r]).filter fun q => q.key = k)).1) := by
  intro past answer
  obtain ⟨hp, _, hpx⟩ := List.pairwise_append.mp hsorted
  obtain ⟨hiff, _, hrej⟩ := validateRateLimit_admit_iff windowMs max past.2 r
  refine ⟨?_, ?_, runRateLimit_snoc windowMs max pre r [], ?_, ?_⟩
  · rw [hiff, rateLimit_store_window windowMs max pre hp r.key r.now
      (fun a ha => hpx a ha r (by simp)), List.length_map]
  · intro hne
    rw [← ceil_windowMs windowMs hw]
    exact hrej hne
  · intro k lo
    exact rateLimit_window_bound windowMs max (pre ++ [r]) hsorted k lo
  · intro k
    exact runRateLimit_per_key windowMs max k (pre ++ [r]) [] [] rfl

/-- Witness of C20: with a window of 1000 ms and `max = 2`, after `burst` a
third request of client `a` at 500 ms is refused with `retryAfter` 1, and the
store is unchanged. -/
theorem validateRateLimit_window_witness :
    (1000 > 0)
    ∧ (burst ++ [LimitRequest.mk "a" 500]).Pairwise (fun a b => a.now ≤ b.now)
    ∧ ((validateRateLimit 1000 2 (runRateLimit 1000 2 [] burst).2 { key := "a", now := 500 }).1
          = none
        ↔ ((runRateLimit 1000 2 [] burst).1.filter fun e => e.2 = none ∧ e.1.key = "a"
            ∧ ((500 : Nat) : Int) - (e.1.now : Int) < ((1000 : Nat) : Int)).length < 2)
    ∧ validateRateLimit 1000 2 (runRateLimit 1000 2 [] burst).2 { key := "a", now := 500 }
        = (some { status := 429, success := false, message := "Too many requests",
                  retryAfter := 1 }, [("a", [0, 10]), ("b", [20])])
    ∧ (validateRateLimit 1000 2 (runRateLimit 1000 2 [] burst).2 { key := "a", now := 1005 }).1
        = none :=
  ⟨by decide, by decide!,
   (validateRateLimit_window 1000 2 burst { key := "a", now := 500 } (by decide)
      (by decide!)).1,
   by decide!, by decide!⟩

/-! ## `sanitizeInput` -/

/-- C21: the request body `{ notes: 'javajavascript:script:alert(1)' }` leaves
`sanitizeInput` with the string value `javascript:alert(1)`, which contains
`javascript:`; a second run of the sanitizer changes it to `alert(1)`. -/
theorem sanitizeInput_leaves_javascript_scheme :
    (sanitizeInput nestedSchemeRequest).body.strings = ["javascript:alert(1)"]
    ∧ (sanitizeInput nestedSchemeRequest).body.strings.any hasJavascriptScheme = true
    ∧ (sanitizeInput (sanitizeInput nestedSchemeRequest)).body.strings = ["alert(1)"] := by
  refine ⟨by decide!, by decide!, by decide!⟩

/-! ## Stored totals -/

theorem portfolioMetrics_updateMetrics (p : Portfolio) (now : Nat) :
    portfolioMetrics (updateMetrics p now) = portfolioMetrics p := rfl

theorem updateMetrics_totals (p : Portfolio) (now : Nat) :
    (updateMetrics p now).totalInvested = (portfolioMetrics (updateMetrics p now)).totalInvested
    ∧ (updateMetrics p now).totalCurrentValue
        = (portfolioMetrics (updateMetrics p now)).totalCurrentValue
    ∧ (updateMetrics p now).totalProfitLoss
        = (portfolioMetrics (updateMetrics p now)).totalProfitLoss
    ∧ (updateMetrics p now).totalProfitLossPercentage
        = (portfolioMetrics (updateMetrics p now)).totalProfitLossPercentage := by
  rw [portfolioMetrics_updateMetrics]
  exact ⟨rfl, rfl, rfl, rfl⟩

/-- C22: for the portfolio `q` left by `addOrUpdateHolding`, by `updatePrices`
or by a `removeHolding` that returns, the stored `totalInvested`,
`totalCurrentValue`, `totalProfitLoss` and `totalProfitLossPercentage` equal the
values `portfolioMetrics` computes from the holdings of `q`; `removeHolding`
returns exactly when a holding has the given id. -/
theorem methods_keep_totals_in_sync (p : Portfolio) (d : HoldingData)
    (freshId holdingId now : Nat) (priceData : PriceData) :
    (∀ q : Portfolio,
      (q = addOrUpdateHolding p d freshId now ∨ q = updatePrices p priceData now
        ∨ removeHolding p holdingId now = some q) →
      q.totalInvested = (portfolioMetrics q).totalInvested
      ∧ q.totalCurrentValue = (portfolioMetrics q).totalCurrentValue
      ∧ q.totalProfitLoss = (portfolioMetrics q).totalProfitLoss
      ∧ q.totalProfitLossPercentage = (portfolioMetrics q).totalProfitLossPercentage)
    ∧ ((removeHolding p holdingId now).isSome ↔ ∃ h ∈ p.holdings, h.id = holdingId) := by
  refine ⟨?_, ?_⟩
  · intro q hq
    rcases hq with hq | hq | hq
    · rw [hq]
      unfold addOrUpdateHolding
      simp only
      split <;> exact updateMetrics_totals _ _
    · rw [hq]
      unfold updatePrices
      exact updateMetrics_totals _ _
    · unfold removeHolding at hq
      split at hq
      · exact absurd hq (by simp)
      · simp only [Option.some.injEq] at hq
        rw [← hq]
        exact updateMetrics_totals _ _
  · unfold removeHolding
    cases hfind : p.holdings.find? (fun h => decide (h.id = holdingId)) with
    | none =>
      simp only [Option.isSome_none, Bool.false_eq_true, false_iff, not_exists, not_and]
      intro h hh hid
      have := List.find?_eq_none.mp hfind h hh
      simp [hid] at this
    | some x =>
      simp only [Option.isSome_some, true_iff]
      have hx := List.find?_some hfind
      exact ⟨x, List.mem_of_find?_eq_some hfind, by simpa using hx⟩

/-- Witness of C22: removing the holding of `demoPortfolio` leaves a portfolio
without holdings whose stored totals are those of `portfolioMetrics`; after the
top-up the stored `totalInvested` is 65000, and after `BTC` is repriced to 50000
the stored `totalCurrentValue` is 50000. -/
theorem methods_keep_totals_in_sync_witness :
    removeHolding demoPortfolio 1 7
      = some (updateMetrics { demoPortfolio with holdings := [] } 7)
    ∧ ((updateMetrics { demoPortfolio with holdings := [] } 7).totalInvested
        = (portfolioMetrics (updateMetrics { demoPortfolio with holdings := [] } 7)).totalInvested
      ∧ (updateMetrics { demoPortfolio with holdings := [] } 7).totalCurrentValue
        = (portfolioMetrics
            (updateMetrics { demoPortfolio with holdings := [] } 7)).totalCurrentValue
      ∧ (updateMetrics { demoPortfolio with holdings := [] } 7).totalProfitLoss
        = (portfolioMetrics
            (updateMetrics { demoPortfolio with holdings := [] } 7)).totalProfitLoss
      ∧ (updateMetrics { demoPortfolio with holdings := [] } 7).totalProfitLossPercentage
        = (portfolioMetrics
            (updateMetrics { demoPortfolio with holdings := [] } 7)).totalProfitLossPercentage)
    ∧ (addOrUpdateHolding demoPortfolio topUpData 2 9).totalInvested = 65000
    ∧ (updatePrices demoPortfolio btcPrices 9).totalCurrentValue = 50000 :=
  ⟨by decide!,
   (methods_keep_totals_in_sync demoPortfolio topUpData 2 1 7 btcPrices).1 _
     (Or.inr (Or.inr (by decide!))),
   by decide!, by decide!⟩

/-! ## `makeRequest` -/

theorem shouldRetry_iff (e : RequestError) :
    shouldRetry e = true
      ↔ e.response = none ∨ ∃ status, e.response = some status ∧ (500 ≤ status ∨ status = 429) := by
  unfold shouldRetry
  cases e.response with
  | none => simp
  | some s => simp

theorem makeRequest_response (svc : MarketDataService) (outcomes : Nat → Outcome) (k status : Nat)
    (h : outcomes k = Outcome.response status) :
    makeRequest svc outcomes k
      = { result := Outcome.response status, attempts := 1, delays := [] } := by
  rw [makeRequest, h]

theorem makeRequest_retry (svc : MarketDataService) (outcomes : Nat → Outcome) (k : Nat)
    (e : RequestError) (h : outcomes k = Outcome.error e) (hk : k < svc.retryAttempts)
    (hr : shouldRetry e = true) :
    makeRequest svc outcomes k
      = { result := (makeRequest svc outcomes (k + 1)).result
          attempts := (makeRequest svc outcomes (k + 1)).attempts + 1
          delays := svc.retryDelay * (k + 1) :: (makeRequest svc outcomes (k + 1)).delays } := by
  rw [makeRequest, h]
  simp [hk, hr]

theorem makeRequest_rethrow (svc : MarketDataService) (outcomes : Nat → Outcome) (k : Nat)
    (e : RequestError) (h : outcomes k = Outcome.error e)
    (hstop : ¬ (k < svc.retryAttempts ∧ shouldRetry e = true)) :
    makeRequest svc outcomes k
      = { result := Outcome.error e, attempts := 1, delays := [] } := by
  rw [makeRequest, h]
  simp only [hstop, dite_false]

/-- The run of `makeRequest` started with `retryCount = k`, by the number of
retries still allowed. -/
theorem makeRequest_from (svc : MarketDataService) (outcomes : Nat → Outcome) :
    ∀ (left k : Nat), k + left = svc.retryAttempts →
      ∃ n, n ≤ left
        ∧ (makeRequest svc outcomes k).attempts = n + 1
        ∧ (makeRequest svc outcomes k).delays
            = (List.range n).map (fun i => svc.retryDelay * (k + i + 1))
        ∧ (makeRequest svc outcomes k).result = outcomes (k + n)
        ∧ (∀ i, i < n → ∃ e, outcomes (k + i) = Outcome.error e ∧ shouldRetry e = true)
        ∧ (n < left → ∀ e, outcomes (k + n) = Outcome.error e → shouldRetry e = false) := by
  intro left
  induction left with
  | zero =>
    intro k hk
    refine ⟨0, le_refl _, ?_⟩
    cases ho : outcomes k with
    | response status =>
      rw [makeRequest_response svc outcomes k status ho]
      simp [ho]
    | error e =>
      rw [makeRequest_rethrow svc outcomes k e ho (by omega)]
      simp [ho]
  | succ left ih =>
    intro k hk
    cases ho : outcomes k with
    | response status =>
      refine ⟨0, Nat.zero_le _, ?_⟩
      rw [makeRequest_response svc outcomes k status ho]
      simp [ho]
    | error e =>
      by_cases hr : shouldRetry e = true
      · obtain ⟨n, hn, hatt, hdel, hres, hretry, hstop⟩ := ih (k + 1) (by omega)
        refine ⟨n + 1, by omega, ?_⟩
        rw [makeRequest_retry svc outcomes k e ho (by omega) hr]
        refine ⟨by simp [hatt], ?_, ?_, ?_, ?_⟩
        · simp only [hdel, List.range_succ_eq_map, List.map_cons, List.map_map]
          simp only [Nat.add_zero, List.cons.injEq, true_and]
          apply List.map_congr_left
          intro i _
          simp only [Function.comp]
          congr 2
          omega
        · simp only [hres]
          congr 1
          omega
        · intro i hi
          cases i with
          | zero => exact ⟨e, by simpa using ho, hr⟩
          | succ j =>
            obtain ⟨e1, he1, hr1⟩ := hretry j (by omega)
            refine ⟨e1, ?_, hr1⟩
            rw [← he1]
            congr 1
            omega
        · intro hlt e1 he1
          apply hstop (by omega) e1
          rw [← he1]
          congr 1
          omega
      · refine ⟨0, Nat.zero_le _, ?_⟩
        rw [makeRequest_rethrow svc outcomes k e ho (fun h => hr h.2)]
        refine ⟨rfl, by simp, by simp [ho], by simp, ?_⟩
        intro _ e1 he1
        simp only [Nat.add_zero, ho, Outcome.error.injEq] at he1
        rw [← he1]
        simpa using hr

/-- C23: `makeRequest` returns for every sequence of outcomes.  With the
constructor's `retryAttempts = 3` and `retryDelay = 1000` it makes `n + 1 ≤ 4`
attempts for some `n ≤ 3`: each of the first `n` attempts failed with an error
for which `shouldRetry` holds, the waits before the retries are
`1000, 2000, ...` (`1000 * k` before the `k`-th), the run settles as attempt
`n` did (its response, or its error rethrown), and when `n < 3` the last
attempt did not fail with a retryable error.  `shouldRetry` holds exactly for an
error without response or with status `≥ 500` or `429`, and a first error with
a 4xx status other than 429 is rethrown after exactly one attempt. -/
theorem makeRequest_spec (outcomes : Nat → Outcome) :
    (∃ n, n ≤ 3
      ∧ (makeRequest marketDataService outcomes 0).attempts = n + 1
      ∧ (makeRequest marketDataService outcomes 0).attempts ≤ 4
      ∧ (makeRequest marketDataService outcomes 0).delays
          = (List.range n).map (fun i => 1000 * (i + 1))
      ∧ (makeRequest marketDataService outcomes 0).result = outcomes n
      ∧ (∀ i, i < n → ∃ e, outcomes i = Outcome.error e ∧ shouldRetry e = true)
      ∧ (n < 3 → ∀ e, outcomes n = Outcome.error e → shouldRetry e = false))
    ∧ (∀ e, shouldRetry e = true
        ↔ e.response = none
          ∨ ∃ status, e.response = some status ∧ (500 ≤ status ∨ status = 429))
    ∧ (∀ status, 400 ≤ status → status < 500 → status ≠ 429 →
        outcomes 0 = Outcome.error { response := some status } →
        makeRequest marketDataService outcomes 0
          = { result := Outcome.error { response := some status }, attempts := 1,
              delays := [] }) := by
  refine ⟨?_, shouldRetry_iff, ?_⟩
  · obtain ⟨n, hn, hatt, hdel, hres, hretry, hstop⟩ :=
      makeRequest_from marketDataService outcomes 3 0 rfl
    refine ⟨n, hn, hatt, by omega, ?_, ?_, ?_, ?_⟩
    · simpa [marketDataService] using hdel
    · simpa using hres
    · simpa using hretry
    · simpa using hstop
  · intro status h4 h5 h429 ho
    apply makeRequest_rethrow _ _ _ _ ho
    intro h
    have := h.2
    simp [shouldRetry] at this
    omega

/-- Witness of C23: a request answered 503, 503, 200 makes three attempts,
waits 1000 ms and 2000 ms, and returns the response; a request answered 404 is
rethrown after one attempt. -/
theorem makeRequest_spec_witness :
    makeRequest marketDataService flakyOutcomes 0
      = { result := Outcome.response 200, attempts := 3, delays := [1000, 2000] }
    ∧ makeRequest marketDataService (fun _ => Outcome.error { response := some 404 }) 0
      = { result := Outcome.error { response := some 404 }, attempts := 1, delays := [] } :=
  ⟨by simp [makeRequest, flakyOutcomes, marketDataService, shouldRetry],
   (makeRequest_spec (fun _ => Outcome.error { response := some 404 })).2.2 404
     (by decide) (by decide) (by decide) rfl⟩

/-! ## Subscriptions after a disconnect -/

/-- C24: a socket `s1` that connects, subscribes for user `u1`, subscribes
again for user `u2` and disconnects is no longer in `connectedUsers`, but the
socket set of `u1` in `userSubscriptions` still holds `s1`, and
`broadcastPortfolioUpdate` for `u1` emits to `s1`. -/
theorem disconnect_leaves_stale_subscription :
    (runEvents (initializeWebSocket WsState.initial) resubscribeEvents).connectedUsers = []
    ∧ (runEvents (initializeWebSocket WsState.initial) resubscribeEvents).userSubscriptions
        = [("u1", ["s1"])]
    ∧ broadcastPortfolioUpdate (runEvents (initializeWebSocket WsState.initial) resubscribeEvents)
        "u1" demoPortfolio 9
        = [{ socketId := "s1", payload := Payload.portfolioUpdate demoPortfolio 9 }] := by
  refine ⟨by decide!, by decide!, by decide!⟩

/-! ## Divisor of the performance -/

/-- C25: the holding stored by `POST /holdings` of 5 `FREE` coins bought at 0
(a body that passes validation) satisfies the schema constraints, yet its
`averagePurchasePrice`, the divisor of `profitLossPercentage` and of the
performance, is 0, and its performance in `GET /summary` is `0 / 0 = NaN`. -/
theorem schema_admits_zero_divisor :
    validatePortfolioData freeBody = []
    ∧ (findOne freeDb "demo-user").map
        (fun p => p.holdings.map
          (fun h => (validHolding h, h.averagePurchasePrice, performanceOf h)))
      = some [(true, 0, JsNum.nan)] := by
  refine ⟨by decide!, by decide!⟩

/-! ## Symbol uniqueness -/

/-- C26: a portfolio whose only holding has the symbol `BTC` (upper-case,
pairwise distinct) holds two holdings with the symbol `BTC` after
`addOrUpdateHolding` with the symbol `'btc '`: `find` compares with the
upper-cased `'BTC '`, and the schema stores the pushed symbol trimmed. -/
theorem addOrUpdateHolding_duplicates_symbol :
    (addOrUpdateHolding (newPortfolio 0 "test-user" [] 0) firstBuyData 1 5).holdings.map
        (fun h => h.symbol) = ["BTC"]
    ∧ (addOrUpdateHolding
        (addOrUpdateHolding (newPortfolio 0 "test-user" [] 0) firstBuyData 1 5)
        paddedBuyData 2 6).holdings.map (fun h => h.symbol) = ["BTC", "BTC"]
    ∧ ¬ ((addOrUpdateHolding
        (addOrUpdateHolding (newPortfolio 0 "test-user" [] 0) firstBuyData 1 5)
        paddedBuyData 2 6).holdings.map (fun h => h.symbol)).Nodup := by
  refine ⟨by decide!, by decide!, by decide!⟩

/-! ## The merged average -/

/-- C27, as stated, fails in binary64: merging `0.2` at 40000 into a holding
of `0.1` at 40000 (amounts non-negative, sum positive) computes the amount
`0.30000000000000004` and the average `39999.99999999999`, which is below both
the old average and the added price, and the computed amount times the computed
average is less than the amount invested. -/
theorem mergeAverage_below_both_prices :
    (0 ≤ tenthHolding.amount ∧ 0 ≤ fifthData.amount
      ∧ 0 < tenthHolding.amount + fifthData.amount)
    ∧ mergeTotalAmount tenthHolding fifthData
        = JsNum.num (1351079888211149 / 4503599627370496)
    ∧ mergeAverage tenthHolding fifthData = JsNum.num (5497558138879999 / 137438953472)
    ∧ (5497558138879999 / 137438953472 : ℚ)
        < min tenthHolding.averagePurchasePrice fifthData.purchasePrice
    ∧ (1351079888211149 / 4503599627370496 : ℚ) * (5497558138879999 / 137438953472)
        < tenthHolding.amount * tenthHolding.averagePurchasePrice
          + fifthData.amount * fifthData.purchasePrice := by
  refine ⟨by decide!, by decide!, by decide!, by decide!, by decide!⟩

/-- C27, amended: when `addOrUpdateHolding` merges into the holding `old` that
`find` returns (it replaces `old` in place), with `old.amount ≥ 0`, added
amount `≥ 0`, a positive sum, non-negative prices, and each of the four numbers
zero or between `2^(-255)` and `2^255` (so that no operation overflows or
underflows), the amount and the average computed in binary64 are finite, the
average lies between the old average and the added price up to a relative
rounding error of `2^(-50)`, and the new amount times the new average equals
`old.amount * old.averagePurchasePrice + amount * purchasePrice` up to the same
relative error. -/
theorem mergeAverage_within_rounding (p : Portfolio) (d : HoldingData)
    (freshId now : Nat) (pre post : List Holding) (old : Holding)
    (hsplit : p.holdings = pre ++ old :: post)
    (hpre : ∀ h ∈ pre, h.symbol ≠ toUpperCase d.symbol)
    (hold : old.symbol = toUpperCase d.symbol)
    (hold0 : 0 ≤ old.amount) (hadd0 : 0 ≤ d.amount) (hpos : 0 < old.amount + d.amount)
    (hprice : 0 ≤ old.averagePurchasePrice ∧ 0 ≤ d.purchasePrice)
    (hrange : ∀ z ∈ [old.amount, d.amount, old.averagePurchasePrice, d.purchasePrice],
      z = 0 ∨ (1 / 2 ^ 255 ≤ z ∧ z ≤ 2 ^ 255)) :
    (∃ merged : Holding,
      (addOrUpdateHolding p d freshId now).holdings = pre ++ merged :: post
      ∧ merged.id = old.id ∧ merged.symbol = old.symbol)
    ∧ ∃ amount average : ℚ,
      mergeTotalAmount old d = JsNum.num amount
      ∧ mergeAverage old d = JsNum.num average
      ∧ (1 - 1 / 2 ^ 50) * min old.averagePurchasePrice d.purchasePrice ≤ average
      ∧ average ≤ (1 + 1 / 2 ^ 50) * max old.averagePurchasePrice d.purchasePrice
      ∧ |amount * average
            - (old.amount * old.averagePurchasePrice + d.amount * d.purchasePrice)|
          ≤ (old.amount * old.averagePurchasePrice + d.amount * d.purchasePrice) / 2 ^ 50 := by
  have hpre1 : ∀ y ∈ pre,
      (fun h : Holding => decide (h.symbol = toUpperCase d.symbol)) y = false := by
    intro y hy
    simpa using hpre y hy
  have hx : (fun h : Holding => decide (h.symbol = toUpperCase d.symbol)) old = true := by
    simpa using hold
  have hfind := find_split _ pre post old hpre1 hx
  have hupd := updateFirst_split _ (fun h => mergeHolding h d now) pre post old hpre1 hx
  constructor
  · refine ⟨mergeHolding old d now, ?_, rfl, rfl⟩
    unfold addOrUpdateHolding
    simp only [hsplit, hfind, updateMetrics_holdings, hupd]
  · exact merge_rounding old.amount d.amount old.averagePurchasePrice d.purchasePrice
      hold0 hadd0 hpos hprice.1 hprice.2
      (hrange _ (by simp)) (hrange _ (by simp)) (hrange _ (by simp)) (hrange _ (by simp))

/-- Witness of the amended C27: `BTC` 1 at 40000 topped up with 0.5 at 50000.
The computed amount is 1.5 and the computed average `43333.333333333336`, the
binary64 number nearest to 130000/3. -/
theorem mergeAverage_within_rounding_witness :
    (∃ merged : Holding,
      (addOrUpdateHolding demoPortfolio topUpData 2 9).holdings = [] ++ merged :: []
      ∧ merged.id = (mkHolding 1 0 btcInput).id
      ∧ merged.symbol = (mkHolding 1 0 btcInput).symbol)
    ∧ (∃ amount average : ℚ,
      mergeTotalAmount (mkHolding 1 0 btcInput) topUpData = JsNum.num amount
      ∧ mergeAverage (mkHolding 1 0 btcInput) topUpData = JsNum.num average
      ∧ (1 - 1 / 2 ^ 50)
          * min (mkHolding 1 0 btcInput).averagePurchasePrice topUpData.purchasePrice ≤ average
      ∧ average ≤ (1 + 1 / 2 ^ 50)
          * max (mkHolding 1 0 btcInput).averagePurchasePrice topUpData.purchasePrice
      ∧ |amount * average
            - ((mkHolding 1 0 btcInput).amount * (mkHolding 1 0 btcInput).averagePurchasePrice
                + topUpData.amount * topUpData.purchasePrice)|
          ≤ ((mkHolding 1 0 btcInput).amount * (mkHolding 1 0 btcInput).averagePurchasePrice
                + topUpData.amount * topUpData.purchasePrice) / 2 ^ 50)
    ∧ mergeTotalAmount (mkHolding 1 0 btcInput) topUpData = JsNum.num (3 / 2)
    ∧ mergeAverage (mkHolding 1 0 btcInput) topUpData
        = JsNum.num (5955687983786667 / 137438953472) :=
  ⟨(mergeAverage_within_rounding demoPortfolio topUpData 2 9 [] []
      (mkHolding 1 0 btcInput) (by decide!) (by simp) (by decide!) (by decide!) (by decide!)
      (by decide!) (by decide!) (by decide!)).1,
   (mergeAverage_within_rounding demoPortfolio topUpData 2 9 [] []
      (mkHolding 1 0 btcInput) (by decide!) (by simp) (by decide!) (by decide!) (by decide!)
      (by decide!) (by decide!) (by decide!)).2,
   by decide!, by decide!⟩

/-! ## Validated bodies that cannot be stored -/

/-- C28: the bodies `{ symbol: 'BTC', amount: 1, purchasePrice: 40000 }` (no
name) and `{ symbol: 'BTC', name: 'Bitcoin', amount: 1 }` (no purchase price)
pass `validatePortfolioData` without an error, and `POST /holdings` answers
each with the 500 response `Failed to add holding`, storing nothing. -/
theorem postHoldings_validated_body_fails :
    validatePortfolioData namelessBody = []
    ∧ postHoldings emptyDb none namelessBody 0 = (failure "Failed to add holding", emptyDb)
    ∧ validatePortfolioData pricelessBody = []
    ∧ postHoldings emptyDb none pricelessBody 0 = (failure "Failed to add holding", emptyDb) := by
  refine ⟨by decide!, by decide!, by decide!, by decide!⟩

end CryptoTracker
